import Mathlib

/-!
# clavier: input control state machines

A shallow embedding of `input.go`.  Go pointers are addresses into an explicit
heap of control objects, Go maps are lists of entries that are read and written
through `mapGet`, `mapSet` and `mapDelete`, and the two overridable backend
queries are passed to the functions that call them.  A loop over a map visits
the entries in list order; the statements hold for every list, hence for every
order in which Go may range over the map.
-/

namespace ebiten

/-- Key codes of the input backend: `type Key int`. -/
abbrev Key := Int

/-- Mouse button codes of the input backend: `type MouseButton int`. -/
abbrev MouseButton := Int

end ebiten

namespace clavier

/-- Toggle state of a control: `type State int`. -/
abbrev State := Int

/-- First value of the `iota` block. -/
def StillDeactivatedState : State := 0

/-- Second value of the `iota` block. -/
def JustDeactivatedState : State := 1

/-- Third value of the `iota` block. -/
def JustActivatedState : State := 2

/-- Fourth value of the `iota` block. -/
def StillActivatedState : State := 3

/-- Declarations of the backend library that `input.go` refers to and that live
outside this repository: the loop bounds used by `init` and `Key.String`. -/
structure Backend where
  KeyA : ebiten.Key
  KeyMax : ebiten.Key
  MouseButtonLeft : ebiten.MouseButton
  MouseButtonMiddle : ebiten.MouseButton
  keyString : ebiten.Key → String

/-- The two package variables `isKeyPressedFunc` and `isMouseButtonPressedFunc`
as they stand during one call of `Update`. -/
structure Frame where
  isKeyPressedFunc : ebiten.Key → Bool
  isMouseButtonPressedFunc : ebiten.MouseButton → Bool

/-- Name under which a key combination is stored: `type keyComboName string`. -/
abbrev keyComboName := String

/-- Joins the string forms of the keys with a plus sign. -/
def makeKeyComboName (E : Backend) (keys : List ebiten.Key) : keyComboName :=
  String.intercalate "+" (keys.map E.keyString)

/-- Address of a control object on the heap. -/
abbrev Addr := Nat

/-- A value of the `Control` interface: a reference to a control object. -/
abbrev Control := Addr

/-- Go struct `keyControl`. -/
structure keyControl where
  key : ebiten.Key
  state : State

/-- Go struct `keyComboControl`. -/
structure keyComboControl where
  keys : List ebiten.Key
  state : State

/-- Go struct `mouseButtonControl`. -/
structure mouseButtonControl where
  button : ebiten.MouseButton
  state : State

/-- An implementation of the `Control` interface supplied by a caller: private
data, what its `Update` does to the data, and what its `State` reports. -/
structure customControl where
  data : Nat
  update : Nat → Nat
  report : Nat → State

/-- A control object on the heap, tagged with its dynamic type. -/
inductive Object where
  | key (kc : keyControl)
  | combo (kcc : keyComboControl)
  | mouse (mbc : mouseButtonControl)
  | user (uc : customControl)

/-- Reading `m[k]` with the comma-ok form. -/
def mapGet {κ α : Type} [DecidableEq κ] : List (κ × α) → κ → Option α
  | [], _ => none
  | (k1, v) :: m, k => if k1 = k then some v else mapGet m k

/-- Assignment `m[k] = v`: replaces the entry of `k` or adds one. -/
def mapSet {κ α : Type} [DecidableEq κ] : List (κ × α) → κ → α → List (κ × α)
  | [], k, v => [(k, v)]
  | (k1, v1) :: m, k, v => if k1 = k then (k, v) :: m else (k1, v1) :: mapSet m k v

/-- Builtin `delete(m, k)`. -/
def mapDelete {κ α : Type} [DecidableEq κ] : List (κ × α) → κ → List (κ × α)
  | [], _ => []
  | (k1, v1) :: m, k => if k1 = k then mapDelete m k else (k1, v1) :: mapDelete m k

/-- The package state: the heap of control objects and the four package maps. -/
structure Registry where
  heap : List Object
  keyControls : List (ebiten.Key × Addr)
  keyComboControls : List (keyComboName × Addr)
  mouseButtonControls : List (ebiten.MouseButton × Addr)
  userControls : List (Control × Control)

/-- Transition of a key: asks the backend and switches on the previous state. -/
def updateKeyState (isKeyPressedFunc : ebiten.Key → Bool) (key : ebiten.Key)
    (prevState : State) : State :=
  let currentPressed := isKeyPressedFunc key
  if currentPressed && (prevState == StillDeactivatedState || prevState == JustDeactivatedState) then
    JustActivatedState
  else if currentPressed && (prevState == JustActivatedState || prevState == StillActivatedState) then
    StillActivatedState
  else if !currentPressed && (prevState == StillActivatedState || prevState == JustActivatedState) then
    JustDeactivatedState
  else if !currentPressed && (prevState == StillDeactivatedState || prevState == JustDeactivatedState) then
    StillDeactivatedState
  else
    prevState

/-- Transition of a mouse button. -/
def updateMouseButtonState (isMouseButtonPressedFunc : ebiten.MouseButton → Bool)
    (btn : ebiten.MouseButton) (prevState : State) : State :=
  let currentPressed := isMouseButtonPressedFunc btn
  if currentPressed && (prevState == StillDeactivatedState || prevState == JustDeactivatedState) then
    JustActivatedState
  else if currentPressed && (prevState == JustActivatedState || prevState == StillActivatedState) then
    StillActivatedState
  else if !currentPressed && (prevState == StillActivatedState || prevState == JustActivatedState) then
    JustDeactivatedState
  else if !currentPressed && (prevState == StillDeactivatedState || prevState == JustDeactivatedState) then
    StillDeactivatedState
  else
    prevState

/-- The key control that `keyControls[key]` points to, if the map has the key. -/
def Registry.keyControlAt (r : Registry) (key : ebiten.Key) : Option keyControl :=
  match mapGet r.keyControls key with
  | some a =>
    match r.heap[a]? with
    | some (Object.key kc) => some kc
    | _ => none
  | none => none

/-- The loop of `updateKeyComboState`: starts from true and stops with false at
the first key that has no entry or whose control is in neither active state. -/
def allPressedLoop (r : Registry) : List ebiten.Key → Bool
  | [] => true
  | key :: rest =>
    match r.keyControlAt key with
    | some kc =>
      if kc.state != StillActivatedState && kc.state != JustActivatedState then false
      else allPressedLoop r rest
    | none => false

/-- Transition of a key combination: reads the key controls of the registry. -/
def updateKeyComboState (r : Registry) (keys : List ebiten.Key) (prevState : State) : State :=
  let allPressed := allPressedLoop r keys
  if allPressed && (prevState == StillDeactivatedState || prevState == JustDeactivatedState) then
    JustActivatedState
  else if allPressed && (prevState == JustActivatedState || prevState == StillActivatedState) then
    StillActivatedState
  else if !allPressed && (prevState == StillActivatedState || prevState == JustActivatedState) then
    JustDeactivatedState
  else if !allPressed && (prevState == StillDeactivatedState || prevState == JustDeactivatedState) then
    StillDeactivatedState
  else
    prevState

/-- Method `(*keyControl).Update`. -/
def keyControl.Update (f : Frame) (kc : keyControl) : keyControl :=
  { kc with state := updateKeyState f.isKeyPressedFunc kc.key kc.state }

/-- Method `(*keyControl).State`. -/
def keyControl.State (kc : keyControl) : State := kc.state

/-- Method `(*keyComboControl).Update`. -/
def keyComboControl.Update (r : Registry) (kcc : keyComboControl) : keyComboControl :=
  { kcc with state := updateKeyComboState r kcc.keys kcc.state }

/-- Method `(*keyComboControl).State`. -/
def keyComboControl.State (kcc : keyComboControl) : State := kcc.state

/-- Method `(*mouseButtonControl).Update`. -/
def mouseButtonControl.Update (f : Frame) (mbc : mouseButtonControl) : mouseButtonControl :=
  { mbc with state := updateMouseButtonState f.isMouseButtonPressedFunc mbc.button mbc.state }

/-- Method `(*mouseButtonControl).State`. -/
def mouseButtonControl.State (mbc : mouseButtonControl) : State := mbc.state

/-- The `Update` method of a caller-supplied control. -/
def customControl.Update (uc : customControl) : customControl :=
  { uc with data := uc.update uc.data }

/-- The `State` method of a caller-supplied control. -/
def customControl.State (uc : customControl) : State := uc.report uc.data

/-- Interface call `c.Update()` on an object: dispatch on the dynamic type. -/
def Object.Update (f : Frame) (r : Registry) : Object → Object
  | Object.key kc => Object.key (kc.Update f)
  | Object.combo kcc => Object.combo (kcc.Update r)
  | Object.mouse mbc => Object.mouse (mbc.Update f)
  | Object.user uc => Object.user uc.Update

/-- Interface call `c.State()` on an object. -/
def Object.State : Object → State
  | Object.key kc => kc.State
  | Object.combo kcc => kcc.State
  | Object.mouse mbc => mbc.State
  | Object.user uc => uc.State

/-- Interface call `c.Update()` through a reference: the object is updated in
place on the heap. -/
def Registry.updateAt (f : Frame) (r : Registry) (c : Control) : Registry :=
  match r.heap[c]? with
  | some o => { r with heap := r.heap.set c (o.Update f r) }
  | none => r

/-- Interface call `c.State()` through a reference. -/
def Registry.State (r : Registry) (c : Control) : Option State :=
  (r.heap[c]?).map Object.State

/-- First loop of `Update`: every key control. -/
def updateKeys (f : Frame) (r : Registry) : Registry :=
  r.keyControls.foldl (fun s p => s.updateAt f p.2) r

/-- Second loop of `Update`: every mouse button control. -/
def updateMouseButtons (f : Frame) (r : Registry) : Registry :=
  r.mouseButtonControls.foldl (fun s p => s.updateAt f p.2) r

/-- Third loop of `Update`: every key combination. -/
def updateKeyCombos (f : Frame) (r : Registry) : Registry :=
  r.keyComboControls.foldl (fun s p => s.updateAt f p.2) r

/-- Fourth loop of `Update`: every caller-supplied control. -/
def updateUserControls (f : Frame) (r : Registry) : Registry :=
  r.userControls.foldl (fun s p => s.updateAt f p.2) r

/-- One frame: the four loops in the order of the source. -/
def Update (f : Frame) (r : Registry) : Registry :=
  updateUserControls f (updateKeyCombos f (updateMouseButtons f (updateKeys f r)))

/-- Several frames, one call of `Update` per element. -/
def Updates (fs : List Frame) (r : Registry) : Registry :=
  fs.foldl (fun s f => Update f s) r

/-- Adds `c` to `userControls`; the second component is the returned closure. -/
def RegisterCustomControl (r : Registry) (c : Control) : Registry × (Registry → Registry) :=
  ({ r with userControls := mapSet r.userControls c c },
    fun s => { s with userControls := mapDelete s.userControls c })

/-- Accessor `Key`: stores a fresh control when the key has none, then returns
whatever `keyControls[key]` holds. -/
def Key (r : Registry) (key : ebiten.Key) : Registry × Option Control :=
  let r1 : Registry :=
    if (mapGet r.keyControls key).isNone then
      { r with
        heap := r.heap ++ [Object.key { key := key, state := StillDeactivatedState }],
        keyControls := mapSet r.keyControls key r.heap.length }
    else r
  (r1, mapGet r1.keyControls key)

/-- Accessor `KeyCombo`: as `Key`, under the name made from the keys. -/
def KeyCombo (E : Backend) (r : Registry) (keys : List ebiten.Key) : Registry × Option Control :=
  let comboName := makeKeyComboName E keys
  let r1 : Registry :=
    if (mapGet r.keyComboControls comboName).isNone then
      { r with
        heap := r.heap ++ [Object.combo { keys := keys, state := StillDeactivatedState }],
        keyComboControls := mapSet r.keyComboControls comboName r.heap.length }
    else r
  (r1, mapGet r1.keyComboControls comboName)

/-- Accessor `MouseButton`. -/
def MouseButton (r : Registry) (btn : ebiten.MouseButton) : Registry × Option Control :=
  let r1 : Registry :=
    if (mapGet r.mouseButtonControls btn).isNone then
      { r with
        heap := r.heap ++ [Object.mouse { button := btn, state := StillDeactivatedState }],
        mouseButtonControls := mapSet r.mouseButtonControls btn r.heap.length }
    else r
  (r1, mapGet r1.mouseButtonControls btn)

/-- The values of `for index := lo; index < hi; index++`. -/
def forRange (lo hi : Int) : List Int :=
  (List.range (hi - lo).toNat).map (fun (i : Nat) => lo + Int.ofNat i)

/-- The four package maps as created by their `make` initialisers. -/
def emptyRegistry : Registry :=
  { heap := [], keyControls := [], keyComboControls := [], mouseButtonControls := [],
    userControls := [] }

/-- Body of the first loop of `init`. -/
def initKey (r : Registry) (index : ebiten.Key) : Registry :=
  { r with
    heap := r.heap ++ [Object.key { key := index, state := StillDeactivatedState }],
    keyControls := mapSet r.keyControls index r.heap.length }

/-- Body of the second loop of `init`. -/
def initMouseButton (r : Registry) (index : ebiten.MouseButton) : Registry :=
  { r with
    heap := r.heap ++ [Object.mouse { button := index, state := StillDeactivatedState }],
    mouseButtonControls := mapSet r.mouseButtonControls index r.heap.length }

/-- Package initialisation. -/
def init (E : Backend) : Registry :=
  let r1 := (forRange E.KeyA E.KeyMax).foldl initKey emptyRegistry
  (forRange E.MouseButtonLeft E.MouseButtonMiddle).foldl initMouseButton r1

/-- `State()` of what an accessor returned. -/
def resultState (p : Registry × Option Control) : Option State :=
  p.2.bind (fun c => p.1.State c)

/-- A list of interface calls `c.Update()` made one after the other. -/
def updateAll (f : Frame) (cs : List Control) (r : Registry) : Registry :=
  cs.foldl (fun s c => s.updateAt f c) r

/-- References held by `keyControls`, in loop order. -/
def Registry.keyRefs (r : Registry) : List Control := r.keyControls.map Prod.snd

/-- References held by `mouseButtonControls`, in loop order. -/
def Registry.mouseButtonRefs (r : Registry) : List Control := r.mouseButtonControls.map Prod.snd

/-- References held by `keyComboControls`, in loop order. -/
def Registry.keyComboRefs (r : Registry) : List Control := r.keyComboControls.map Prod.snd

/-- References held by `userControls`, in loop order. -/
def Registry.userRefs (r : Registry) : List Control := r.userControls.map Prod.snd

/-- References held by the three maps of the package-made controls. -/
def Registry.builtinRefs (r : Registry) : List Control :=
  r.keyRefs ++ r.mouseButtonRefs ++ r.keyComboRefs

/-- An entry of `keyControls` points to a key control made for that key. -/
def keyEntryOk (r : Registry) (p : ebiten.Key × Addr) : Bool :=
  match r.heap[p.2]? with
  | some (Object.key kc) => decide (kc.key = p.1)
  | _ => false

/-- An entry of `mouseButtonControls` points to a control made for that button. -/
def mouseButtonEntryOk (r : Registry) (p : ebiten.MouseButton × Addr) : Bool :=
  match r.heap[p.2]? with
  | some (Object.mouse mbc) => decide (mbc.button = p.1)
  | _ => false

/-- An entry of `keyComboControls` points to a key combination. -/
def keyComboEntryOk (r : Registry) (p : keyComboName × Addr) : Bool :=
  match r.heap[p.2]? with
  | some (Object.combo _) => true
  | _ => false

/-- Shape of the package state that the accessors and `init` maintain: each
entry of the three package-made maps has an object of its own, of the type and
identity of its map key, and `userControls` maps distinct references to
themselves. -/
def Registry.WF (r : Registry) : Prop :=
  r.builtinRefs.Nodup ∧
  (∀ p ∈ r.keyControls, keyEntryOk r p = true) ∧
  (∀ p ∈ r.mouseButtonControls, mouseButtonEntryOk r p = true) ∧
  (∀ p ∈ r.keyComboControls, keyComboEntryOk r p = true) ∧
  r.userRefs.Nodup ∧
  (∀ p ∈ r.userControls, p.1 = p.2)

instance (r : Registry) : Decidable r.WF := by
  unfold Registry.WF; infer_instance

/-- The state is one of the four named values. -/
def IsNamedState (s : State) : Prop :=
  s = StillDeactivatedState ∨ s = JustDeactivatedState ∨ s = JustActivatedState ∨
    s = StillActivatedState

instance (s : State) : Decidable (IsNamedState s) := by
  unfold IsNamedState; infer_instance

/-- The state counts as active: JustActivated or StillActivated. -/
def IsActiveState (s : State) : Prop :=
  s = JustActivatedState ∨ s = StillActivatedState

instance (s : State) : Decidable (IsActiveState s) := by
  unfold IsActiveState; infer_instance

/-- A small backend for concrete runs: key codes 0, 1, 2 lie below the bound 3
and button code 0 lies below the bound 1. -/
def sampleBackend : Backend :=
  { KeyA := 0, KeyMax := 3, MouseButtonLeft := 0, MouseButtonMiddle := 1,
    keyString := fun k => if k = 0 then "A" else if k = 1 then "B" else "C" }

/-- A frame in which the backend reports every key and button as pressed. -/
def pressAll : Frame :=
  { isKeyPressedFunc := fun _ => true, isMouseButtonPressedFunc := fun _ => true }

/-- A frame in which the backend reports every key and button as released. -/
def pressNone : Frame :=
  { isKeyPressedFunc := fun _ => false, isMouseButtonPressedFunc := fun _ => false }

/-- The switch that the three update functions share, with the boolean of its
cases as an argument. -/
def transition (activeNow : Bool) (prevState : State) : State :=
  if activeNow && (prevState == StillDeactivatedState || prevState == JustDeactivatedState) then
    JustActivatedState
  else if activeNow && (prevState == JustActivatedState || prevState == StillActivatedState) then
    StillActivatedState
  else if !activeNow && (prevState == StillActivatedState || prevState == JustActivatedState) then
    JustDeactivatedState
  else if !activeNow && (prevState == StillDeactivatedState || prevState == JustDeactivatedState) then
    StillDeactivatedState
  else
    prevState

/-- What the statements about a combination of two keys assume of the package
state: both keys have an entry in `keyControls` whose control is in a named
state, and `c` is an entry of `keyComboControls`, not also held in
`userControls`, that points to a combination of exactly these keys in a named
state. -/
def PairReady (r : Registry) (A B : ebiten.Key) (c : Control) : Prop :=
  r.WF ∧
  (∃ a s, mapGet r.keyControls A = some a ∧ r.State a = some s ∧ IsNamedState s) ∧
  (∃ b s, mapGet r.keyControls B = some b ∧ r.State b = some s ∧ IsNamedState s) ∧
  (∃ n, mapGet r.keyComboControls n = some c) ∧
  c ∉ r.userRefs ∧
  (∃ s, r.heap[c]? = some (Object.combo { keys := [A, B], state := s }) ∧ IsNamedState s)

/-- What the statements about one combination assume of the package state: `c`
is an entry of `keyComboControls`, not also held in `userControls`, that points
to a combination of the keys `keys` in state `s`. -/
def ComboReady (r : Registry) (c : Control) (keys : List ebiten.Key) (s : State) : Prop :=
  r.WF ∧
  (∃ n, mapGet r.keyComboControls n = some c) ∧
  c ∉ r.userRefs ∧
  r.heap[c]? = some (Object.combo { keys := keys, state := s })

/-- A call of one of the three accessors. -/
inductive Request where
  | key (key : ebiten.Key)
  | mouseButton (btn : ebiten.MouseButton)
  | keyCombo (keys : List ebiten.Key)

/-- The package state after the call. -/
def Request.run (E : Backend) (r : Registry) : Request → Registry
  | Request.key k => (Key r k).1
  | Request.mouseButton b => (MouseButton r b).1
  | Request.keyCombo ks => (KeyCombo E r ks).1

/-- The package state after a series of accessor calls. -/
def requests (E : Backend) (qs : List Request) (r : Registry) : Registry :=
  qs.foldl (fun s q => q.run E s) r

/-- Every entry of the three package-made maps points to a control whose
`State()` is StillDeactivated. -/
def Fresh (r : Registry) : Prop :=
  (∀ p ∈ r.keyControls, r.State p.2 = some StillDeactivatedState) ∧
  (∀ p ∈ r.mouseButtonControls, r.State p.2 = some StillDeactivatedState) ∧
  (∀ p ∈ r.keyComboControls, r.State p.2 = some StillDeactivatedState)

/-- A caller makes a control object of its own; the reference to it is returned. -/
def newCustomControl (r : Registry) (uc : customControl) : Registry × Control :=
  ({ r with heap := r.heap ++ [Object.user uc] }, r.heap.length)

/-- A caller-supplied control that counts its updates and reports JustActivated
after the first one. -/
def sampleCustom : customControl :=
  { data := 0, update := fun n => n + 1,
    report := fun n => if n = 1 then JustActivatedState else StillDeactivatedState }

/-- A call into the package, or a caller making a control object of its own. -/
inductive Op where
  | request (q : Request)
  | update (f : Frame)
  | newCustom (uc : customControl)
  | register (c : Control)
  | unregister (c : Control)

/-- The package state after the call. -/
def Op.run (E : Backend) (r : Registry) : Op → Registry
  | Op.request q => q.run E r
  | Op.update f => Update f r
  | Op.newCustom uc => (newCustomControl r uc).1
  | Op.register c => (RegisterCustomControl r c).1
  | Op.unregister c => (RegisterCustomControl r c).2 r

/-- The package state after `init` and a series of calls. -/
def runOps (E : Backend) (ops : List Op) : Registry :=
  ops.foldl (fun s op => op.run E s) (init E)

/-- The characters that follow the first name in a joined combination name: a
plus sign and the name, for every further name. -/
def plusTail : List String → List Char
  | [] => []
  | a :: rest => '+' :: (a.data ++ plusTail rest)

/-- Facade `JustActivated`: compares `c.State()` with JustActivatedState. -/
def JustActivated (r : Registry) (c : Control) : Option Bool :=
  (r.State c).map (fun s => s == JustActivatedState)

/-- Facade `StillActivated`: compares `c.State()` with StillActivatedState. -/
def StillActivated (r : Registry) (c : Control) : Option Bool :=
  (r.State c).map (fun s => s == StillActivatedState)

/-- Facade `JustDeactivated`: compares `c.State()` with JustDeactivatedState. -/
def JustDeactivated (r : Registry) (c : Control) : Option Bool :=
  (r.State c).map (fun s => s == JustDeactivatedState)

/-- Facade `StillDeactivated`: compares `c.State()` with StillDeactivatedState. -/
def StillDeactivated (r : Registry) (c : Control) : Option Bool :=
  (r.State c).map (fun s => s == StillDeactivatedState)

/-- Facade `Active`: `JustActivated(c) || StillActivated(c)`, the second call
made only when the first is false. -/
def Active (r : Registry) (c : Control) : Option Bool :=
  (JustActivated r c).bind (fun a => if a then some true else StillActivated r c)

/-- Facade `Deactivated`: `JustDeactivated(c) || StillDeactivated(c)`. -/
def Deactivated (r : Registry) (c : Control) : Option Bool :=
  (JustDeactivated r c).bind (fun a => if a then some true else StillDeactivated r c)

/-- Which case of the switch shared by the three update functions is taken: 1 to
4 for the four cases in the order of the source, 0 when none of them holds and
the function goes on to `return prevState`. -/
def firedCase (activeNow : Bool) (prevState : State) : Nat :=
  if activeNow && (prevState == StillDeactivatedState || prevState == JustDeactivatedState) then
    1
  else if activeNow && (prevState == JustActivatedState || prevState == StillActivatedState) then
    2
  else if !activeNow && (prevState == StillActivatedState || prevState == JustActivatedState) then
    3
  else if !activeNow && (prevState == StillDeactivatedState || prevState == JustDeactivatedState) then
    4
  else
    0

/-- A key control, mouse button control or combination holds a named state;
nothing is asked of a caller-supplied control. -/
def Object.Named : Object → Prop
  | Object.user _ => True
  | o => IsNamedState o.State

/-- Every package-made control object of the heap holds a named state. -/
def AllNamed (r : Registry) : Prop :=
  ∀ (a : Control) (o : Object), r.heap[a]? = some o → o.Named

/-- The control at `a` follows the reading `ρ` of the backend: whatever frames
have passed, one more frame takes its state through the shared switch with the
reading of that frame. -/
def Tracks (ρ : Frame → Bool) (r : Registry) (a : Control) : Prop :=
  ∀ (fs : List Frame) (f : Frame), ∃ s, (Updates fs r).State a = some s ∧
    (Updates (fs ++ [f]) r).State a = some (transition (ρ f) s)

/-- Edge detection over the run `fs`, the frame at list index `i` being frame
`i + 1` of the run: after it the control is JustActivated exactly when its
reading is true and it is the first frame or the reading of the frame before is
false, JustDeactivated exactly when its reading is false and there is a frame
before whose reading is true, and active exactly when its reading is true; and
neither Just state is reported after this frame and again after the next. -/
def EdgeDetected (ρ : Frame → Bool) (r : Registry) (a : Control) (fs : List Frame) : Prop :=
  ∀ (i : Nat) (f : Frame), fs[i]? = some f →
    ((Updates (fs.take (i + 1)) r).State a = some JustActivatedState ↔
      (ρ f = true ∧ (i = 0 ∨ ∃ j g, i = j + 1 ∧ fs[j]? = some g ∧ ρ g = false))) ∧
    ((Updates (fs.take (i + 1)) r).State a = some JustDeactivatedState ↔
      (ρ f = false ∧ ∃ j g, i = j + 1 ∧ fs[j]? = some g ∧ ρ g = true)) ∧
    ((∃ t, (Updates (fs.take (i + 1)) r).State a = some t ∧ IsActiveState t) ↔ ρ f = true) ∧
    (i + 1 < fs.length →
      ¬ ((Updates (fs.take (i + 1)) r).State a = some JustActivatedState ∧
        (Updates (fs.take (i + 2)) r).State a = some JustActivatedState)) ∧
    (i + 1 < fs.length →
      ¬ ((Updates (fs.take (i + 1)) r).State a = some JustDeactivatedState ∧
        (Updates (fs.take (i + 2)) r).State a = some JustDeactivatedState))

/-- The package state `s` is the package state `r` without the entry of `a` in
`userControls`, where `a` is a caller-supplied control in both and the objects
at all other addresses are the same. -/
def AgreeOff (a : Control) (r s : Registry) : Prop :=
  s.keyControls = r.keyControls ∧
  s.mouseButtonControls = r.mouseButtonControls ∧
  s.keyComboControls = r.keyComboControls ∧
  s.userControls = mapDelete r.userControls a ∧
  (∀ b : Control, b ≠ a → s.heap[b]? = r.heap[b]?) ∧
  (∃ u, r.heap[a]? = some (Object.user u)) ∧
  (∃ u, s.heap[a]? = some (Object.user u))

/-- A backend for concrete runs in which the key codes 0, 1 and 2 have the string
forms A, B and C and every other code has the empty string form. -/
def plainBackend : Backend :=
  { KeyA := 0, KeyMax := 3, MouseButtonLeft := 0, MouseButtonMiddle := 1,
    keyString := fun k => if k = 0 then "A" else if k = 1 then "B" else if k = 2 then "C" else "" }

/-- A frame in which the backend reports the key `k` as pressed and nothing else. -/
def pressKey (k : ebiten.Key) : Frame :=
  { isKeyPressedFunc := fun j => decide (j = k), isMouseButtonPressedFunc := fun _ => false }

/-- The key sequence stored in the combination at `c`, if there is one. -/
def Registry.comboKeysAt (r : Registry) (c : Control) : Option (List ebiten.Key) :=
  match r.heap[c]? with
  | some (Object.combo kcc) => some kcc.keys
  | _ => none

/-- Every entry of `keyComboControls` points to a combination whose stored key
sequence has the name the entry is stored under. -/
def NameOk (E : Backend) (r : Registry) : Prop :=
  ∀ p ∈ r.keyComboControls,
    ∃ ks, r.comboKeysAt p.2 = some ks ∧ makeKeyComboName E ks = p.1

/-- No combination of another key sequence with the name of `keys` is
registered. -/
def NoCollision (E : Backend) (r : Registry) (keys : List ebiten.Key) : Prop :=
  ∀ p ∈ r.keyComboControls, ∀ ks : List ebiten.Key,
    r.comboKeysAt p.2 = some ks → makeKeyComboName E ks = makeKeyComboName E keys → ks = keys

/-! ## The transition table -/

/-- C1: with the backend answering `activeNow` for the key, `updateKeyState`
returns the table value for each of the four states: pressed from a deactivated
state gives JustActivated, pressed from an activated state gives StillActivated,
released from an activated state gives JustDeactivated, released from a
deactivated state gives StillDeactivated. -/
theorem updateKeyState_table (isKeyPressedFunc : ebiten.Key → Bool) (key : ebiten.Key)
    (activeNow : Bool) (prev : State) (hb : isKeyPressedFunc key = activeNow) :
    (activeNow = true → (prev = StillDeactivatedState ∨ prev = JustDeactivatedState) →
        updateKeyState isKeyPressedFunc key prev = JustActivatedState) ∧
    (activeNow = true → (prev = JustActivatedState ∨ prev = StillActivatedState) →
        updateKeyState isKeyPressedFunc key prev = StillActivatedState) ∧
    (activeNow = false → (prev = JustActivatedState ∨ prev = StillActivatedState) →
        updateKeyState isKeyPressedFunc key prev = JustDeactivatedState) ∧
    (activeNow = false → (prev = StillDeactivatedState ∨ prev = JustDeactivatedState) →
        updateKeyState isKeyPressedFunc key prev = StillDeactivatedState) := by
  subst hb
  refine ⟨?_, ?_, ?_, ?_⟩ <;> intro hp hs <;> rcases hs with rfl | rfl <;>
    simp [updateKeyState, hp, StillDeactivatedState, JustDeactivatedState,
      JustActivatedState, StillActivatedState]

/-! ## Interface calls on the heap -/

theorem updateAt_keyControls (f : Frame) (r : Registry) (c : Control) :
    (r.updateAt f c).keyControls = r.keyControls := by
  unfold Registry.updateAt; split <;> rfl

theorem updateAt_mouseButtonControls (f : Frame) (r : Registry) (c : Control) :
    (r.updateAt f c).mouseButtonControls = r.mouseButtonControls := by
  unfold Registry.updateAt; split <;> rfl

theorem updateAt_keyComboControls (f : Frame) (r : Registry) (c : Control) :
    (r.updateAt f c).keyComboControls = r.keyComboControls := by
  unfold Registry.updateAt; split <;> rfl

theorem updateAt_userControls (f : Frame) (r : Registry) (c : Control) :
    (r.updateAt f c).userControls = r.userControls := by
  unfold Registry.updateAt; split <;> rfl

theorem updateAt_heap_length (f : Frame) (r : Registry) (c : Control) :
    (r.updateAt f c).heap.length = r.heap.length := by
  unfold Registry.updateAt; split <;> simp

theorem updateAt_heap_self (f : Frame) (r : Registry) (c : Control) :
    (r.updateAt f c).heap[c]? = (r.heap[c]?).map (fun o => o.Update f r) := by
  unfold Registry.updateAt
  cases h : r.heap[c]? with
  | none => simp [h]
  | some o =>
    have hlt : c < r.heap.length := by
      rcases List.getElem?_eq_some_iff.mp h with ⟨hlt, _⟩
      exact hlt
    simp [List.getElem?_set, hlt]

theorem updateAt_heap_other (f : Frame) (r : Registry) (c b : Control) (hcb : c ≠ b) :
    (r.updateAt f c).heap[b]? = r.heap[b]? := by
  unfold Registry.updateAt
  split
  · simp [List.getElem?_set, hcb]
  · rfl

theorem updateAll_nil (f : Frame) (r : Registry) : updateAll f [] r = r := rfl

theorem updateAll_cons (f : Frame) (c : Control) (cs : List Control) (r : Registry) :
    updateAll f (c :: cs) r = updateAll f cs (r.updateAt f c) := rfl

theorem updateAll_append (f : Frame) (cs ds : List Control) (r : Registry) :
    updateAll f (cs ++ ds) r = updateAll f ds (updateAll f cs r) := by
  simp [updateAll, List.foldl_append]

theorem updateAll_keyControls (f : Frame) (cs : List Control) (r : Registry) :
    (updateAll f cs r).keyControls = r.keyControls := by
  induction cs generalizing r with
  | nil => rfl
  | cons c cs ih => rw [updateAll_cons, ih, updateAt_keyControls]

theorem updateAll_mouseButtonControls (f : Frame) (cs : List Control) (r : Registry) :
    (updateAll f cs r).mouseButtonControls = r.mouseButtonControls := by
  induction cs generalizing r with
  | nil => rfl
  | cons c cs ih => rw [updateAll_cons, ih, updateAt_mouseButtonControls]

theorem updateAll_keyComboControls (f : Frame) (cs : List Control) (r : Registry) :
    (updateAll f cs r).keyComboControls = r.keyComboControls := by
  induction cs generalizing r with
  | nil => rfl
  | cons c cs ih => rw [updateAll_cons, ih, updateAt_keyComboControls]

theorem updateAll_userControls (f : Frame) (cs : List Control) (r : Registry) :
    (updateAll f cs r).userControls = r.userControls := by
  induction cs generalizing r with
  | nil => rfl
  | cons c cs ih => rw [updateAll_cons, ih, updateAt_userControls]

theorem updateAll_heap_length (f : Frame) (cs : List Control) (r : Registry) :
    (updateAll f cs r).heap.length = r.heap.length := by
  induction cs generalizing r with
  | nil => rfl
  | cons c cs ih => rw [updateAll_cons, ih, updateAt_heap_length]

/-- An object that is not called keeps its value. -/
theorem updateAll_heap_other (f : Frame) (cs : List Control) (r : Registry) (b : Control)
    (hb : b ∉ cs) : (updateAll f cs r).heap[b]? = r.heap[b]? := by
  induction cs generalizing r with
  | nil => rfl
  | cons c cs ih =>
    have hc : c ≠ b := fun h => hb (by simp [h])
    have hcs : b ∉ cs := fun h => hb (by simp [h])
    rw [updateAll_cons, ih _ hcs, updateAt_heap_other f r c b hc]

/-- An object that is called once in a run of calls has been updated once, in the
registry as the calls before it left it. -/
theorem updateAll_visit_once (f : Frame) (r : Registry) (l1 l2 : List Control) (a : Control)
    (o : Object) (h1 : a ∉ l1) (h2 : a ∉ l2) (ho : r.heap[a]? = some o) :
    (updateAll f (l1 ++ a :: l2) r).heap[a]? = some (o.Update f (updateAll f l1 r)) := by
  rw [updateAll_append, updateAll_cons, updateAll_heap_other f l2 _ a h2, updateAt_heap_self,
    updateAll_heap_other f l1 r a h1, ho]
  rfl

theorem updateKeys_eq (f : Frame) (r : Registry) : updateKeys f r = updateAll f r.keyRefs r := by
  simp [updateKeys, updateAll, Registry.keyRefs, List.foldl_map]

theorem updateMouseButtons_eq (f : Frame) (r : Registry) :
    updateMouseButtons f r = updateAll f r.mouseButtonRefs r := by
  simp [updateMouseButtons, updateAll, Registry.mouseButtonRefs, List.foldl_map]

theorem updateKeyCombos_eq (f : Frame) (r : Registry) :
    updateKeyCombos f r = updateAll f r.keyComboRefs r := by
  simp [updateKeyCombos, updateAll, Registry.keyComboRefs, List.foldl_map]

theorem updateUserControls_eq (f : Frame) (r : Registry) :
    updateUserControls f r = updateAll f r.userRefs r := by
  simp [updateUserControls, updateAll, Registry.userRefs, List.foldl_map]

/-- The four loops of `Update` are one run of calls over the four maps in order. -/
theorem Update_eq_updateAll (f : Frame) (r : Registry) :
    Update f r = updateAll f (r.builtinRefs ++ r.userRefs) r := by
  unfold Update
  rw [updateUserControls_eq, updateKeyCombos_eq, updateMouseButtons_eq, updateKeys_eq]
  simp only [Registry.builtinRefs, Registry.userRefs, Registry.keyComboRefs,
    Registry.mouseButtonRefs, updateAll_append, updateAll_keyControls,
    updateAll_mouseButtonControls, updateAll_keyComboControls, updateAll_userControls]

/-! ## One frame visits each control once -/

theorem mapGet_mem {κ α : Type} [DecidableEq κ] (m : List (κ × α)) (k : κ) (v : α)
    (h : mapGet m k = some v) : (k, v) ∈ m := by
  induction m with
  | nil => simp [mapGet] at h
  | cons p m ih =>
    obtain ⟨k1, v1⟩ := p
    simp only [mapGet] at h
    split at h
    · rename_i hk
      simp only [Option.some.injEq] at h
      subst hk; subst h; simp
    · simp [ih h]

theorem nodup_split {α : Type} (l : List α) (a : α) (hnd : l.Nodup) (ha : a ∈ l) :
    ∃ l1 l2, l = l1 ++ a :: l2 ∧ a ∉ l1 ∧ a ∉ l2 := by
  obtain ⟨l1, l2, rfl⟩ := List.append_of_mem ha
  refine ⟨l1, l2, rfl, ?_, ?_⟩
  · intro h
    have hd := (List.nodup_append.mp hnd).2.2
    exact hd h (by simp)
  · intro h
    have h2 := (List.nodup_append.mp hnd).2.1
    exact (List.nodup_cons.mp h2).1 h

/-- A control that occurs in one of the loops and in no other place of the run is
updated once, in the registry as the calls before it left it. -/
theorem updateAll_once_mid (f : Frame) (r : Registry) (pre l post : List Control) (a : Control)
    (o : Object) (hpre : a ∉ pre) (hl : l.Nodup) (ha : a ∈ l) (hpost : a ∉ post)
    (ho : r.heap[a]? = some o) :
    ∃ l1 l2, l = l1 ++ a :: l2 ∧
      (updateAll f (pre ++ l ++ post) r).heap[a]? =
        some (o.Update f (updateAll f (pre ++ l1) r)) := by
  obtain ⟨l1, l2, rfl, h1, h2⟩ := nodup_split l a hl ha
  refine ⟨l1, l2, rfl, ?_⟩
  have hsplit : pre ++ (l1 ++ a :: l2) ++ post = (pre ++ l1) ++ a :: (l2 ++ post) := by simp
  rw [hsplit]
  apply updateAll_visit_once
  · simp [hpre, h1]
  · simp [h2, hpost]
  · exact ho

theorem keyControlAt_updateAll (f : Frame) (r : Registry) (cs : List Control) (k : ebiten.Key)
    (hd : ∀ b ∈ cs, b ∉ r.keyRefs) :
    (updateAll f cs r).keyControlAt k = r.keyControlAt k := by
  unfold Registry.keyControlAt
  rw [updateAll_keyControls]
  cases h : mapGet r.keyControls k with
  | none => rfl
  | some a =>
    have hmem : a ∈ r.keyRefs := by
      have := mapGet_mem _ _ _ h
      exact List.mem_map.mpr ⟨(k, a), this, rfl⟩
    have hna : a ∉ cs := fun hc => hd a hc hmem
    simp only [updateAll_heap_other f cs r a hna]

theorem allPressedLoop_congr (r1 r2 : Registry) (keys : List ebiten.Key)
    (h : ∀ k, r1.keyControlAt k = r2.keyControlAt k) :
    allPressedLoop r1 keys = allPressedLoop r2 keys := by
  induction keys with
  | nil => rfl
  | cons k ks ih => simp only [allPressedLoop, h k, ih]

theorem Object.Update_congr (f : Frame) (r1 r2 : Registry) (o : Object)
    (h : ∀ k, r1.keyControlAt k = r2.keyControlAt k) :
    o.Update f r1 = o.Update f r2 := by
  cases o with
  | combo kcc =>
    simp only [Object.Update, keyComboControl.Update, updateKeyComboState,
      allPressedLoop_congr r1 r2 kcc.keys h]
  | _ => rfl

theorem keyEntryOk_updateAt (f : Frame) (r : Registry) (c : Control) (p : ebiten.Key × Addr) :
    keyEntryOk (r.updateAt f c) p = keyEntryOk r p := by
  unfold keyEntryOk
  by_cases hc : c = p.2
  · rw [← hc, updateAt_heap_self]
    cases h : r.heap[c]? with
    | none => rfl
    | some o => cases o <;> rfl
  · rw [updateAt_heap_other f r c p.2 hc]

theorem mouseButtonEntryOk_updateAt (f : Frame) (r : Registry) (c : Control)
    (p : ebiten.MouseButton × Addr) :
    mouseButtonEntryOk (r.updateAt f c) p = mouseButtonEntryOk r p := by
  unfold mouseButtonEntryOk
  by_cases hc : c = p.2
  · rw [← hc, updateAt_heap_self]
    cases h : r.heap[c]? with
    | none => rfl
    | some o => cases o <;> rfl
  · rw [updateAt_heap_other f r c p.2 hc]

theorem keyComboEntryOk_updateAt (f : Frame) (r : Registry) (c : Control)
    (p : keyComboName × Addr) :
    keyComboEntryOk (r.updateAt f c) p = keyComboEntryOk r p := by
  unfold keyComboEntryOk
  by_cases hc : c = p.2
  · rw [← hc, updateAt_heap_self]
    cases h : r.heap[c]? with
    | none => rfl
    | some o => cases o <;> rfl
  · rw [updateAt_heap_other f r c p.2 hc]

/-- An interface call keeps the shape of the package state. -/
theorem WF_updateAt (f : Frame) (r : Registry) (c : Control) (h : r.WF) : (r.updateAt f c).WF := by
  obtain ⟨h1, h2, h3, h4, h5, h6⟩ := h
  refine ⟨?_, ?_, ?_, ?_, ?_, ?_⟩
  · simpa [Registry.builtinRefs, Registry.keyRefs, Registry.mouseButtonRefs,
      Registry.keyComboRefs, updateAt_keyControls, updateAt_mouseButtonControls,
      updateAt_keyComboControls] using h1
  · intro p hp
    rw [updateAt_keyControls] at hp
    rw [keyEntryOk_updateAt]; exact h2 p hp
  · intro p hp
    rw [updateAt_mouseButtonControls] at hp
    rw [mouseButtonEntryOk_updateAt]; exact h3 p hp
  · intro p hp
    rw [updateAt_keyComboControls] at hp
    rw [keyComboEntryOk_updateAt]; exact h4 p hp
  · simpa [Registry.userRefs, updateAt_userControls] using h5
  · intro p hp
    rw [updateAt_userControls] at hp
    exact h6 p hp

theorem WF_updateAll (f : Frame) (cs : List Control) (r : Registry) (h : r.WF) :
    (updateAll f cs r).WF := by
  induction cs generalizing r with
  | nil => exact h
  | cons c cs ih => exact ih _ (WF_updateAt f r c h)

/-- One frame keeps the shape of the package state. -/
theorem WF_Update (f : Frame) (r : Registry) (h : r.WF) : (Update f r).WF := by
  rw [Update_eq_updateAll]; exact WF_updateAll f _ r h

theorem Update_keyControls (f : Frame) (r : Registry) :
    (Update f r).keyControls = r.keyControls := by
  rw [Update_eq_updateAll, updateAll_keyControls]

theorem Update_mouseButtonControls (f : Frame) (r : Registry) :
    (Update f r).mouseButtonControls = r.mouseButtonControls := by
  rw [Update_eq_updateAll, updateAll_mouseButtonControls]

theorem Update_keyComboControls (f : Frame) (r : Registry) :
    (Update f r).keyComboControls = r.keyComboControls := by
  rw [Update_eq_updateAll, updateAll_keyComboControls]

theorem Update_userControls (f : Frame) (r : Registry) :
    (Update f r).userControls = r.userControls := by
  rw [Update_eq_updateAll, updateAll_userControls]

theorem Update_heap_length (f : Frame) (r : Registry) :
    (Update f r).heap.length = r.heap.length := by
  rw [Update_eq_updateAll, updateAll_heap_length]

theorem Update_userRefs (f : Frame) (r : Registry) : (Update f r).userRefs = r.userRefs := by
  simp [Registry.userRefs, Update_userControls]

theorem WF_key_object (r : Registry) (k : ebiten.Key) (a : Control) (h : r.WF)
    (hreg : mapGet r.keyControls k = some a) :
    ∃ s, r.heap[a]? = some (Object.key { key := k, state := s }) := by
  have hok := h.2.1 (k, a) (mapGet_mem _ _ _ hreg)
  unfold keyEntryOk at hok
  cases ho : r.heap[a]? with
  | none => simp [ho] at hok
  | some o =>
    cases o with
    | key kc =>
      simp only [ho, decide_eq_true_eq] at hok
      exact ⟨kc.state, by cases kc; simp_all⟩
    | _ => simp [ho] at hok

theorem WF_mouseButton_object (r : Registry) (b : ebiten.MouseButton) (a : Control) (h : r.WF)
    (hreg : mapGet r.mouseButtonControls b = some a) :
    ∃ s, r.heap[a]? = some (Object.mouse { button := b, state := s }) := by
  have hok := h.2.2.1 (b, a) (mapGet_mem _ _ _ hreg)
  unfold mouseButtonEntryOk at hok
  cases ho : r.heap[a]? with
  | none => simp [ho] at hok
  | some o =>
    cases o with
    | mouse mbc =>
      simp only [ho, decide_eq_true_eq] at hok
      exact ⟨mbc.state, by cases mbc; simp_all⟩
    | _ => simp [ho] at hok

theorem WF_key_not_elsewhere (r : Registry) (a : Control) (h : r.WF) (ha : a ∈ r.keyRefs) :
    a ∉ r.mouseButtonRefs ∧ a ∉ r.keyComboRefs := by
  have hnd := h.1
  unfold Registry.builtinRefs at hnd
  rw [List.append_assoc] at hnd
  have hd := (List.nodup_append.mp hnd).2.2
  constructor
  · intro hm; exact hd ha (by simp [hm])
  · intro hm; exact hd ha (by simp [hm])

theorem WF_mouseButton_not_elsewhere (r : Registry) (a : Control) (h : r.WF)
    (ha : a ∈ r.mouseButtonRefs) : a ∉ r.keyRefs ∧ a ∉ r.keyComboRefs := by
  have hnd := h.1
  unfold Registry.builtinRefs at hnd
  constructor
  · intro hm
    rw [List.append_assoc] at hnd
    exact (List.nodup_append.mp hnd).2.2 hm (by simp [ha])
  · intro hm
    exact (List.nodup_append.mp hnd).2.2 (by simp [ha]) hm

theorem WF_keyCombo_not_elsewhere (r : Registry) (a : Control) (h : r.WF)
    (ha : a ∈ r.keyComboRefs) : a ∉ r.keyRefs ∧ a ∉ r.mouseButtonRefs := by
  have hnd := h.1
  unfold Registry.builtinRefs at hnd
  have hd := (List.nodup_append.mp hnd).2.2
  constructor
  · intro hm; exact hd (by simp [hm]) ha
  · intro hm; exact hd (by simp [hm]) ha

theorem WF_nodup_parts (r : Registry) (h : r.WF) :
    r.keyRefs.Nodup ∧ r.mouseButtonRefs.Nodup ∧ r.keyComboRefs.Nodup := by
  have hnd := h.1
  unfold Registry.builtinRefs at hnd
  have h1 := List.nodup_append.mp hnd
  have h2 := List.nodup_append.mp h1.1
  exact ⟨h2.1, h2.2.1, h1.2.1⟩

theorem mem_keyRefs_of_mapGet (r : Registry) (k : ebiten.Key) (a : Control)
    (hreg : mapGet r.keyControls k = some a) : a ∈ r.keyRefs :=
  List.mem_map.mpr ⟨(k, a), mapGet_mem _ _ _ hreg, rfl⟩

theorem mem_mouseButtonRefs_of_mapGet (r : Registry) (b : ebiten.MouseButton) (a : Control)
    (hreg : mapGet r.mouseButtonControls b = some a) : a ∈ r.mouseButtonRefs :=
  List.mem_map.mpr ⟨(b, a), mapGet_mem _ _ _ hreg, rfl⟩

theorem mem_keyComboRefs_of_mapGet (r : Registry) (n : keyComboName) (a : Control)
    (hreg : mapGet r.keyComboControls n = some a) : a ∈ r.keyComboRefs :=
  List.mem_map.mpr ⟨(n, a), mapGet_mem _ _ _ hreg, rfl⟩

/-- The key controls as the later loops of a frame see them are those that the
first loop left. -/
theorem keyControlAt_after_keys (f : Frame) (r : Registry) (cs : List Control)
    (hcs : ∀ b ∈ cs, b ∉ r.keyRefs) (k : ebiten.Key) :
    (updateAll f (r.keyRefs ++ cs) r).keyControlAt k = (updateKeys f r).keyControlAt k := by
  rw [updateAll_append, updateKeys_eq]
  apply keyControlAt_updateAll
  intro b hb
  simpa [Registry.keyRefs, updateAll_keyControls] using hcs b hb

/-- A control of a package-made map, or a caller-supplied one, that is visited by
one loop only is updated once, and a combination then reads the key controls as
the first loop left them. -/
theorem Update_once_in (f : Frame) (r : Registry) (pre l post : List Control)
    (a : Control) (o : Object)
    (hall : r.builtinRefs ++ r.userRefs = r.keyRefs ++ pre ++ l ++ post)
    (hpre : ∀ b ∈ pre, b ∉ r.keyRefs) (hl : ∀ b ∈ l, b ∉ r.keyRefs)
    (hnd : l.Nodup) (ha : a ∈ l) (hapre : a ∉ pre) (hapost : a ∉ post)
    (ho : r.heap[a]? = some o) :
    (Update f r).heap[a]? = some (o.Update f (updateKeys f r)) := by
  have hak : a ∉ r.keyRefs := hl a ha
  obtain ⟨l1, l2, hsplit, h⟩ := updateAll_once_mid f r (r.keyRefs ++ pre) l post a o
    (by simp [hak, hapre]) hnd ha hapost ho
  rw [Update_eq_updateAll, hall, h]
  congr 1
  apply Object.Update_congr
  intro k
  have hassoc : r.keyRefs ++ pre ++ l1 = r.keyRefs ++ (pre ++ l1) := by simp
  rw [hassoc]
  apply keyControlAt_after_keys f r
  intro b hb
  rcases List.mem_append.mp hb with hb | hb
  · exact hpre b hb
  · exact hl b (by rw [hsplit]; simp [hb])

/-- A registered key control that is not also in `userControls` is updated once
by a frame. -/
theorem Update_key_object (f : Frame) (r : Registry) (k : ebiten.Key) (a : Control) (s : State)
    (hwf : r.WF) (hreg : mapGet r.keyControls k = some a) (hu : a ∉ r.userRefs)
    (ho : r.heap[a]? = some (Object.key { key := k, state := s })) :
    (Update f r).heap[a]? =
      some (Object.key { key := k, state := updateKeyState f.isKeyPressedFunc k s }) := by
  have hmem := mem_keyRefs_of_mapGet r k a hreg
  obtain ⟨hm, hc⟩ := WF_key_not_elsewhere r a hwf hmem
  obtain ⟨l1, l2, _, h⟩ := updateAll_once_mid f r [] r.keyRefs
    (r.mouseButtonRefs ++ r.keyComboRefs ++ r.userRefs) a _ (by simp)
    (WF_nodup_parts r hwf).1 hmem (by simp [hm, hc, hu]) ho
  have hall : r.builtinRefs ++ r.userRefs =
      [] ++ r.keyRefs ++ (r.mouseButtonRefs ++ r.keyComboRefs ++ r.userRefs) := by
    simp [Registry.builtinRefs]
  rw [Update_eq_updateAll, hall, h]
  rfl

/-- A registered mouse button control that is not also in `userControls` is
updated once by a frame. -/
theorem Update_mouseButton_object (f : Frame) (r : Registry) (b : ebiten.MouseButton)
    (a : Control) (s : State)
    (hwf : r.WF) (hreg : mapGet r.mouseButtonControls b = some a) (hu : a ∉ r.userRefs)
    (ho : r.heap[a]? = some (Object.mouse { button := b, state := s })) :
    (Update f r).heap[a]? =
      some (Object.mouse
        { button := b, state := updateMouseButtonState f.isMouseButtonPressedFunc b s }) := by
  have hmem := mem_mouseButtonRefs_of_mapGet r b a hreg
  obtain ⟨hk, hc⟩ := WF_mouseButton_not_elsewhere r a hwf hmem
  have h := Update_once_in f r [] r.mouseButtonRefs (r.keyComboRefs ++ r.userRefs) a _
    (by simp [Registry.builtinRefs]) (by simp)
    (fun b hb => (WF_mouseButton_not_elsewhere r b hwf hb).1)
    (WF_nodup_parts r hwf).2.1 hmem (by simp) (by simp [hc, hu]) ho
  rw [h]; rfl

/-- A registered key combination that is not also in `userControls` is updated
once by a frame, reading the key controls as the first loop left them. -/
theorem Update_keyCombo_object (f : Frame) (r : Registry) (n : keyComboName) (c : Control)
    (kcc : keyComboControl)
    (hwf : r.WF) (hreg : mapGet r.keyComboControls n = some c) (hu : c ∉ r.userRefs)
    (ho : r.heap[c]? = some (Object.combo kcc)) :
    (Update f r).heap[c]? = some (Object.combo (kcc.Update (updateKeys f r))) := by
  have hmem := mem_keyComboRefs_of_mapGet r n c hreg
  obtain ⟨hk, hm⟩ := WF_keyCombo_not_elsewhere r c hwf hmem
  have h := Update_once_in f r r.mouseButtonRefs r.keyComboRefs r.userRefs c _
    (by simp [Registry.builtinRefs])
    (fun b hb => (WF_mouseButton_not_elsewhere r b hwf hb).1)
    (fun b hb => (WF_keyCombo_not_elsewhere r b hwf hb).1)
    (WF_nodup_parts r hwf).2.2 hmem hm hu ho
  rw [h]; rfl

theorem State_of_key_object (r : Registry) (a : Control) (k : ebiten.Key) (s : State)
    (ho : r.heap[a]? = some (Object.key { key := k, state := s })) : r.State a = some s := by
  simp [Registry.State, ho, Object.State, keyControl.State]

theorem State_of_mouseButton_object (r : Registry) (a : Control) (b : ebiten.MouseButton)
    (s : State) (ho : r.heap[a]? = some (Object.mouse { button := b, state := s })) :
    r.State a = some s := by
  simp [Registry.State, ho, Object.State, mouseButtonControl.State]

/-- State of a registered key control after one frame. -/
theorem Update_key_state (f : Frame) (r : Registry) (k : ebiten.Key) (a : Control) (s : State)
    (hwf : r.WF) (hreg : mapGet r.keyControls k = some a) (hu : a ∉ r.userRefs)
    (hs : r.State a = some s) :
    (Update f r).State a = some (updateKeyState f.isKeyPressedFunc k s) := by
  obtain ⟨s1, ho⟩ := WF_key_object r k a hwf hreg
  have hs1 : s1 = s := by
    have := State_of_key_object r a k s1 ho
    rw [hs] at this; exact (Option.some.inj this).symm
  subst hs1
  exact State_of_key_object _ a k _ (Update_key_object f r k a s1 hwf hreg hu ho)

/-- State of a registered mouse button control after one frame. -/
theorem Update_mouseButton_state (f : Frame) (r : Registry) (b : ebiten.MouseButton)
    (a : Control) (s : State)
    (hwf : r.WF) (hreg : mapGet r.mouseButtonControls b = some a) (hu : a ∉ r.userRefs)
    (hs : r.State a = some s) :
    (Update f r).State a = some (updateMouseButtonState f.isMouseButtonPressedFunc b s) := by
  obtain ⟨s1, ho⟩ := WF_mouseButton_object r b a hwf hreg
  have hs1 : s1 = s := by
    have := State_of_mouseButton_object r a b s1 ho
    rw [hs] at this; exact (Option.some.inj this).symm
  subst hs1
  exact State_of_mouseButton_object _ a b _ (Update_mouseButton_object f r b a s1 hwf hreg hu ho)

/-! ## Keys and mouse buttons over several frames -/

theorem updateKeyState_eq_transition (g : ebiten.Key → Bool) (k : ebiten.Key) (s : State) :
    updateKeyState g k s = transition (g k) s := rfl

theorem updateMouseButtonState_eq_transition (g : ebiten.MouseButton → Bool)
    (b : ebiten.MouseButton) (s : State) :
    updateMouseButtonState g b s = transition (g b) s := rfl

theorem updateKeyComboState_eq_transition (r : Registry) (keys : List ebiten.Key) (s : State) :
    updateKeyComboState r keys s = transition (allPressedLoop r keys) s := rfl

/-- What one frame does to a registered key control, with everything the next
frame needs. -/
theorem key_frame (f : Frame) (r : Registry) (k : ebiten.Key) (a : Control) (s : State)
    (hwf : r.WF) (hreg : mapGet r.keyControls k = some a) (hu : a ∉ r.userRefs)
    (hs : r.State a = some s) :
    (Update f r).WF ∧ mapGet (Update f r).keyControls k = some a ∧ a ∉ (Update f r).userRefs ∧
      (Update f r).State a = some (transition (f.isKeyPressedFunc k) s) := by
  refine ⟨WF_Update f r hwf, ?_, ?_, ?_⟩
  · rw [Update_keyControls]; exact hreg
  · rw [Update_userRefs]; exact hu
  · exact Update_key_state f r k a s hwf hreg hu hs

/-- What one frame does to a registered mouse button control, with everything the
next frame needs. -/
theorem mouseButton_frame (f : Frame) (r : Registry) (b : ebiten.MouseButton) (a : Control)
    (s : State)
    (hwf : r.WF) (hreg : mapGet r.mouseButtonControls b = some a) (hu : a ∉ r.userRefs)
    (hs : r.State a = some s) :
    (Update f r).WF ∧ mapGet (Update f r).mouseButtonControls b = some a ∧
      a ∉ (Update f r).userRefs ∧
      (Update f r).State a = some (transition (f.isMouseButtonPressedFunc b) s) := by
  refine ⟨WF_Update f r hwf, ?_, ?_, ?_⟩
  · rw [Update_mouseButtonControls]; exact hreg
  · rw [Update_userRefs]; exact hu
  · exact Update_mouseButton_state f r b a s hwf hreg hu hs

/-- C2, amended: a registered key control, and a registered mouse button control,
that is StillDeactivated and has not also been passed to
`RegisterCustomControl` (is not also held in `userControls`) goes through
JustActivated, StillActivated, JustDeactivated and StillDeactivated in four
calls of `Update` whose backend reports pressed, pressed, released, released for
it; the fourth state is the starting state. -/
theorem press_press_release_release (r : Registry) (f1 f2 f3 f4 : Frame) (hwf : r.WF) :
    (∀ (k : ebiten.Key) (a : Control),
      mapGet r.keyControls k = some a → a ∉ r.userRefs →
      r.State a = some StillDeactivatedState →
      f1.isKeyPressedFunc k = true → f2.isKeyPressedFunc k = true →
      f3.isKeyPressedFunc k = false → f4.isKeyPressedFunc k = false →
      (Update f1 r).State a = some JustActivatedState ∧
      (Update f2 (Update f1 r)).State a = some StillActivatedState ∧
      (Update f3 (Update f2 (Update f1 r))).State a = some JustDeactivatedState ∧
      (Update f4 (Update f3 (Update f2 (Update f1 r)))).State a = some StillDeactivatedState ∧
      (Update f4 (Update f3 (Update f2 (Update f1 r)))).State a = r.State a) ∧
    (∀ (b : ebiten.MouseButton) (a : Control),
      mapGet r.mouseButtonControls b = some a → a ∉ r.userRefs →
      r.State a = some StillDeactivatedState →
      f1.isMouseButtonPressedFunc b = true → f2.isMouseButtonPressedFunc b = true →
      f3.isMouseButtonPressedFunc b = false → f4.isMouseButtonPressedFunc b = false →
      (Update f1 r).State a = some JustActivatedState ∧
      (Update f2 (Update f1 r)).State a = some StillActivatedState ∧
      (Update f3 (Update f2 (Update f1 r))).State a = some JustDeactivatedState ∧
      (Update f4 (Update f3 (Update f2 (Update f1 r)))).State a = some StillDeactivatedState ∧
      (Update f4 (Update f3 (Update f2 (Update f1 r)))).State a = r.State a) := by
  constructor
  · intro k a hreg hu hs h1 h2 h3 h4
    obtain ⟨w1, g1, u1, s1⟩ := key_frame f1 r k a _ hwf hreg hu hs
    obtain ⟨w2, g2, u2, s2⟩ := key_frame f2 _ k a _ w1 g1 u1 s1
    obtain ⟨w3, g3, u3, s3⟩ := key_frame f3 _ k a _ w2 g2 u2 s2
    obtain ⟨_, _, _, s4⟩ := key_frame f4 _ k a _ w3 g3 u3 s3
    rw [h1] at s1 s2 s3 s4
    rw [h2] at s2 s3 s4
    rw [h3] at s3 s4
    rw [h4] at s4
    refine ⟨s1, s2, s3, s4, ?_⟩
    rw [s4, hs]; rfl
  · intro b a hreg hu hs h1 h2 h3 h4
    obtain ⟨w1, g1, u1, s1⟩ := mouseButton_frame f1 r b a _ hwf hreg hu hs
    obtain ⟨w2, g2, u2, s2⟩ := mouseButton_frame f2 _ b a _ w1 g1 u1 s1
    obtain ⟨w3, g3, u3, s3⟩ := mouseButton_frame f3 _ b a _ w2 g2 u2 s2
    obtain ⟨_, _, _, s4⟩ := mouseButton_frame f4 _ b a _ w3 g3 u3 s3
    rw [h1] at s1 s2 s3 s4
    rw [h2] at s2 s3 s4
    rw [h3] at s3 s4
    rw [h4] at s4
    refine ⟨s1, s2, s3, s4, ?_⟩
    rw [s4, hs]; rfl

/-- Instance of the amended C2 on the registry after `init` of the sample backend, for key 1
(held at address 1) and button 0 (held at address 3). -/
theorem press_press_release_release_witness :
    ((Update pressAll (init sampleBackend)).State 1 = some JustActivatedState ∧
      (Update pressAll (Update pressAll (init sampleBackend))).State 1 =
        some StillActivatedState ∧
      (Update pressNone (Update pressAll (Update pressAll (init sampleBackend)))).State 1 =
        some JustDeactivatedState ∧
      (Update pressNone (Update pressNone (Update pressAll
        (Update pressAll (init sampleBackend))))).State 1 = some StillDeactivatedState ∧
      (Update pressNone (Update pressNone (Update pressAll
        (Update pressAll (init sampleBackend))))).State 1 = (init sampleBackend).State 1) ∧
    ((Update pressAll (init sampleBackend)).State 3 = some JustActivatedState ∧
      (Update pressAll (Update pressAll (init sampleBackend))).State 3 =
        some StillActivatedState ∧
      (Update pressNone (Update pressAll (Update pressAll (init sampleBackend)))).State 3 =
        some JustDeactivatedState ∧
      (Update pressNone (Update pressNone (Update pressAll
        (Update pressAll (init sampleBackend))))).State 3 = some StillDeactivatedState ∧
      (Update pressNone (Update pressNone (Update pressAll
        (Update pressAll (init sampleBackend))))).State 3 = (init sampleBackend).State 3) :=
  ⟨(press_press_release_release (init sampleBackend) pressAll pressAll pressNone pressNone
      (by decide)).1 1 1 (by decide) (by decide) (by decide) rfl rfl rfl rfl,
   (press_press_release_release (init sampleBackend) pressAll pressAll pressNone pressNone
      (by decide)).2 0 3 (by decide) (by decide) (by decide) rfl rfl rfl rfl⟩

/-- Instance of C1 for a backend that reports every key as pressed. -/
theorem updateKeyState_table_witness :
    updateKeyState (fun _ => true) 7 StillDeactivatedState = JustActivatedState ∧
    updateKeyState (fun _ => true) 7 StillActivatedState = StillActivatedState :=
  ⟨(updateKeyState_table (fun _ => true) 7 true StillDeactivatedState rfl).1 rfl (Or.inl rfl),
   (updateKeyState_table (fun _ => true) 7 true StillActivatedState rfl).2.1 rfl (Or.inr rfl)⟩

/-- Two applications of the switch on a named state: the result is fixed by the
two booleans. -/
theorem transition_twice (p1 p2 : Bool) (s : State) (hs : IsNamedState s) :
    (p1 = true → p2 = true → transition p2 (transition p1 s) = StillActivatedState) ∧
    (p1 = true → p2 = false → transition p2 (transition p1 s) = JustDeactivatedState) ∧
    (p1 = false → p2 = false → transition p2 (transition p1 s) = StillDeactivatedState) ∧
    (p1 = false → p2 = true → transition p2 (transition p1 s) = JustActivatedState) := by
  rcases hs with rfl | rfl | rfl | rfl <;> refine ⟨?_, ?_, ?_, ?_⟩ <;> intro h1 h2 <;>
    subst h1 <;> subst h2 <;> decide

/-- C3, amended: for a registered key control, and a registered mouse button
control, that has not also been passed to `RegisterCustomControl` (is not also
held in `userControls`) and starts in any of the four named states, the
state after two calls of `Update` is fixed by the two backend readings: pressed
then pressed gives StillActivated, pressed then released gives JustDeactivated,
released then released gives StillDeactivated, released then pressed gives
JustActivated. -/
theorem two_frames_forget_start (r : Registry) (f1 f2 : Frame) (hwf : r.WF) :
    (∀ (k : ebiten.Key) (a : Control) (s : State),
      mapGet r.keyControls k = some a → a ∉ r.userRefs →
      r.State a = some s → IsNamedState s →
      (f1.isKeyPressedFunc k = true → f2.isKeyPressedFunc k = true →
        (Update f2 (Update f1 r)).State a = some StillActivatedState) ∧
      (f1.isKeyPressedFunc k = true → f2.isKeyPressedFunc k = false →
        (Update f2 (Update f1 r)).State a = some JustDeactivatedState) ∧
      (f1.isKeyPressedFunc k = false → f2.isKeyPressedFunc k = false →
        (Update f2 (Update f1 r)).State a = some StillDeactivatedState) ∧
      (f1.isKeyPressedFunc k = false → f2.isKeyPressedFunc k = true →
        (Update f2 (Update f1 r)).State a = some JustActivatedState)) ∧
    (∀ (b : ebiten.MouseButton) (a : Control) (s : State),
      mapGet r.mouseButtonControls b = some a → a ∉ r.userRefs →
      r.State a = some s → IsNamedState s →
      (f1.isMouseButtonPressedFunc b = true → f2.isMouseButtonPressedFunc b = true →
        (Update f2 (Update f1 r)).State a = some StillActivatedState) ∧
      (f1.isMouseButtonPressedFunc b = true → f2.isMouseButtonPressedFunc b = false →
        (Update f2 (Update f1 r)).State a = some JustDeactivatedState) ∧
      (f1.isMouseButtonPressedFunc b = false → f2.isMouseButtonPressedFunc b = false →
        (Update f2 (Update f1 r)).State a = some StillDeactivatedState) ∧
      (f1.isMouseButtonPressedFunc b = false → f2.isMouseButtonPressedFunc b = true →
        (Update f2 (Update f1 r)).State a = some JustActivatedState)) := by
  constructor
  · intro k a s hreg hu hs hn
    obtain ⟨w1, g1, u1, s1⟩ := key_frame f1 r k a _ hwf hreg hu hs
    obtain ⟨_, _, _, s2⟩ := key_frame f2 _ k a _ w1 g1 u1 s1
    obtain ⟨t1, t2, t3, t4⟩ := transition_twice (f1.isKeyPressedFunc k) (f2.isKeyPressedFunc k) s hn
    refine ⟨?_, ?_, ?_, ?_⟩ <;> intro h1 h2
    · rw [s2, t1 h1 h2]
    · rw [s2, t2 h1 h2]
    · rw [s2, t3 h1 h2]
    · rw [s2, t4 h1 h2]
  · intro b a s hreg hu hs hn
    obtain ⟨w1, g1, u1, s1⟩ := mouseButton_frame f1 r b a _ hwf hreg hu hs
    obtain ⟨_, _, _, s2⟩ := mouseButton_frame f2 _ b a _ w1 g1 u1 s1
    obtain ⟨t1, t2, t3, t4⟩ := transition_twice (f1.isMouseButtonPressedFunc b)
      (f2.isMouseButtonPressedFunc b) s hn
    refine ⟨?_, ?_, ?_, ?_⟩ <;> intro h1 h2
    · rw [s2, t1 h1 h2]
    · rw [s2, t2 h1 h2]
    · rw [s2, t3 h1 h2]
    · rw [s2, t4 h1 h2]

/-- Instance of the amended C3 on the registry after `init` of the sample backend and one
pressed frame, where key 2 (address 2) and button 0 (address 3) are
JustActivated: pressed then released leaves both JustDeactivated. -/
theorem two_frames_forget_start_witness :
    (Update pressNone (Update pressAll (Update pressAll (init sampleBackend)))).State 2 =
        some JustDeactivatedState ∧
    (Update pressNone (Update pressAll (Update pressAll (init sampleBackend)))).State 3 =
        some JustDeactivatedState :=
  ⟨((two_frames_forget_start (Update pressAll (init sampleBackend)) pressAll pressNone
      (by decide)).1 2 2 JustActivatedState (by decide) (by decide) (by decide)
      (by decide)).2.1 rfl rfl,
   ((two_frames_forget_start (Update pressAll (init sampleBackend)) pressAll pressNone
      (by decide)).2 0 3 JustActivatedState (by decide) (by decide) (by decide)
      (by decide)).2.1 rfl rfl⟩

/-! ## Key combinations -/

theorem transition_named (p : Bool) (s : State) (hs : IsNamedState s) :
    IsNamedState (transition p s) := by
  rcases hs with rfl | rfl | rfl | rfl <;> cases p <;> decide

theorem transition_active_iff (p : Bool) (s : State) (hs : IsNamedState s) :
    IsActiveState (transition p s) ↔ p = true := by
  rcases hs with rfl | rfl | rfl | rfl <;> cases p <;> decide

theorem transition_release (s : State) (hs : IsActiveState s) :
    transition false s = JustDeactivatedState := by
  rcases hs with rfl | rfl <;> decide

/-- The test that the loop of `updateKeyComboState` makes on a key control. -/
theorem loop_test_eq (p : Bool) (s : State) (hs : IsNamedState s) :
    (transition p s != StillActivatedState && transition p s != JustActivatedState) = !p := by
  rcases hs with rfl | rfl | rfl | rfl <;> cases p <;> decide

/-- After the first loop of `Update` a registered key control has made one step. -/
theorem updateKeys_keyControlAt (f : Frame) (r : Registry) (k : ebiten.Key) (a : Control)
    (s : State) (hwf : r.WF) (hreg : mapGet r.keyControls k = some a)
    (hs : r.State a = some s) :
    (updateKeys f r).keyControlAt k =
      some { key := k, state := transition (f.isKeyPressedFunc k) s } := by
  obtain ⟨s1, ho⟩ := WF_key_object r k a hwf hreg
  have hs1 : s1 = s := by
    have := State_of_key_object r a k s1 ho
    rw [hs] at this; exact (Option.some.inj this).symm
  subst hs1
  have hmem := mem_keyRefs_of_mapGet r k a hreg
  obtain ⟨l1, l2, _, h⟩ := updateAll_once_mid f r [] r.keyRefs [] a _ (by simp)
    (WF_nodup_parts r hwf).1 hmem (by simp) ho
  simp only [List.nil_append, List.append_nil] at h
  unfold Registry.keyControlAt
  rw [updateKeys_eq, updateAll_keyControls, hreg]
  simp only [h]
  rfl

/-- A key control in a named state stays a key control of the same key in a named
state under any interface call. -/
theorem key_named_updateAt (f : Frame) (r : Registry) (c a : Control) (k : ebiten.Key)
    (h : ∃ s, r.heap[a]? = some (Object.key { key := k, state := s }) ∧ IsNamedState s) :
    ∃ s, (r.updateAt f c).heap[a]? = some (Object.key { key := k, state := s }) ∧
      IsNamedState s := by
  obtain ⟨s, ho, hn⟩ := h
  by_cases hc : c = a
  · subst hc
    refine ⟨transition (f.isKeyPressedFunc k) s, ?_, transition_named _ s hn⟩
    rw [updateAt_heap_self, ho]; rfl
  · exact ⟨s, by rw [updateAt_heap_other f r c a hc]; exact ho, hn⟩

theorem key_named_updateAll (f : Frame) (cs : List Control) (r : Registry) (a : Control)
    (k : ebiten.Key)
    (h : ∃ s, r.heap[a]? = some (Object.key { key := k, state := s }) ∧ IsNamedState s) :
    ∃ s, (updateAll f cs r).heap[a]? = some (Object.key { key := k, state := s }) ∧
      IsNamedState s := by
  induction cs generalizing r with
  | nil => exact h
  | cons c cs ih => exact ih _ (key_named_updateAt f r c a k h)

/-- A registered key in a named state is so after a frame, also when its control
is held in `userControls` as well. -/
theorem key_named_Update (f : Frame) (r : Registry) (k : ebiten.Key) (hwf : r.WF)
    (h : ∃ a s, mapGet r.keyControls k = some a ∧ r.State a = some s ∧ IsNamedState s) :
    ∃ a s, mapGet (Update f r).keyControls k = some a ∧ (Update f r).State a = some s ∧
      IsNamedState s := by
  obtain ⟨a, s, hreg, hs, hn⟩ := h
  obtain ⟨s1, ho⟩ := WF_key_object r k a hwf hreg
  have hs1 : s1 = s := by
    have := State_of_key_object r a k s1 ho
    rw [hs] at this; exact (Option.some.inj this).symm
  subst hs1
  obtain ⟨t, hto, htn⟩ := key_named_updateAll f (r.builtinRefs ++ r.userRefs) r a k ⟨s1, ho, hn⟩
  refine ⟨a, t, ?_, ?_, htn⟩
  · rw [Update_keyControls]; exact hreg
  · rw [Update_eq_updateAll]; exact State_of_key_object _ a k t hto

/-- One frame on a combination of two registered keys. -/
theorem pair_frame (f : Frame) (r : Registry) (A B : ebiten.Key) (c : Control) (s : State)
    (h : PairReady r A B c)
    (ho : r.heap[c]? = some (Object.combo { keys := [A, B], state := s })) :
    (Update f r).heap[c]? = some (Object.combo
      { keys := [A, B], state := transition (f.isKeyPressedFunc A && f.isKeyPressedFunc B) s }) := by
  obtain ⟨hwf, ⟨a, sA, hA, hsA, hnA⟩, ⟨b, sB, hB, hsB, hnB⟩, ⟨n, hc⟩, hu, _⟩ := h
  rw [Update_keyCombo_object f r n c _ hwf hc hu ho]
  have hkA := updateKeys_keyControlAt f r A a sA hwf hA hsA
  have hkB := updateKeys_keyControlAt f r B b sB hwf hB hsB
  have hloop : allPressedLoop (updateKeys f r) [A, B] =
      (f.isKeyPressedFunc A && f.isKeyPressedFunc B) := by
    simp only [allPressedLoop, hkA, hkB, loop_test_eq _ sA hnA, loop_test_eq _ sB hnB]
    cases f.isKeyPressedFunc A <;> cases f.isKeyPressedFunc B <;> rfl
  simp only [keyComboControl.Update, updateKeyComboState_eq_transition, hloop]

/-- The assumptions on a combination of two keys hold again after a frame. -/
theorem PairReady_Update (f : Frame) (r : Registry) (A B : ebiten.Key) (c : Control)
    (h : PairReady r A B c) : PairReady (Update f r) A B c := by
  have h0 := h
  obtain ⟨hwf, hA, hB, ⟨n, hc⟩, hu, ⟨s, ho, hn⟩⟩ := h
  refine ⟨WF_Update f r hwf, key_named_Update f r A hwf hA, key_named_Update f r B hwf hB,
    ⟨n, by rw [Update_keyComboControls]; exact hc⟩, by rw [Update_userRefs]; exact hu,
    ⟨_, pair_frame f r A B c s h0 ho, transition_named _ s hn⟩⟩

theorem PairReady_Updates (fs : List Frame) (r : Registry) (A B : ebiten.Key) (c : Control)
    (h : PairReady r A B c) : PairReady (Updates fs r) A B c := by
  induction fs generalizing r with
  | nil => exact h
  | cons f fs ih => exact ih _ (PairReady_Update f r A B c h)

theorem State_of_combo_object (r : Registry) (c : Control) (kcc : keyComboControl)
    (ho : r.heap[c]? = some (Object.combo kcc)) : r.State c = some kcc.state := by
  simp [Registry.State, ho, Object.State, keyComboControl.State]

/-- A combination of two keys for which `PairReady` holds: every call of `Update`,
after any number of earlier calls, leaves `c` in the state that the switch gives
for (A and B both reported pressed this frame, state of `c` before the call);
`c` is active after the call exactly when both keys are pressed, and an active
`c` is JustDeactivated after the call as soon as one key is released. -/
theorem keyCombo_pair (r : Registry) (A B : ebiten.Key) (c : Control) (fs : List Frame)
    (f : Frame) (h : PairReady r A B c) :
    ∃ s, (Updates fs r).State c = some s ∧
      (Update f (Updates fs r)).State c =
        some (transition (f.isKeyPressedFunc A && f.isKeyPressedFunc B) s) ∧
      ((∃ t, (Update f (Updates fs r)).State c = some t ∧ IsActiveState t) ↔
        (f.isKeyPressedFunc A = true ∧ f.isKeyPressedFunc B = true)) ∧
      (IsActiveState s → (f.isKeyPressedFunc A = false ∨ f.isKeyPressedFunc B = false) →
        (Update f (Updates fs r)).State c = some JustDeactivatedState) := by
  have hr := PairReady_Updates fs r A B c h
  obtain ⟨s, ho, hn⟩ := hr.2.2.2.2.2
  have hstep := State_of_combo_object _ c _ (pair_frame f (Updates fs r) A B c s hr ho)
  simp only at hstep
  refine ⟨s, State_of_combo_object _ c _ ho, hstep, ?_, ?_⟩
  · rw [hstep]
    constructor
    · rintro ⟨t, ht, hact⟩
      have ht1 := Option.some.inj ht
      rw [← ht1] at hact
      have := (transition_active_iff _ s hn).mp hact
      simpa using this
    · rintro ⟨hA, hB⟩
      exact ⟨_, rfl, (transition_active_iff _ s hn).mpr (by simp [hA, hB])⟩
  · intro hact hrel
    rw [hstep]
    have hp : (f.isKeyPressedFunc A && f.isKeyPressedFunc B) = false := by
      rcases hrel with h1 | h1 <;> simp [h1]
    rw [hp, transition_release s hact]

/-! ## The combination of no keys -/

/-- One frame on a registered combination: the loop runs on the key controls as
the first loop of the frame left them. -/
theorem combo_frame (f : Frame) (r : Registry) (c : Control) (keys : List ebiten.Key)
    (s : State) (h : ComboReady r c keys s) :
    ComboReady (Update f r) c keys (transition (allPressedLoop (updateKeys f r) keys) s) := by
  obtain ⟨hwf, ⟨n, hc⟩, hu, ho⟩ := h
  refine ⟨WF_Update f r hwf, ⟨n, by rw [Update_keyComboControls]; exact hc⟩,
    by rw [Update_userRefs]; exact hu, ?_⟩
  rw [Update_keyCombo_object f r n c _ hwf hc hu ho]
  rfl

theorem empty_combo_Updates (fs : List Frame) (r : Registry) (c : Control) (s : State)
    (h : ComboReady r c [] s) (hn : IsNamedState s) :
    ∃ t, ComboReady (Updates fs r) c [] t ∧ IsNamedState t := by
  induction fs generalizing r s with
  | nil => exact ⟨s, h, hn⟩
  | cons f fs ih =>
    exact ih (Update f r) (transition true s) (combo_frame f r c [] s h)
      (transition_named true s hn)

/-- A registered combination that stores no keys, is not also held in
`userControls` and is in a named state is active after every call of `Update`
whatever the backend reports, because the loop of `updateKeyComboState` leaves
its flag true on an empty key list: the first call from StillDeactivated leaves
it JustActivated and every call that follows another call leaves it
StillActivated. -/
theorem empty_keyCombo_active (r : Registry) (c : Control) (s : State) (fs : List Frame)
    (f : Frame) (h : ComboReady r c [] s) (hn : IsNamedState s) :
    (∃ t, (Update f (Updates fs r)).State c = some t ∧ IsActiveState t) ∧
    (s = StillDeactivatedState → (Update f r).State c = some JustActivatedState) ∧
    (∀ g : Frame, (Update g (Update f (Updates fs r))).State c = some StillActivatedState) := by
  obtain ⟨t, ht, htn⟩ := empty_combo_Updates fs r c s h hn
  have h1 := combo_frame f _ c [] t ht
  refine ⟨⟨_, State_of_combo_object _ c _ h1.2.2.2, ?_⟩, ?_, ?_⟩
  · exact (transition_active_iff _ t htn).mpr rfl
  · intro hs
    subst hs
    exact State_of_combo_object _ c _ (combo_frame f r c [] _ h).2.2.2
  · intro g
    have h2 := combo_frame g _ c [] _ h1
    rw [State_of_combo_object _ c _ h2.2.2.2]
    exact congrArg some ((transition_twice true true t htn).1 rfl rfl)

/-- C5 as stated fails: the combination of no keys requested after `init` of the
sample backend is stored at address 4, and one call of `Update` with a backend
that reports nothing pressed leaves it JustActivated; `updateKeyComboState` on
the empty key list acts as the switch on true. -/
theorem empty_keyCombo_counterexample :
    (KeyCombo sampleBackend (init sampleBackend) []).2 = some 4 ∧
    (Update pressNone (KeyCombo sampleBackend (init sampleBackend) []).1).State 4 =
      some JustActivatedState ∧
    IsActiveState JustActivatedState ∧
    updateKeyComboState (init sampleBackend) [] StillDeactivatedState = JustActivatedState := by
  decide

/-! ## Map assignment, the accessors and `init` -/

theorem mapGet_mapSet {κ α : Type} [DecidableEq κ] (m : List (κ × α)) (k j : κ) (v : α) :
    mapGet (mapSet m k v) j = if k = j then some v else mapGet m j := by
  induction m with
  | nil => simp [mapSet, mapGet]
  | cons p m ih =>
    obtain ⟨k1, v1⟩ := p
    by_cases h1 : k1 = k
    · subst h1
      by_cases h2 : k1 = j <;> simp [mapSet, mapGet, h2]
    · by_cases h2 : k = j
      · subst h2
        simp [mapSet, mapGet, h1, ih]
      · by_cases h3 : k1 = j
        · subst h3
          simp [mapSet, mapGet, h1, h2]
        · simp [mapSet, mapGet, h1, h2, h3, ih]

theorem mapGet_mapSet_self {κ α : Type} [DecidableEq κ] (m : List (κ × α)) (k : κ) (v : α) :
    mapGet (mapSet m k v) k = some v := by
  rw [mapGet_mapSet]; simp

theorem mem_mapSet {κ α : Type} [DecidableEq κ] (m : List (κ × α)) (k : κ) (v : α)
    (p : κ × α) (hp : p ∈ mapSet m k v) : p ∈ m ∨ p = (k, v) := by
  induction m with
  | nil => simp [mapSet] at hp; exact Or.inr hp
  | cons q m ih =>
    obtain ⟨k1, v1⟩ := q
    by_cases h1 : k1 = k
    · simp only [mapSet, h1, if_true, List.mem_cons] at hp
      rcases hp with hp | hp
      · exact Or.inr hp
      · exact Or.inl (by simp [hp])
    · simp only [mapSet, h1, if_false, List.mem_cons] at hp
      rcases hp with hp | hp
      · exact Or.inl (by simp [hp])
      · rcases ih hp with h | h
        · exact Or.inl (by simp [h])
        · exact Or.inr h

theorem State_push_old (heap : List Object) (o : Object) (a : Control) (s : State)
    (h : (heap[a]?).map Object.State = some s) :
    ((heap ++ [o])[a]?).map Object.State = some s := by
  cases ho : heap[a]? with
  | none => simp [ho] at h
  | some x =>
    have hlt : a < heap.length := (List.getElem?_eq_some_iff.mp ho).1
    rw [List.getElem?_append_left hlt]
    exact h

theorem State_push_new (heap : List Object) (o : Object) :
    ((heap ++ [o])[heap.length]?).map Object.State = some o.State := by
  simp

/-- Storing a new StillDeactivated key control keeps all entries fresh. -/
theorem Fresh_initKey (r : Registry) (k : ebiten.Key) (h : Fresh r) : Fresh (initKey r k) := by
  obtain ⟨h1, h2, h3⟩ := h
  refine ⟨?_, ?_, ?_⟩
  · intro p hp
    rcases mem_mapSet _ _ _ _ hp with hp | hp
    · exact State_push_old _ _ _ _ (h1 p hp)
    · subst hp; exact State_push_new _ _
  · intro p hp; exact State_push_old _ _ _ _ (h2 p hp)
  · intro p hp; exact State_push_old _ _ _ _ (h3 p hp)

/-- Storing a new StillDeactivated mouse button control keeps all entries fresh. -/
theorem Fresh_initMouseButton (r : Registry) (b : ebiten.MouseButton) (h : Fresh r) :
    Fresh (initMouseButton r b) := by
  obtain ⟨h1, h2, h3⟩ := h
  refine ⟨?_, ?_, ?_⟩
  · intro p hp; exact State_push_old _ _ _ _ (h1 p hp)
  · intro p hp
    rcases mem_mapSet _ _ _ _ hp with hp | hp
    · exact State_push_old _ _ _ _ (h2 p hp)
    · subst hp; exact State_push_new _ _
  · intro p hp; exact State_push_old _ _ _ _ (h3 p hp)

theorem Fresh_foldl_initKey (l : List ebiten.Key) (r : Registry) (h : Fresh r) :
    Fresh (l.foldl initKey r) := by
  induction l generalizing r with
  | nil => exact h
  | cons k l ih => exact ih _ (Fresh_initKey r k h)

theorem Fresh_foldl_initMouseButton (l : List ebiten.MouseButton) (r : Registry)
    (h : Fresh r) : Fresh (l.foldl initMouseButton r) := by
  induction l generalizing r with
  | nil => exact h
  | cons k l ih => exact ih _ (Fresh_initMouseButton r k h)

/-- After `init` every entry is fresh. -/
theorem Fresh_init (E : Backend) : Fresh (init E) := by
  unfold init
  apply Fresh_foldl_initMouseButton
  apply Fresh_foldl_initKey
  refine ⟨?_, ?_, ?_⟩ <;> intro p hp <;> simp [emptyRegistry] at hp

theorem Key_fst_eq (r : Registry) (k : ebiten.Key) :
    (Key r k).1 = if (mapGet r.keyControls k).isNone then initKey r k else r := rfl

theorem Fresh_Key (r : Registry) (k : ebiten.Key) (h : Fresh r) : Fresh (Key r k).1 := by
  rw [Key_fst_eq]
  split
  · exact Fresh_initKey r k h
  · exact h

theorem MouseButton_fst_eq (r : Registry) (b : ebiten.MouseButton) :
    (MouseButton r b).1 =
      if (mapGet r.mouseButtonControls b).isNone then initMouseButton r b else r := rfl

theorem Fresh_MouseButton (r : Registry) (b : ebiten.MouseButton) (h : Fresh r) :
    Fresh (MouseButton r b).1 := by
  rw [MouseButton_fst_eq]
  split
  · exact Fresh_initMouseButton r b h
  · exact h

theorem Fresh_KeyCombo (E : Backend) (r : Registry) (keys : List ebiten.Key) (h : Fresh r) :
    Fresh (KeyCombo E r keys).1 := by
  unfold KeyCombo
  simp only
  split
  · obtain ⟨h1, h2, h3⟩ := h
    refine ⟨?_, ?_, ?_⟩
    · intro p hp; exact State_push_old _ _ _ _ (h1 p hp)
    · intro p hp; exact State_push_old _ _ _ _ (h2 p hp)
    · intro p hp
      rcases mem_mapSet _ _ _ _ hp with hp | hp
      · exact State_push_old _ _ _ _ (h3 p hp)
      · subst hp; exact State_push_new _ _
  · exact h

theorem Fresh_requests (E : Backend) (qs : List Request) (r : Registry) (h : Fresh r) :
    Fresh (requests E qs r) := by
  induction qs generalizing r with
  | nil => exact h
  | cons q qs ih =>
    apply ih
    show Fresh (q.run E r)
    cases q with
    | key k => exact Fresh_Key r k h
    | mouseButton b => exact Fresh_MouseButton r b h
    | keyCombo ks => exact Fresh_KeyCombo E r ks h

/-- An accessor returns the control that its map holds after the call. -/
theorem Key_snd_mem (r : Registry) (k : ebiten.Key) :
    ∃ a, (Key r k).2 = some a ∧ (k, a) ∈ (Key r k).1.keyControls := by
  have h2 : (Key r k).2 = mapGet (Key r k).1.keyControls k := rfl
  have hsome : ∃ a, mapGet (Key r k).1.keyControls k = some a := by
    rw [Key_fst_eq]
    cases hm : mapGet r.keyControls k with
    | none => exact ⟨r.heap.length, by simp [initKey, mapGet_mapSet_self]⟩
    | some a => exact ⟨a, by simp [hm]⟩
  obtain ⟨a, ha⟩ := hsome
  exact ⟨a, by rw [h2, ha], mapGet_mem _ _ _ ha⟩

theorem MouseButton_snd_mem (r : Registry) (b : ebiten.MouseButton) :
    ∃ a, (MouseButton r b).2 = some a ∧ (b, a) ∈ (MouseButton r b).1.mouseButtonControls := by
  have h2 : (MouseButton r b).2 = mapGet (MouseButton r b).1.mouseButtonControls b := rfl
  have hsome : ∃ a, mapGet (MouseButton r b).1.mouseButtonControls b = some a := by
    rw [MouseButton_fst_eq]
    cases hm : mapGet r.mouseButtonControls b with
    | none => exact ⟨r.heap.length, by simp [initMouseButton, mapGet_mapSet_self]⟩
    | some a => exact ⟨a, by simp [hm]⟩
  obtain ⟨a, ha⟩ := hsome
  exact ⟨a, by rw [h2, ha], mapGet_mem _ _ _ ha⟩

theorem KeyCombo_snd_mem (E : Backend) (r : Registry) (keys : List ebiten.Key) :
    ∃ a, (KeyCombo E r keys).2 = some a ∧
      (makeKeyComboName E keys, a) ∈ (KeyCombo E r keys).1.keyComboControls := by
  have h2 : (KeyCombo E r keys).2 =
      mapGet (KeyCombo E r keys).1.keyComboControls (makeKeyComboName E keys) := rfl
  have hsome : ∃ a, mapGet (KeyCombo E r keys).1.keyComboControls
      (makeKeyComboName E keys) = some a := by
    unfold KeyCombo
    simp only
    cases hm : mapGet r.keyComboControls (makeKeyComboName E keys) with
    | none => exact ⟨r.heap.length, by simp [mapGet_mapSet_self]⟩
    | some a => exact ⟨a, by simp [hm]⟩
  obtain ⟨a, ha⟩ := hsome
  exact ⟨a, by rw [h2, ha], mapGet_mem _ _ _ ha⟩

/-- C6: after `init`, and after any accessor calls made before the first
`Update`, the control returned by `Key`, by `MouseButton` and by `KeyCombo`
reports StillDeactivated for every key code, button code and key sequence. -/
theorem accessors_start_deactivated (E : Backend) (qs : List Request) (k : ebiten.Key)
    (b : ebiten.MouseButton) (keys : List ebiten.Key) :
    resultState (Key (requests E qs (init E)) k) = some StillDeactivatedState ∧
    resultState (MouseButton (requests E qs (init E)) b) = some StillDeactivatedState ∧
    resultState (KeyCombo E (requests E qs (init E)) keys) = some StillDeactivatedState := by
  have hf := Fresh_requests E qs (init E) (Fresh_init E)
  refine ⟨?_, ?_, ?_⟩
  · obtain ⟨a, ha, hmem⟩ := Key_snd_mem (requests E qs (init E)) k
    unfold resultState
    rw [ha]
    exact (Fresh_Key _ k hf).1 _ hmem
  · obtain ⟨a, ha, hmem⟩ := MouseButton_snd_mem (requests E qs (init E)) b
    unfold resultState
    rw [ha]
    exact (Fresh_MouseButton _ b hf).2.1 _ hmem
  · obtain ⟨a, ha, hmem⟩ := KeyCombo_snd_mem E (requests E qs (init E)) keys
    unfold resultState
    rw [ha]
    exact (Fresh_KeyCombo E _ keys hf).2.2 _ hmem

/-! ## What `init` registers -/

theorem mem_forRange (lo hi k : Int) : k ∈ forRange lo hi ↔ lo ≤ k ∧ k < hi := by
  unfold forRange
  simp only [List.mem_map, List.mem_range]
  constructor
  · rintro ⟨i, hi1, rfl⟩
    have h1 : (i : Int) < hi - lo := Int.lt_toNat.mp hi1
    have h0 : (0 : Int) ≤ (i : Int) := Int.ofNat_nonneg i
    simp only [Int.ofNat_eq_coe]
    constructor <;> linarith
  · rintro ⟨h1, h2⟩
    have h3 : ((k - lo).toNat : Int) = k - lo := Int.toNat_of_nonneg (by linarith)
    refine ⟨(k - lo).toNat, ?_, ?_⟩
    · apply Int.lt_toNat.mpr
      rw [h3]; linarith
    · simp only [Int.ofNat_eq_coe]
      rw [h3]; ring

theorem foldl_initKey_mouseButtonControls (l : List ebiten.Key) (r : Registry) :
    (l.foldl initKey r).mouseButtonControls = r.mouseButtonControls := by
  induction l generalizing r with
  | nil => rfl
  | cons k l ih => rw [List.foldl_cons, ih]; rfl

theorem foldl_initMouseButton_keyControls (l : List ebiten.MouseButton) (r : Registry) :
    (l.foldl initMouseButton r).keyControls = r.keyControls := by
  induction l generalizing r with
  | nil => rfl
  | cons k l ih => rw [List.foldl_cons, ih]; rfl

theorem foldl_initKey_isSome (l : List ebiten.Key) (r : Registry) (k : ebiten.Key) :
    (mapGet (l.foldl initKey r).keyControls k).isSome = true ↔
      k ∈ l ∨ (mapGet r.keyControls k).isSome = true := by
  induction l generalizing r with
  | nil => simp
  | cons j l ih =>
    rw [List.foldl_cons, ih]
    simp only [initKey, mapGet_mapSet, List.mem_cons]
    by_cases hjk : j = k
    · simp [hjk]
    · have hkj : ¬ k = j := fun h => hjk h.symm
      simp [hjk, hkj]

theorem foldl_initMouseButton_isSome (l : List ebiten.MouseButton) (r : Registry)
    (b : ebiten.MouseButton) :
    (mapGet (l.foldl initMouseButton r).mouseButtonControls b).isSome = true ↔
      b ∈ l ∨ (mapGet r.mouseButtonControls b).isSome = true := by
  induction l generalizing r with
  | nil => simp
  | cons j l ih =>
    rw [List.foldl_cons, ih]
    simp only [initMouseButton, mapGet_mapSet, List.mem_cons]
    by_cases hjk : j = b
    · simp [hjk]
    · have hkj : ¬ b = j := fun h => hjk h.symm
      simp [hjk, hkj]

/-- C7, as the code has it: after `init` and before any accessor call,
`keyControls` has an entry exactly for the key codes from KeyA up to but not
including KeyMax and `mouseButtonControls` exactly for the button codes from
MouseButtonLeft up to but not including MouseButtonMiddle; KeyMax and
MouseButtonMiddle have no entry. -/
theorem init_entries (E : Backend) :
    (∀ k : ebiten.Key, (mapGet (init E).keyControls k).isSome = true ↔
      (E.KeyA ≤ k ∧ k < E.KeyMax)) ∧
    (∀ b : ebiten.MouseButton, (mapGet (init E).mouseButtonControls b).isSome = true ↔
      (E.MouseButtonLeft ≤ b ∧ b < E.MouseButtonMiddle)) ∧
    mapGet (init E).keyControls E.KeyMax = none ∧
    mapGet (init E).mouseButtonControls E.MouseButtonMiddle = none := by
  have hk : ∀ k : ebiten.Key, (mapGet (init E).keyControls k).isSome = true ↔
      (E.KeyA ≤ k ∧ k < E.KeyMax) := by
    intro k
    unfold init
    simp only [foldl_initMouseButton_keyControls]
    rw [foldl_initKey_isSome, mem_forRange]
    simp [emptyRegistry, mapGet]
  have hb : ∀ b : ebiten.MouseButton, (mapGet (init E).mouseButtonControls b).isSome = true ↔
      (E.MouseButtonLeft ≤ b ∧ b < E.MouseButtonMiddle) := by
    intro b
    unfold init
    simp only
    rw [foldl_initMouseButton_isSome, mem_forRange, foldl_initKey_mouseButtonControls]
    simp [emptyRegistry, mapGet]
  refine ⟨hk, hb, ?_, ?_⟩
  · have h := hk E.KeyMax
    cases hm : mapGet (init E).keyControls E.KeyMax with
    | none => rfl
    | some a => rw [hm] at h; simp at h
  · have h := hb E.MouseButtonMiddle
    cases hm : mapGet (init E).mouseButtonControls E.MouseButtonMiddle with
    | none => rfl
    | some a => rw [hm] at h; simp at h

/-! ## Get or create -/

theorem Updates_keyControls (fs : List Frame) (r : Registry) :
    (Updates fs r).keyControls = r.keyControls := by
  induction fs generalizing r with
  | nil => rfl
  | cons f fs ih => rw [Updates, List.foldl_cons]; exact (ih _).trans (Update_keyControls f r)

theorem Updates_mouseButtonControls (fs : List Frame) (r : Registry) :
    (Updates fs r).mouseButtonControls = r.mouseButtonControls := by
  induction fs generalizing r with
  | nil => rfl
  | cons f fs ih =>
    rw [Updates, List.foldl_cons]; exact (ih _).trans (Update_mouseButtonControls f r)

theorem Updates_keyComboControls (fs : List Frame) (r : Registry) :
    (Updates fs r).keyComboControls = r.keyComboControls := by
  induction fs generalizing r with
  | nil => rfl
  | cons f fs ih =>
    rw [Updates, List.foldl_cons]; exact (ih _).trans (Update_keyComboControls f r)

theorem Key_of_present (r : Registry) (k : ebiten.Key) (a : Control)
    (h : mapGet r.keyControls k = some a) : Key r k = (r, some a) := by
  simp [Key, h]

theorem MouseButton_of_present (r : Registry) (b : ebiten.MouseButton) (a : Control)
    (h : mapGet r.mouseButtonControls b = some a) : MouseButton r b = (r, some a) := by
  simp [MouseButton, h]

theorem KeyCombo_of_present (E : Backend) (r : Registry) (keys : List ebiten.Key) (a : Control)
    (h : mapGet r.keyComboControls (makeKeyComboName E keys) = some a) :
    KeyCombo E r keys = (r, some a) := by
  simp [KeyCombo, h]

/-- C10: each accessor returns a control; a second call with the same key code,
button code or key sequence returns the same reference and the package state of
the first call unchanged; and after any number of calls of `Update` the call
returns that same reference, leaves the package state as the frames made it,
and so reports the current state of the control. -/
theorem accessors_get_or_create (E : Backend) (r : Registry) (k : ebiten.Key)
    (b : ebiten.MouseButton) (keys : List ebiten.Key) (fs : List Frame) :
    ((Key r k).2.isSome = true ∧ Key (Key r k).1 k = Key r k ∧
      Key (Updates fs (Key r k).1) k = (Updates fs (Key r k).1, (Key r k).2) ∧
      resultState (Key (Updates fs (Key r k).1) k) =
        (Key r k).2.bind (fun c => (Updates fs (Key r k).1).State c)) ∧
    ((MouseButton r b).2.isSome = true ∧ MouseButton (MouseButton r b).1 b = MouseButton r b ∧
      MouseButton (Updates fs (MouseButton r b).1) b =
        (Updates fs (MouseButton r b).1, (MouseButton r b).2) ∧
      resultState (MouseButton (Updates fs (MouseButton r b).1) b) =
        (MouseButton r b).2.bind (fun c => (Updates fs (MouseButton r b).1).State c)) ∧
    ((KeyCombo E r keys).2.isSome = true ∧
      KeyCombo E (KeyCombo E r keys).1 keys = KeyCombo E r keys ∧
      KeyCombo E (Updates fs (KeyCombo E r keys).1) keys =
        (Updates fs (KeyCombo E r keys).1, (KeyCombo E r keys).2) ∧
      resultState (KeyCombo E (Updates fs (KeyCombo E r keys).1) keys) =
        (KeyCombo E r keys).2.bind (fun c => (Updates fs (KeyCombo E r keys).1).State c)) := by
  refine ⟨?_, ?_, ?_⟩
  · obtain ⟨a, ha, _⟩ := Key_snd_mem r k
    have hg : mapGet (Key r k).1.keyControls k = some a := ha
    have h1 : Key (Key r k).1 k = ((Key r k).1, some a) := Key_of_present _ k a hg
    have h2 : Key (Updates fs (Key r k).1) k = (Updates fs (Key r k).1, some a) :=
      Key_of_present _ k a (by rw [Updates_keyControls]; exact hg)
    refine ⟨by rw [ha]; rfl, ?_, ?_, ?_⟩
    · rw [h1, ← ha]
    · rw [h2, ha]
    · rw [h2, ha]; rfl
  · obtain ⟨a, ha, _⟩ := MouseButton_snd_mem r b
    have hg : mapGet (MouseButton r b).1.mouseButtonControls b = some a := ha
    have h1 : MouseButton (MouseButton r b).1 b = ((MouseButton r b).1, some a) :=
      MouseButton_of_present _ b a hg
    have h2 : MouseButton (Updates fs (MouseButton r b).1) b =
        (Updates fs (MouseButton r b).1, some a) :=
      MouseButton_of_present _ b a (by rw [Updates_mouseButtonControls]; exact hg)
    refine ⟨by rw [ha]; rfl, ?_, ?_, ?_⟩
    · rw [h1, ← ha]
    · rw [h2, ha]
    · rw [h2, ha]; rfl
  · obtain ⟨a, ha, _⟩ := KeyCombo_snd_mem E r keys
    have hg : mapGet (KeyCombo E r keys).1.keyComboControls (makeKeyComboName E keys) =
        some a := ha
    have h1 : KeyCombo E (KeyCombo E r keys).1 keys = ((KeyCombo E r keys).1, some a) :=
      KeyCombo_of_present E _ keys a hg
    have h2 : KeyCombo E (Updates fs (KeyCombo E r keys).1) keys =
        (Updates fs (KeyCombo E r keys).1, some a) :=
      KeyCombo_of_present E _ keys a (by rw [Updates_keyComboControls]; exact hg)
    refine ⟨by rw [ha]; rfl, ?_, ?_, ?_⟩
    · rw [h1, ← ha]
    · rw [h2, ha]
    · rw [h2, ha]; rfl

/-! ## The order of the loops -/

/-- The flag of the loop of `updateKeyComboState` is true exactly when every key
of the list has an entry whose control is in an active state. -/
theorem allPressedLoop_iff (r : Registry) (keys : List ebiten.Key) :
    allPressedLoop r keys = true ↔
      ∀ k ∈ keys, ∃ kc, r.keyControlAt k = some kc ∧ IsActiveState kc.state := by
  induction keys with
  | nil => simp [allPressedLoop]
  | cons k ks ih =>
    simp only [allPressedLoop, List.mem_cons, forall_eq_or_imp]
    cases hk : r.keyControlAt k with
    | none => simp
    | some kc =>
      by_cases hact : IsActiveState kc.state
      · have htest : (kc.state != StillActivatedState && kc.state != JustActivatedState)
            = false := by
          rcases hact with h | h <;> rw [h] <;> decide
        simp only [htest, Bool.false_eq_true, if_false, ih]
        constructor
        · intro h; exact ⟨⟨kc, rfl, hact⟩, h⟩
        · intro h; exact h.2
      · have htest : (kc.state != StillActivatedState && kc.state != JustActivatedState)
            = true := by
          unfold IsActiveState at hact
          simp only [not_or] at hact
          simp [hact.1, hact.2]
        simp only [htest, if_true, Bool.false_eq_true, false_iff, not_and]
        intro h
        obtain ⟨kc1, h1, h2⟩ := h
        rw [← Option.some.inj h1] at h2
        exact absurd h2 hact

/-- In one call of `Update` a registered combination that is not also held in
`userControls` ends in the state that the switch gives for (every key of the
combination has a control that is JustActivated or StillActivated in the
registry as the key loop of this call left it, state of the combination before
the call); and a registered key in a named state is active in that registry
exactly when the backend reports it pressed in this frame, whatever its state
of the frame before. -/
theorem keyCombo_reads_updated_keys (f : Frame) (r : Registry) (c : Control)
    (keys : List ebiten.Key) (s : State) (h : ComboReady r c keys s) :
    (∃ p : Bool,
      (p = true ↔ ∀ k ∈ keys, ∃ kc, (updateKeys f r).keyControlAt k = some kc ∧
        IsActiveState kc.state) ∧
      (Update f r).State c = some (transition p s)) ∧
    (∀ (k : ebiten.Key) (a : Control) (sk : State),
      mapGet r.keyControls k = some a → r.State a = some sk → IsNamedState sk →
      ((∃ kc, (updateKeys f r).keyControlAt k = some kc ∧ IsActiveState kc.state) ↔
        f.isKeyPressedFunc k = true)) := by
  constructor
  · exact ⟨allPressedLoop (updateKeys f r) keys, allPressedLoop_iff _ keys,
      State_of_combo_object _ c _ (combo_frame f r c keys s h).2.2.2⟩
  · intro k a sk hreg hs hn
    rw [updateKeys_keyControlAt f r k a sk h.1 hreg hs]
    constructor
    · rintro ⟨kc, h1, h2⟩
      rw [← Option.some.inj h1] at h2
      exact (transition_active_iff _ sk hn).mp h2
    · intro hp
      exact ⟨_, rfl, (transition_active_iff _ sk hn).mpr hp⟩

/-! ## Every control once -/

theorem mem_keyRefs_object (r : Registry) (a : Control) (hwf : r.WF) (ha : a ∈ r.keyRefs) :
    ∃ kc, r.heap[a]? = some (Object.key kc) := by
  obtain ⟨p, hp, rfl⟩ := List.mem_map.mp ha
  have hok := hwf.2.1 p hp
  unfold keyEntryOk at hok
  cases ho : r.heap[p.2]? with
  | none => simp [ho] at hok
  | some o =>
    cases o with
    | key kc => exact ⟨kc, rfl⟩
    | _ => simp [ho] at hok

/-- C8, amended: when no reference held in `userControls` is also held in one of
the three package-made maps, one call of `Update` leaves every registered
control as a single call of its own `Update` method on its state before the
call leaves it (for a combination, a call made after the key loop); none is
skipped and none is updated twice. -/
theorem Update_each_once (f : Frame) (r : Registry) (a : Control) (o : Object)
    (hwf : r.WF) (hna : ∀ c ∈ r.userRefs, c ∉ r.builtinRefs)
    (ha : a ∈ r.builtinRefs ++ r.userRefs) (ho : r.heap[a]? = some o) :
    (Update f r).heap[a]? = some (o.Update f (updateKeys f r)) := by
  have hsub : ∀ b, b ∈ r.keyRefs ∨ b ∈ r.mouseButtonRefs ∨ b ∈ r.keyComboRefs →
      b ∈ r.builtinRefs := by
    intro b hb
    unfold Registry.builtinRefs
    simp only [List.mem_append]
    tauto
  rcases List.mem_append.mp ha with hb | hu
  · have hnu : a ∉ r.userRefs := fun h => hna a h hb
    unfold Registry.builtinRefs at hb
    simp only [List.mem_append] at hb
    rcases hb with (hk | hm) | hc
    · obtain ⟨kc, hkc⟩ := mem_keyRefs_object r a hwf hk
      have hoe : o = Object.key kc := Option.some.inj (ho.symm.trans hkc)
      subst hoe
      obtain ⟨hm, hc⟩ := WF_key_not_elsewhere r a hwf hk
      obtain ⟨l1, l2, _, h⟩ := updateAll_once_mid f r [] r.keyRefs
        (r.mouseButtonRefs ++ r.keyComboRefs ++ r.userRefs) a _ (by simp)
        (WF_nodup_parts r hwf).1 hk (by simp [hm, hc, hnu]) ho
      have hall : r.builtinRefs ++ r.userRefs =
          [] ++ r.keyRefs ++ (r.mouseButtonRefs ++ r.keyComboRefs ++ r.userRefs) := by
        simp [Registry.builtinRefs]
      rw [Update_eq_updateAll, hall, h]
      rfl
    · obtain ⟨_, hc⟩ := WF_mouseButton_not_elsewhere r a hwf hm
      exact Update_once_in f r [] r.mouseButtonRefs (r.keyComboRefs ++ r.userRefs) a _
        (by simp [Registry.builtinRefs]) (by simp)
        (fun b hb => (WF_mouseButton_not_elsewhere r b hwf hb).1)
        (WF_nodup_parts r hwf).2.1 hm (by simp) (by simp [hc, hnu]) ho
    · obtain ⟨_, hm⟩ := WF_keyCombo_not_elsewhere r a hwf hc
      exact Update_once_in f r r.mouseButtonRefs r.keyComboRefs r.userRefs a _
        (by simp [Registry.builtinRefs])
        (fun b hb => (WF_mouseButton_not_elsewhere r b hwf hb).1)
        (fun b hb => (WF_keyCombo_not_elsewhere r b hwf hb).1)
        (WF_nodup_parts r hwf).2.2 hc hm hnu ho
  · have hnb := hna a hu
    exact Update_once_in f r (r.mouseButtonRefs ++ r.keyComboRefs) r.userRefs [] a _
      (by simp [Registry.builtinRefs])
      (fun b hb => by
        rcases List.mem_append.mp hb with hb | hb
        · exact (WF_mouseButton_not_elsewhere r b hwf hb).1
        · exact (WF_keyCombo_not_elsewhere r b hwf hb).1)
      (fun b hb hk => hna b hb (hsub b (Or.inl hk)))
      hwf.2.2.2.2.1 hu
      (fun h => hnb (by
        rcases List.mem_append.mp h with h | h
        · exact hsub a (Or.inr (Or.inl h))
        · exact hsub a (Or.inr (Or.inr h))))
      (by simp) ho

/-- Instance of the amended C8: after `init` of the sample backend a caller makes
a control of its own (address 4) and registers it; one frame updates it once. -/
theorem Update_each_once_witness :
    (Update pressAll (RegisterCustomControl
        (newCustomControl (init sampleBackend) sampleCustom).1 4).1).heap[4]? =
      some ((Object.user sampleCustom).Update pressAll
        (updateKeys pressAll (RegisterCustomControl
          (newCustomControl (init sampleBackend) sampleCustom).1 4).1)) :=
  Update_each_once pressAll
    (RegisterCustomControl (newCustomControl (init sampleBackend) sampleCustom).1 4).1 4
    (Object.user sampleCustom) (by decide) (by decide) (by decide) rfl

/-- C8 as stated fails: the control that `Key` returns for key 0 after `init` of
the sample backend (address 0) is also passed to `RegisterCustomControl`; one
call of `Update` with key 0 pressed then takes it from StillDeactivated to
StillActivated, the result of two updates, where one update gives
JustActivated. -/
theorem Update_each_once_counterexample :
    (Key (init sampleBackend) 0).2 = some 0 ∧
    (RegisterCustomControl (Key (init sampleBackend) 0).1 0).1.WF ∧
    (RegisterCustomControl (Key (init sampleBackend) 0).1 0).1.State 0 =
      some StillDeactivatedState ∧
    (Update pressAll (RegisterCustomControl (Key (init sampleBackend) 0).1 0).1).State 0 =
      some StillActivatedState ∧
    updateKeyState pressAll.isKeyPressedFunc 0 StillDeactivatedState = JustActivatedState ∧
    updateKeyState pressAll.isKeyPressedFunc 0
      (updateKeyState pressAll.isKeyPressedFunc 0 StillDeactivatedState) =
        StillActivatedState := by
  decide

/-! ## The shape of the package state is kept by every call -/

theorem mapSet_snd_nodup {κ : Type} [DecidableEq κ] (m : List (κ × Control)) (k : κ)
    (v : Control) (hnd : (m.map Prod.snd).Nodup) (hv : v ∉ m.map Prod.snd) :
    ((mapSet m k v).map Prod.snd).Nodup ∧
      ∀ x ∈ (mapSet m k v).map Prod.snd, x = v ∨ x ∈ m.map Prod.snd := by
  induction m with
  | nil => simp [mapSet]
  | cons p m ih =>
    obtain ⟨k1, v1⟩ := p
    simp only [List.map_cons, List.nodup_cons, List.mem_cons, not_or] at hnd hv
    obtain ⟨ih1, ih2⟩ := ih hnd.2 hv.2
    by_cases h1 : k1 = k
    · simp only [mapSet, h1, if_true, List.map_cons, List.nodup_cons, List.mem_cons]
      refine ⟨⟨hv.2, hnd.2⟩, ?_⟩
      intro x hx
      rcases hx with hx | hx
      · exact Or.inl hx
      · exact Or.inr (Or.inr hx)
    · simp only [mapSet, h1, if_false, List.map_cons, List.nodup_cons, List.mem_cons]
      refine ⟨⟨?_, ih1⟩, ?_⟩
      · intro hmem
        rcases ih2 v1 hmem with h | h
        · exact hv.1 h.symm
        · exact hnd.1 h
      · intro x hx
        rcases hx with hx | hx
        · exact Or.inr (Or.inl hx)
        · rcases ih2 x hx with h | h
          · exact Or.inl h
          · exact Or.inr (Or.inr h)

theorem heap_push_old (heap : List Object) (o x : Object) (a : Control)
    (h : heap[a]? = some x) : (heap ++ [o])[a]? = some x := by
  have hlt : a < heap.length := (List.getElem?_eq_some_iff.mp h).1
  rw [List.getElem?_append_left hlt]
  exact h

theorem keyEntryOk_lt (r : Registry) (p : ebiten.Key × Addr) (h : keyEntryOk r p = true) :
    p.2 < r.heap.length := by
  unfold keyEntryOk at h
  cases ho : r.heap[p.2]? with
  | none => simp [ho] at h
  | some o => exact (List.getElem?_eq_some_iff.mp ho).1

theorem mouseButtonEntryOk_lt (r : Registry) (p : ebiten.MouseButton × Addr)
    (h : mouseButtonEntryOk r p = true) : p.2 < r.heap.length := by
  unfold mouseButtonEntryOk at h
  cases ho : r.heap[p.2]? with
  | none => simp [ho] at h
  | some o => exact (List.getElem?_eq_some_iff.mp ho).1

theorem keyComboEntryOk_lt (r : Registry) (p : keyComboName × Addr)
    (h : keyComboEntryOk r p = true) : p.2 < r.heap.length := by
  unfold keyComboEntryOk at h
  cases ho : r.heap[p.2]? with
  | none => simp [ho] at h
  | some o => exact (List.getElem?_eq_some_iff.mp ho).1

/-- Every reference of the package-made maps is an address of the heap. -/
theorem WF_builtin_lt (r : Registry) (h : r.WF) (a : Control) (ha : a ∈ r.builtinRefs) :
    a < r.heap.length := by
  unfold Registry.builtinRefs at ha
  simp only [List.mem_append] at ha
  rcases ha with (hk | hm) | hc
  · obtain ⟨p, hp, rfl⟩ := List.mem_map.mp hk
    exact keyEntryOk_lt r p (h.2.1 p hp)
  · obtain ⟨p, hp, rfl⟩ := List.mem_map.mp hm
    exact mouseButtonEntryOk_lt r p (h.2.2.1 p hp)
  · obtain ⟨p, hp, rfl⟩ := List.mem_map.mp hc
    exact keyComboEntryOk_lt r p (h.2.2.2.1 p hp)

theorem keyEntryOk_push (r s : Registry) (o : Object) (p : ebiten.Key × Addr)
    (hs : s.heap = r.heap ++ [o]) (h : keyEntryOk r p = true) : keyEntryOk s p = true := by
  unfold keyEntryOk at h ⊢
  cases ho : r.heap[p.2]? with
  | none => simp [ho] at h
  | some x =>
    rw [hs, heap_push_old r.heap o x p.2 ho]
    rw [ho] at h
    exact h

theorem mouseButtonEntryOk_push (r s : Registry) (o : Object) (p : ebiten.MouseButton × Addr)
    (hs : s.heap = r.heap ++ [o]) (h : mouseButtonEntryOk r p = true) :
    mouseButtonEntryOk s p = true := by
  unfold mouseButtonEntryOk at h ⊢
  cases ho : r.heap[p.2]? with
  | none => simp [ho] at h
  | some x =>
    rw [hs, heap_push_old r.heap o x p.2 ho]
    rw [ho] at h
    exact h

theorem keyComboEntryOk_push (r s : Registry) (o : Object) (p : keyComboName × Addr)
    (hs : s.heap = r.heap ++ [o]) (h : keyComboEntryOk r p = true) :
    keyComboEntryOk s p = true := by
  unfold keyComboEntryOk at h ⊢
  cases ho : r.heap[p.2]? with
  | none => simp [ho] at h
  | some x =>
    rw [hs, heap_push_old r.heap o x p.2 ho]
    rw [ho] at h
    exact h

theorem nodup_replace_first (K M C K2 : List Control) (v : Control)
    (h : (K ++ M ++ C).Nodup) (hv : v ∉ K ++ M ++ C) (h1 : K2.Nodup)
    (h2 : ∀ x ∈ K2, x = v ∨ x ∈ K) : (K2 ++ M ++ C).Nodup := by
  simp only [List.nodup_append, List.disjoint_left, List.mem_append, not_or] at h hv ⊢
  obtain ⟨⟨hK, hM, hKM⟩, hC, hKMC⟩ := h
  refine ⟨⟨h1, hM, ?_⟩, hC, ?_⟩
  · intro x hx hxm
    rcases h2 x hx with rfl | hk
    · exact hv.1.2 hxm
    · exact hKM hk hxm
  · intro x hx hxc
    rcases hx with hx | hx
    · rcases h2 x hx with rfl | hk
      · exact hv.2 hxc
      · exact hKMC (Or.inl hk) hxc
    · exact hKMC (Or.inr hx) hxc

theorem nodup_replace_second (K M C M2 : List Control) (v : Control)
    (h : (K ++ M ++ C).Nodup) (hv : v ∉ K ++ M ++ C) (h1 : M2.Nodup)
    (h2 : ∀ x ∈ M2, x = v ∨ x ∈ M) : (K ++ M2 ++ C).Nodup := by
  simp only [List.nodup_append, List.disjoint_left, List.mem_append, not_or] at h hv ⊢
  obtain ⟨⟨hK, hM, hKM⟩, hC, hKMC⟩ := h
  refine ⟨⟨hK, h1, ?_⟩, hC, ?_⟩
  · intro x hx hxm
    rcases h2 x hxm with rfl | hk
    · exact hv.1.1 hx
    · exact hKM hx hk
  · intro x hx hxc
    rcases hx with hx | hx
    · exact hKMC (Or.inl hx) hxc
    · rcases h2 x hx with rfl | hk
      · exact hv.2 hxc
      · exact hKMC (Or.inr hk) hxc

theorem nodup_replace_third (K M C C2 : List Control) (v : Control)
    (h : (K ++ M ++ C).Nodup) (hv : v ∉ K ++ M ++ C) (h1 : C2.Nodup)
    (h2 : ∀ x ∈ C2, x = v ∨ x ∈ C) : (K ++ M ++ C2).Nodup := by
  simp only [List.nodup_append, List.disjoint_left, List.mem_append, not_or] at h hv ⊢
  obtain ⟨⟨hK, hM, hKM⟩, hC, hKMC⟩ := h
  refine ⟨⟨hK, hM, hKM⟩, h1, ?_⟩
  intro x hx hxc
  rcases h2 x hxc with rfl | hk
  · rcases hx with hx | hx
    · exact hv.1.1 hx
    · exact hv.1.2 hx
  · exact hKMC hx hk

theorem WF_fresh_not_mem (r : Registry) (h : r.WF) : r.heap.length ∉ r.builtinRefs :=
  fun hmem => Nat.lt_irrefl _ (WF_builtin_lt r h _ hmem)

/-- Storing a new key control under a key keeps the shape. -/
theorem WF_initKey (r : Registry) (k : ebiten.Key) (h : r.WF) : (initKey r k).WF := by
  have hfresh := WF_fresh_not_mem r h
  obtain ⟨h1, h2, h3, h4, h5, h6⟩ := h
  have hK := (List.nodup_append.mp (List.nodup_append.mp h1).1).1
  have hnotK : r.heap.length ∉ r.keyControls.map Prod.snd := by
    intro hm; exact hfresh (by simp [Registry.builtinRefs, Registry.keyRefs, hm])
  obtain ⟨hs1, hs2⟩ := mapSet_snd_nodup r.keyControls k r.heap.length hK hnotK
  refine ⟨?_, ?_, ?_, ?_, h5, h6⟩
  · exact nodup_replace_first r.keyRefs r.mouseButtonRefs r.keyComboRefs _ r.heap.length h1
      hfresh hs1 hs2
  · intro p hp
    rcases mem_mapSet _ _ _ _ hp with hp | hp
    · exact keyEntryOk_push r _ _ p rfl (h2 p hp)
    · subst hp
      simp [keyEntryOk, initKey]
  · intro p hp; exact mouseButtonEntryOk_push r _ _ p rfl (h3 p hp)
  · intro p hp; exact keyComboEntryOk_push r _ _ p rfl (h4 p hp)

/-- Storing a new mouse button control under a button keeps the shape. -/
theorem WF_initMouseButton (r : Registry) (b : ebiten.MouseButton) (h : r.WF) :
    (initMouseButton r b).WF := by
  have hfresh := WF_fresh_not_mem r h
  obtain ⟨h1, h2, h3, h4, h5, h6⟩ := h
  have hM := (List.nodup_append.mp (List.nodup_append.mp h1).1).2.1
  have hnotM : r.heap.length ∉ r.mouseButtonControls.map Prod.snd := by
    intro hm; exact hfresh (by simp [Registry.builtinRefs, Registry.mouseButtonRefs, hm])
  obtain ⟨hs1, hs2⟩ := mapSet_snd_nodup r.mouseButtonControls b r.heap.length hM hnotM
  refine ⟨?_, ?_, ?_, ?_, h5, h6⟩
  · exact nodup_replace_second r.keyRefs r.mouseButtonRefs r.keyComboRefs _ r.heap.length h1
      hfresh hs1 hs2
  · intro p hp; exact keyEntryOk_push r _ _ p rfl (h2 p hp)
  · intro p hp
    rcases mem_mapSet _ _ _ _ hp with hp | hp
    · exact mouseButtonEntryOk_push r _ _ p rfl (h3 p hp)
    · subst hp
      simp [mouseButtonEntryOk, initMouseButton]
  · intro p hp; exact keyComboEntryOk_push r _ _ p rfl (h4 p hp)

theorem WF_Key (r : Registry) (k : ebiten.Key) (h : r.WF) : (Key r k).1.WF := by
  rw [Key_fst_eq]
  split
  · exact WF_initKey r k h
  · exact h

theorem WF_MouseButton (r : Registry) (b : ebiten.MouseButton) (h : r.WF) :
    (MouseButton r b).1.WF := by
  rw [MouseButton_fst_eq]
  split
  · exact WF_initMouseButton r b h
  · exact h

theorem WF_KeyCombo (E : Backend) (r : Registry) (keys : List ebiten.Key) (h : r.WF) :
    (KeyCombo E r keys).1.WF := by
  unfold KeyCombo
  simp only
  split
  · have hfresh := WF_fresh_not_mem r h
    obtain ⟨h1, h2, h3, h4, h5, h6⟩ := h
    have hC := (List.nodup_append.mp h1).2.1
    have hnotC : r.heap.length ∉ r.keyComboControls.map Prod.snd := by
      intro hm; exact hfresh (by simp [Registry.builtinRefs, Registry.keyComboRefs, hm])
    obtain ⟨hs1, hs2⟩ := mapSet_snd_nodup r.keyComboControls (makeKeyComboName E keys)
      r.heap.length hC hnotC
    refine ⟨?_, ?_, ?_, ?_, h5, h6⟩
    · exact nodup_replace_third r.keyRefs r.mouseButtonRefs r.keyComboRefs _ r.heap.length h1
        hfresh hs1 hs2
    · intro p hp; exact keyEntryOk_push r _ _ p rfl (h2 p hp)
    · intro p hp; exact mouseButtonEntryOk_push r _ _ p rfl (h3 p hp)
    · intro p hp
      rcases mem_mapSet _ _ _ _ hp with hp | hp
      · exact keyComboEntryOk_push r _ _ p rfl (h4 p hp)
      · subst hp
        simp [keyComboEntryOk]
  · exact h

theorem WF_foldl_initKey (l : List ebiten.Key) (r : Registry) (h : r.WF) :
    (l.foldl initKey r).WF := by
  induction l generalizing r with
  | nil => exact h
  | cons k l ih => exact ih _ (WF_initKey r k h)

theorem WF_foldl_initMouseButton (l : List ebiten.MouseButton) (r : Registry) (h : r.WF) :
    (l.foldl initMouseButton r).WF := by
  induction l generalizing r with
  | nil => exact h
  | cons k l ih => exact ih _ (WF_initMouseButton r k h)

/-- The package state has the shape after `init`. -/
theorem WF_init (E : Backend) : (init E).WF := by
  unfold init
  apply WF_foldl_initMouseButton
  apply WF_foldl_initKey
  decide

theorem mapSet_self_nodup (m : List (Control × Control)) (c : Control)
    (heq : ∀ p ∈ m, p.1 = p.2) (hnd : (m.map Prod.snd).Nodup) :
    ((mapSet m c c).map Prod.snd).Nodup ∧
      ∀ x ∈ (mapSet m c c).map Prod.snd, x = c ∨ x ∈ m.map Prod.snd := by
  induction m with
  | nil => simp [mapSet]
  | cons p m ih =>
    obtain ⟨k1, v1⟩ := p
    have hkv : k1 = v1 := heq (k1, v1) (by simp)
    subst hkv
    simp only [List.map_cons, List.nodup_cons] at hnd
    obtain ⟨ih1, ih2⟩ := ih (fun p hp => heq p (by simp [hp])) hnd.2
    by_cases h1 : k1 = c
    · subst h1
      simp only [mapSet, if_true, List.map_cons, List.nodup_cons, List.mem_cons]
      exact ⟨hnd, fun x hx => hx.elim Or.inl (fun h => Or.inr (Or.inr h))⟩
    · simp only [mapSet, h1, if_false, List.map_cons, List.nodup_cons, List.mem_cons]
      refine ⟨⟨?_, ih1⟩, ?_⟩
      · intro hmem
        rcases ih2 k1 hmem with h | h
        · exact h1 h
        · exact hnd.1 h
      · intro x hx
        rcases hx with hx | hx
        · exact Or.inr (Or.inl hx)
        · rcases ih2 x hx with h | h
          · exact Or.inl h
          · exact Or.inr (Or.inr h)

theorem mapDelete_sublist {κ α : Type} [DecidableEq κ] (m : List (κ × α)) (k : κ) :
    List.Sublist (mapDelete m k) m := by
  induction m with
  | nil => exact List.Sublist.slnil
  | cons p m ih =>
    obtain ⟨k1, v1⟩ := p
    by_cases h1 : k1 = k
    · simp only [mapDelete, h1, if_true]
      exact List.Sublist.cons _ ih
    · simp only [mapDelete, h1, if_false]
      exact List.Sublist.cons₂ _ ih

/-- A caller making an object of its own keeps the shape. -/
theorem WF_newCustomControl (r : Registry) (uc : customControl) (h : r.WF) :
    (newCustomControl r uc).1.WF := by
  obtain ⟨h1, h2, h3, h4, h5, h6⟩ := h
  refine ⟨h1, ?_, ?_, ?_, h5, h6⟩
  · intro p hp; exact keyEntryOk_push r _ _ p rfl (h2 p hp)
  · intro p hp; exact mouseButtonEntryOk_push r _ _ p rfl (h3 p hp)
  · intro p hp; exact keyComboEntryOk_push r _ _ p rfl (h4 p hp)

theorem entryOk_same_heap (r s : Registry) (hh : s.heap = r.heap) :
    (∀ p, keyEntryOk s p = keyEntryOk r p) ∧
    (∀ p, mouseButtonEntryOk s p = mouseButtonEntryOk r p) ∧
    (∀ p, keyComboEntryOk s p = keyComboEntryOk r p) := by
  refine ⟨?_, ?_, ?_⟩ <;> intro p
  · simp only [keyEntryOk, hh]
  · simp only [mouseButtonEntryOk, hh]
  · simp only [keyComboEntryOk, hh]

/-- Registering a control keeps the shape. -/
theorem WF_RegisterCustomControl (r : Registry) (c : Control) (h : r.WF) :
    (RegisterCustomControl r c).1.WF := by
  obtain ⟨h1, h2, h3, h4, h5, h6⟩ := h
  obtain ⟨e1, e2, e3⟩ := entryOk_same_heap r (RegisterCustomControl r c).1 rfl
  refine ⟨h1, ?_, ?_, ?_, ?_, ?_⟩
  · intro p hp; rw [e1]; exact h2 p hp
  · intro p hp; rw [e2]; exact h3 p hp
  · intro p hp; rw [e3]; exact h4 p hp
  · exact (mapSet_self_nodup r.userControls c h6 h5).1
  · intro p hp
    rcases mem_mapSet _ _ _ _ hp with hp | hp
    · exact h6 p hp
    · subst hp; rfl

/-- Calling the closure that `RegisterCustomControl` returned keeps the shape. -/
theorem WF_unregister (r s : Registry) (c : Control) (h : s.WF) :
    ((RegisterCustomControl r c).2 s).WF := by
  obtain ⟨h1, h2, h3, h4, h5, h6⟩ := h
  obtain ⟨e1, e2, e3⟩ := entryOk_same_heap s ((RegisterCustomControl r c).2 s) rfl
  refine ⟨h1, ?_, ?_, ?_, ?_, ?_⟩
  · intro p hp; rw [e1]; exact h2 p hp
  · intro p hp; rw [e2]; exact h3 p hp
  · intro p hp; rw [e3]; exact h4 p hp
  · exact List.Nodup.sublist ((mapDelete_sublist s.userControls c).map Prod.snd) h5
  · intro p hp
    exact h6 p ((mapDelete_sublist s.userControls c).subset hp)

theorem WF_Request_run (E : Backend) (r : Registry) (q : Request) (h : r.WF) :
    (q.run E r).WF := by
  cases q with
  | key k => exact WF_Key r k h
  | mouseButton b => exact WF_MouseButton r b h
  | keyCombo ks => exact WF_KeyCombo E r ks h

theorem WF_Op_run (E : Backend) (r : Registry) (op : Op) (h : r.WF) : (op.run E r).WF := by
  cases op with
  | request q => exact WF_Request_run E r q h
  | update f => exact WF_Update f r h
  | newCustom uc => exact WF_newCustomControl r uc h
  | register c => exact WF_RegisterCustomControl r c h
  | unregister c => exact WF_unregister r r c h

theorem WF_foldl_ops (E : Backend) (ops : List Op) (r : Registry) (h : r.WF) :
    (ops.foldl (fun s op => op.run E s) r).WF := by
  induction ops generalizing r with
  | nil => exact h
  | cons op ops ih => exact ih _ (WF_Op_run E r op h)

/-- The package state has the shape after `init` and any series of accessor
calls, frames, registrations and unregistrations. -/
theorem WF_runOps (E : Backend) (ops : List Op) : (runOps E ops).WF :=
  WF_foldl_ops E ops (init E) (WF_init E)

/-! ## Combination names -/

theorem intercalate_go_data (acc : String) (l : List String) :
    (String.intercalate.go acc "+" l).data = acc.data ++ plusTail l := by
  induction l generalizing acc with
  | nil => simp [String.intercalate.go, plusTail]
  | cons a rest ih =>
    rw [String.intercalate.go, ih]
    simp [plusTail, String.data_append]

/-- The characters of a combination name of at least one key. -/
theorem makeKeyComboName_data (E : Backend) (k : ebiten.Key) (ks : List ebiten.Key) :
    (makeKeyComboName E (k :: ks)).data = (E.keyString k).data ++ plusTail (ks.map E.keyString) := by
  simp [makeKeyComboName, String.intercalate, intercalate_go_data]

theorem plusTail_head (l : List String) : plusTail l = [] ∨ ∃ t, plusTail l = '+' :: t := by
  cases l with
  | nil => exact Or.inl rfl
  | cons a rest => exact Or.inr ⟨_, rfl⟩

/-- Two texts without a plus sign, each followed by nothing or by a plus sign and
more, are equal as wholes only if the parts are equal. -/
theorem split_at_plus (x y X Y : List Char) (hx : '+' ∉ x) (hy : '+' ∉ y)
    (hX : X = [] ∨ ∃ t, X = '+' :: t) (hY : Y = [] ∨ ∃ t, Y = '+' :: t)
    (h : x ++ X = y ++ Y) : x = y ∧ X = Y := by
  induction x generalizing y with
  | nil =>
    cases y with
    | nil => exact ⟨rfl, by simpa using h⟩
    | cons b y =>
      exfalso
      simp only [List.nil_append, List.cons_append] at h
      rcases hX with hX | ⟨t, hX⟩
      · rw [hX] at h; simp at h
      · rw [hX] at h
        have hb : '+' = b := (List.cons.inj h).1
        exact hy (by rw [← hb]; simp)
  | cons a x ih =>
    cases y with
    | nil =>
      exfalso
      simp only [List.nil_append, List.cons_append] at h
      rcases hY with hY | ⟨t, hY⟩
      · rw [hY] at h; simp at h
      · rw [hY] at h
        have ha : a = '+' := (List.cons.inj h).1
        exact hx (by rw [ha]; simp)
    | cons b y =>
      simp only [List.cons_append] at h
      obtain ⟨hab, hrest⟩ := List.cons.inj h
      have hx1 : '+' ∉ x := fun hm => hx (by simp [hm])
      have hy1 : '+' ∉ y := fun hm => hy (by simp [hm])
      obtain ⟨h1, h2⟩ := ih y hx1 hy1 hrest
      exact ⟨by rw [hab, h1], h2⟩

theorem plusTail_injective (l1 l2 : List String) (h1 : ∀ a ∈ l1, '+' ∉ a.data)
    (h2 : ∀ a ∈ l2, '+' ∉ a.data) (h : plusTail l1 = plusTail l2) : l1 = l2 := by
  induction l1 generalizing l2 with
  | nil =>
    cases l2 with
    | nil => rfl
    | cons b t => simp [plusTail] at h
  | cons a t ih =>
    cases l2 with
    | nil => simp [plusTail] at h
    | cons b t2 =>
      simp only [plusTail, List.cons.injEq, true_and] at h
      obtain ⟨hab, ht⟩ := split_at_plus a.data b.data (plusTail t) (plusTail t2)
        (h1 a (by simp)) (h2 b (by simp)) (plusTail_head t) (plusTail_head t2) h
      have hab1 : a = b := String.ext hab
      rw [hab1, ih t2 (fun x hx => h1 x (by simp [hx])) (fun x hx => h2 x (by simp [hx])) ht]

theorem map_eq_of_injOn (g : ebiten.Key → String) (s1 s2 : List ebiten.Key)
    (hinj : ∀ a ∈ s1, ∀ b ∈ s2, g a = g b → a = b) (h : s1.map g = s2.map g) : s1 = s2 := by
  induction s1 generalizing s2 with
  | nil =>
    cases s2 with
    | nil => rfl
    | cons b t => simp at h
  | cons a t ih =>
    cases s2 with
    | nil => simp at h
    | cons b t2 =>
      simp only [List.map_cons, List.cons.injEq] at h
      have hab := hinj a (by simp) b (by simp) h.1
      rw [hab, ih t2 (fun x hx y hy => hinj x (by simp [hx]) y (by simp [hy])) h.2]

/-- Names of non-empty key sequences determine the sequence when the string
forms of the keys involved are distinct and free of plus signs. -/
theorem makeKeyComboName_injective (E : Backend) (s1 s2 : List ebiten.Key)
    (hne1 : s1 ≠ []) (hne2 : s2 ≠ [])
    (hinj : ∀ a ∈ s1, ∀ b ∈ s2, E.keyString a = E.keyString b → a = b)
    (hp1 : ∀ a ∈ s1, '+' ∉ (E.keyString a).data) (hp2 : ∀ a ∈ s2, '+' ∉ (E.keyString a).data)
    (h : makeKeyComboName E s1 = makeKeyComboName E s2) : s1 = s2 := by
  cases s1 with
  | nil => exact absurd rfl hne1
  | cons a t1 =>
    cases s2 with
    | nil => exact absurd rfl hne2
    | cons b t2 =>
      have hd := congrArg String.data h
      rw [makeKeyComboName_data, makeKeyComboName_data] at hd
      obtain ⟨hab, ht⟩ := split_at_plus _ _ _ _ (hp1 a (by simp)) (hp2 b (by simp))
        (plusTail_head _) (plusTail_head _) hd
      have hmap : (a :: t1).map E.keyString = (b :: t2).map E.keyString := by
        simp only [List.map_cons]
        rw [String.ext hab]
        congr 1
        apply plusTail_injective _ _ _ _ ht
        · intro x hx
          obtain ⟨k, hk, rfl⟩ := List.mem_map.mp hx
          exact hp1 k (by simp [hk])
        · intro x hx
          obtain ⟨k, hk, rfl⟩ := List.mem_map.mp hx
          exact hp2 k (by simp [hk])
      exact map_eq_of_injOn E.keyString _ _ hinj hmap

/-- Two entries of `keyComboControls` under different names hold different
references. -/
theorem combo_refs_distinct (r : Registry) (hwf : r.WF) (n1 n2 : keyComboName) (c1 c2 : Control)
    (h1 : mapGet r.keyComboControls n1 = some c1) (h2 : mapGet r.keyComboControls n2 = some c2)
    (hn : n1 ≠ n2) : c1 ≠ c2 := by
  intro hc
  have hnd : (r.keyComboControls.map Prod.snd).Nodup := (WF_nodup_parts r hwf).2.2
  have := List.inj_on_of_nodup_map hnd (mapGet_mem _ _ _ h1) (mapGet_mem _ _ _ h2) hc
  exact hn (congrArg Prod.fst this)

theorem updateAt_State_other (f : Frame) (r : Registry) (c b : Control) (hcb : c ≠ b) :
    (r.updateAt f c).State b = r.State b := by
  simp only [Registry.State, updateAt_heap_other f r c b hcb]

theorem KeyCombo_keeps_other (E : Backend) (r : Registry) (keys : List ebiten.Key)
    (n : keyComboName) (hn : makeKeyComboName E keys ≠ n) :
    mapGet (KeyCombo E r keys).1.keyComboControls n = mapGet r.keyComboControls n := by
  unfold KeyCombo
  simp only
  split
  · simp [mapGet_mapSet, hn]
  · rfl

/-- C11: the name of a combination is a function of its key sequence, and for
non-empty sequences over keys whose string forms are distinct for distinct keys
and hold no plus sign two names are equal exactly when the sequences are equal
as ordered sequences; for two such distinct keys A and B the sequences (A, B)
and (B, A) have different names, `KeyCombo` gives them two different controls,
and in every well-formed registry that holds both, an update of one leaves the
state of the other as it was. -/
theorem keyCombo_identity (E : Backend) :
    (∀ s1 s2 : List ebiten.Key, s1 ≠ [] → s2 ≠ [] →
      (∀ a ∈ s1, ∀ b ∈ s2, E.keyString a = E.keyString b → a = b) →
      (∀ a ∈ s1, '+' ∉ (E.keyString a).data) → (∀ a ∈ s2, '+' ∉ (E.keyString a).data) →
      (makeKeyComboName E s1 = makeKeyComboName E s2 ↔ s1 = s2)) ∧
    (∀ A B : ebiten.Key, A ≠ B → E.keyString A ≠ E.keyString B →
      '+' ∉ (E.keyString A).data → '+' ∉ (E.keyString B).data →
      makeKeyComboName E [A, B] ≠ makeKeyComboName E [B, A] ∧
      (∀ r : Registry, r.WF →
        ∃ c1 c2, (KeyCombo E r [A, B]).2 = some c1 ∧
          (KeyCombo E (KeyCombo E r [A, B]).1 [B, A]).2 = some c2 ∧ c1 ≠ c2) ∧
      (∀ (r : Registry) (f : Frame) (c1 c2 : Control), r.WF →
        mapGet r.keyComboControls (makeKeyComboName E [A, B]) = some c1 →
        mapGet r.keyComboControls (makeKeyComboName E [B, A]) = some c2 →
        c1 ≠ c2 ∧ (r.updateAt f c1).State c2 = r.State c2 ∧
          (r.updateAt f c2).State c1 = r.State c1)) := by
  constructor
  · intro s1 s2 hne1 hne2 hinj hp1 hp2
    constructor
    · exact makeKeyComboName_injective E s1 s2 hne1 hne2 hinj hp1 hp2
    · intro h; rw [h]
  · intro A B hAB hstr hpA hpB
    have hname : makeKeyComboName E [A, B] ≠ makeKeyComboName E [B, A] := by
      intro h
      have hl := makeKeyComboName_injective E [A, B] [B, A] (by simp) (by simp)
        (by
          intro a ha b hb hab
          simp only [List.mem_cons, List.mem_singleton, List.not_mem_nil, or_false] at ha hb
          rcases ha with rfl | rfl <;> rcases hb with rfl | rfl
          · exact absurd hab hstr
          · rfl
          · rfl
          · exact absurd hab.symm hstr)
        (by
          intro a ha
          simp only [List.mem_cons, List.mem_singleton, List.not_mem_nil, or_false] at ha
          rcases ha with rfl | rfl
          · exact hpA
          · exact hpB)
        (by
          intro a ha
          simp only [List.mem_cons, List.mem_singleton, List.not_mem_nil, or_false] at ha
          rcases ha with rfl | rfl
          · exact hpB
          · exact hpA)
        h
      exact hAB (List.cons.inj hl).1
    have hgen : ∀ (r : Registry) (f : Frame) (c1 c2 : Control), r.WF →
        mapGet r.keyComboControls (makeKeyComboName E [A, B]) = some c1 →
        mapGet r.keyComboControls (makeKeyComboName E [B, A]) = some c2 →
        c1 ≠ c2 ∧ (r.updateAt f c1).State c2 = r.State c2 ∧
          (r.updateAt f c2).State c1 = r.State c1 := by
      intro r f c1 c2 hwf h1 h2
      have hc := combo_refs_distinct r hwf _ _ c1 c2 h1 h2 hname
      exact ⟨hc, updateAt_State_other f r c1 c2 hc, updateAt_State_other f r c2 c1 (Ne.symm hc)⟩
    refine ⟨hname, ?_, hgen⟩
    intro r hwf
    obtain ⟨c1, hc1, hm1⟩ := KeyCombo_snd_mem E r [A, B]
    obtain ⟨c2, hc2, hm2⟩ := KeyCombo_snd_mem E (KeyCombo E r [A, B]).1 [B, A]
    refine ⟨c1, c2, hc1, hc2, ?_⟩
    have hwf2 := WF_KeyCombo E _ [B, A] (WF_KeyCombo E r [A, B] hwf)
    have g2 : mapGet (KeyCombo E (KeyCombo E r [A, B]).1 [B, A]).1.keyComboControls
        (makeKeyComboName E [B, A]) = some c2 := hc2
    have g1 : mapGet (KeyCombo E (KeyCombo E r [A, B]).1 [B, A]).1.keyComboControls
        (makeKeyComboName E [A, B]) = some c1 := by
      rw [KeyCombo_keeps_other E _ [B, A] _ (Ne.symm hname)]
      exact hc1
    exact combo_refs_distinct _ hwf2 _ _ c1 c2 g1 g2 hname

/-- Instance of C11 for the sample backend and its keys 0 and 1, whose string
forms are A and B. -/
theorem keyCombo_identity_witness :
    (makeKeyComboName sampleBackend [0, 1] = makeKeyComboName sampleBackend [1, 0] ↔
      [(0 : ebiten.Key), 1] = [1, 0]) ∧
    makeKeyComboName sampleBackend [0, 1] ≠ makeKeyComboName sampleBackend [1, 0] ∧
    (∃ c1 c2, (KeyCombo sampleBackend (init sampleBackend) [0, 1]).2 = some c1 ∧
      (KeyCombo sampleBackend (KeyCombo sampleBackend (init sampleBackend) [0, 1]).1
        [1, 0]).2 = some c2 ∧ c1 ≠ c2) :=
  ⟨(keyCombo_identity sampleBackend).1 [0, 1] [1, 0] (by decide) (by decide) (by decide)
      (by decide) (by decide),
    ((keyCombo_identity sampleBackend).2 0 1 (by decide) (by decide) (by decide)
      (by decide)).1,
    ((keyCombo_identity sampleBackend).2 0 1 (by decide) (by decide) (by decide)
      (by decide)).2.1 (init sampleBackend) (by decide)⟩

/-! ## The query functions -/

/-- C12: for a control whose `State()` returns `s`, `Active` answers whether `s`
is JustActivated or StillActivated, `Deactivated` whether it is JustDeactivated
or StillDeactivated, and each of the four single-state functions whether `s` is
the state of its name; when `s` is one of the four named states exactly one of
the four single-state functions answers true and `Active` is the negation of
`Deactivated`. -/
theorem query_functions (r : Registry) (c : Control) (s : State) (hs : r.State c = some s) :
    Active r c = some (decide (s = JustActivatedState ∨ s = StillActivatedState)) ∧
    Deactivated r c = some (decide (s = JustDeactivatedState ∨ s = StillDeactivatedState)) ∧
    JustActivated r c = some (decide (s = JustActivatedState)) ∧
    StillActivated r c = some (decide (s = StillActivatedState)) ∧
    JustDeactivated r c = some (decide (s = JustDeactivatedState)) ∧
    StillDeactivated r c = some (decide (s = StillDeactivatedState)) ∧
    (IsNamedState s →
      (∃ ja sa jd sd, JustActivated r c = some ja ∧ StillActivated r c = some sa ∧
        JustDeactivated r c = some jd ∧ StillDeactivated r c = some sd ∧
        [ja, sa, jd, sd].count true = 1) ∧
      Active r c = (Deactivated r c).map (fun d => !d)) := by
  have h1 : JustActivated r c = some (decide (s = JustActivatedState)) := by
    simp only [JustActivated, hs, Option.map_some']
    rfl
  have h2 : StillActivated r c = some (decide (s = StillActivatedState)) := by
    simp only [StillActivated, hs, Option.map_some']
    rfl
  have h3 : JustDeactivated r c = some (decide (s = JustDeactivatedState)) := by
    simp only [JustDeactivated, hs, Option.map_some']
    rfl
  have h4 : StillDeactivated r c = some (decide (s = StillDeactivatedState)) := by
    simp only [StillDeactivated, hs, Option.map_some']
    rfl
  have h5 : Active r c = some (decide (s = JustActivatedState ∨ s = StillActivatedState)) := by
    unfold Active
    rw [h1, h2]
    by_cases h : s = JustActivatedState <;> simp [h]
  have h6 : Deactivated r c =
      some (decide (s = JustDeactivatedState ∨ s = StillDeactivatedState)) := by
    unfold Deactivated
    rw [h3, h4]
    by_cases h : s = JustDeactivatedState <;> simp [h]
  refine ⟨h5, h6, h1, h2, h3, h4, ?_⟩
  intro hn
  refine ⟨⟨_, _, _, _, h1, h2, h3, h4, ?_⟩, ?_⟩
  · rcases hn with rfl | rfl | rfl | rfl <;> decide
  · rw [h5, h6]
    rcases hn with rfl | rfl | rfl | rfl <;> decide

/-- Instance of C12: key 1 of the sample backend after one frame with everything
pressed, where its control (address 1) is JustActivated. -/
theorem query_functions_witness :
    Active (Update pressAll (init sampleBackend)) 1 = some true ∧
    Deactivated (Update pressAll (init sampleBackend)) 1 = some false ∧
    JustActivated (Update pressAll (init sampleBackend)) 1 = some true ∧
    StillActivated (Update pressAll (init sampleBackend)) 1 = some false :=
  ⟨(query_functions (Update pressAll (init sampleBackend)) 1 JustActivatedState (by decide)).1,
   (query_functions (Update pressAll (init sampleBackend)) 1 JustActivatedState
      (by decide)).2.1,
   (query_functions (Update pressAll (init sampleBackend)) 1 JustActivatedState
      (by decide)).2.2.1,
   (query_functions (Update pressAll (init sampleBackend)) 1 JustActivatedState
      (by decide)).2.2.2.1⟩

/-! ## The closure returned by `RegisterCustomControl` -/

theorem mem_mapDelete {κ α : Type} [DecidableEq κ] (m : List (κ × α)) (k : κ) (p : κ × α) :
    p ∈ mapDelete m k ↔ p ∈ m ∧ p.1 ≠ k := by
  induction m with
  | nil => simp [mapDelete]
  | cons q m ih =>
    obtain ⟨k1, v1⟩ := q
    by_cases h1 : k1 = k
    · simp only [mapDelete, h1, if_true, ih, List.mem_cons]
      constructor
      · rintro ⟨hp, hne⟩; exact ⟨Or.inr hp, hne⟩
      · rintro ⟨hp | hp, hne⟩
        · exact absurd (by rw [hp]) hne
        · exact ⟨hp, hne⟩
    · simp only [mapDelete, h1, if_false, List.mem_cons, ih]
      constructor
      · rintro (hp | ⟨hp, hne⟩)
        · exact ⟨Or.inl hp, by rw [hp]; exact h1⟩
        · exact ⟨Or.inr hp, hne⟩
      · rintro ⟨hp | hp, hne⟩
        · exact Or.inl hp
        · exact Or.inr ⟨hp, hne⟩

theorem mapDelete_of_absent {κ α : Type} [DecidableEq κ] (m : List (κ × α)) (k : κ)
    (h : ∀ p ∈ m, p.1 ≠ k) : mapDelete m k = m := by
  induction m with
  | nil => rfl
  | cons q m ih =>
    obtain ⟨k1, v1⟩ := q
    have h1 : k1 ≠ k := h (k1, v1) (by simp)
    simp only [mapDelete, h1, if_false]
    rw [ih (fun p hp => h p (by simp [hp]))]

theorem mapDelete_idem {κ α : Type} [DecidableEq κ] (m : List (κ × α)) (k : κ) :
    mapDelete (mapDelete m k) k = mapDelete m k :=
  mapDelete_of_absent _ k (fun p hp => ((mem_mapDelete m k p).mp hp).2)

/-- C14: the closure that `RegisterCustomControl(c)` returns can be called in
every package state; calling it twice gives the state that one call gives,
calling it when `userControls` has no entry for `c` changes nothing, and in
every case it keeps exactly the entries of `userControls` whose key is not `c`
and leaves the heap and the maps of keys, mouse buttons and combinations as
they were. -/
theorem unregister_idempotent (r0 s : Registry) (c : Control) :
    (RegisterCustomControl r0 c).2 ((RegisterCustomControl r0 c).2 s) =
      (RegisterCustomControl r0 c).2 s ∧
    ((∀ p ∈ s.userControls, p.1 ≠ c) → (RegisterCustomControl r0 c).2 s = s) ∧
    (∀ p, p ∈ ((RegisterCustomControl r0 c).2 s).userControls ↔
      (p ∈ s.userControls ∧ p.1 ≠ c)) ∧
    ((RegisterCustomControl r0 c).2 s).keyControls = s.keyControls ∧
    ((RegisterCustomControl r0 c).2 s).mouseButtonControls = s.mouseButtonControls ∧
    ((RegisterCustomControl r0 c).2 s).keyComboControls = s.keyComboControls ∧
    ((RegisterCustomControl r0 c).2 s).heap = s.heap := by
  refine ⟨?_, ?_, ?_, rfl, rfl, rfl, rfl⟩
  · simp only [RegisterCustomControl, mapDelete_idem]
  · intro h
    simp only [RegisterCustomControl, mapDelete_of_absent s.userControls c h]
  · intro p
    exact mem_mapDelete s.userControls c p

/-- Instance of C14: after `init` of the sample backend nothing is registered, and
the closure for the reference 4 leaves the package state as it is. -/
theorem unregister_idempotent_witness :
    (RegisterCustomControl (init sampleBackend) 4).2 (init sampleBackend) =
      init sampleBackend :=
  (unregister_idempotent (init sampleBackend) (init sampleBackend) 4).2.1 (by decide)

/-! ## One switch in three functions -/

/-- C16: for every boolean `p` and every previous state, named or not, the key
function with a backend that answers `p`, the mouse button function with a
backend that answers `p` and the combination function on a key list whose loop
ends with flag `p` return the same state, the one the shared switch gives. -/
theorem three_updates_agree (g : ebiten.Key → Bool) (k : ebiten.Key)
    (h : ebiten.MouseButton → Bool) (b : ebiten.MouseButton) (r : Registry)
    (keys : List ebiten.Key) (p : Bool) (s : State)
    (hg : g k = p) (hh : h b = p) (hl : allPressedLoop r keys = p) :
    updateKeyState g k s = transition p s ∧
    updateMouseButtonState h b s = transition p s ∧
    updateKeyComboState r keys s = transition p s ∧
    updateKeyState g k s = updateMouseButtonState h b s ∧
    updateMouseButtonState h b s = updateKeyComboState r keys s := by
  subst hg
  have e1 := updateKeyState_eq_transition g k s
  have e2 := updateMouseButtonState_eq_transition h b s
  have e3 := updateKeyComboState_eq_transition r keys s
  rw [hh] at e2
  rw [hl] at e3
  exact ⟨e1, e2, e3, e1.trans e2.symm, e2.trans e3.symm⟩

/-- Instance of C16 for the value 7, which is none of the four named states; the
list of no keys ends the loop with flag true. -/
theorem three_updates_agree_witness :
    updateKeyState (fun _ => true) 0 7 = transition true 7 ∧
    updateMouseButtonState (fun _ => true) 0 7 = transition true 7 ∧
    updateKeyComboState (init sampleBackend) [] 7 = transition true 7 ∧
    updateKeyState (fun _ => true) 0 7 = updateMouseButtonState (fun _ => true) 0 7 ∧
    updateMouseButtonState (fun _ => true) 0 7 =
      updateKeyComboState (init sampleBackend) [] 7 :=
  three_updates_agree (fun _ => true) 0 (fun _ => true) 0 (init sampleBackend) [] true 7
    rfl rfl rfl

/-! ## A combination only reads the key controls -/

/-- C17: the `Update` method of a combination writes its own state and nothing
else: the result is the combination with the same keys and the state that
`updateKeyComboState` returns, every other object of the heap is as before, the
four maps are as before, and so every key, with or without an entry in
`keyControls`, has the key control it had. -/
theorem keyCombo_update_frame (f : Frame) (r : Registry) (c : Control) (kcc : keyComboControl)
    (ho : r.heap[c]? = some (Object.combo kcc)) :
    (r.updateAt f c).heap[c]? = some (Object.combo
      { keys := kcc.keys, state := updateKeyComboState r kcc.keys kcc.state }) ∧
    (∀ b, b ≠ c → (r.updateAt f c).heap[b]? = r.heap[b]?) ∧
    (r.updateAt f c).heap.length = r.heap.length ∧
    (r.updateAt f c).keyControls = r.keyControls ∧
    (r.updateAt f c).mouseButtonControls = r.mouseButtonControls ∧
    (r.updateAt f c).keyComboControls = r.keyComboControls ∧
    (r.updateAt f c).userControls = r.userControls ∧
    (∀ k, mapGet (r.updateAt f c).keyControls k = mapGet r.keyControls k) ∧
    (∀ k, (r.updateAt f c).keyControlAt k = r.keyControlAt k) := by
  refine ⟨?_, ?_, updateAt_heap_length f r c, updateAt_keyControls f r c,
    updateAt_mouseButtonControls f r c, updateAt_keyComboControls f r c,
    updateAt_userControls f r c, ?_, ?_⟩
  · rw [updateAt_heap_self, ho]; rfl
  · intro b hb
    exact updateAt_heap_other f r c b (Ne.symm hb)
  · intro k; rw [updateAt_keyControls]
  · intro k
    unfold Registry.keyControlAt
    rw [updateAt_keyControls]
    cases hm : mapGet r.keyControls k with
    | none => rfl
    | some a =>
      by_cases hac : c = a
      · subst hac
        simp only [updateAt_heap_self, ho, Option.map_some']
        rfl
      · simp only [updateAt_heap_other f r c a hac]

/-- Instance of C17: the combination of keys 1 and 0 requested after `init` of the
sample backend and stored at address 4. -/
theorem keyCombo_update_frame_witness :
    ((KeyCombo sampleBackend (init sampleBackend) [1, 0]).1.updateAt pressAll 4).keyControlAt
        1 = (KeyCombo sampleBackend (init sampleBackend) [1, 0]).1.keyControlAt 1 :=
  (keyCombo_update_frame pressAll (KeyCombo sampleBackend (init sampleBackend) [1, 0]).1 4
    { keys := [1, 0], state := StillDeactivatedState } rfl).2.2.2.2.2.2.2.2 1

/-! ## The accessors only add -/

theorem mapSet_of_absent {κ α : Type} [DecidableEq κ] (m : List (κ × α)) (k : κ) (v : α)
    (h : mapGet m k = none) : mapSet m k v = m ++ [(k, v)] := by
  induction m with
  | nil => rfl
  | cons q m ih =>
    obtain ⟨k1, v1⟩ := q
    by_cases h1 : k1 = k
    · simp [mapGet, h1] at h
    · simp only [mapGet, h1, if_false] at h
      simp only [mapSet, h1, if_false, ih h, List.cons_append]

theorem Updates_userControls (fs : List Frame) (r : Registry) :
    (Updates fs r).userControls = r.userControls := by
  induction fs generalizing r with
  | nil => rfl
  | cons f fs ih => rw [Updates, List.foldl_cons]; exact (ih _).trans (Update_userControls f r)

/-- What a call of `Key` does to the package state. -/
theorem Key_only_adds (r : Registry) (k : ebiten.Key) :
    (∀ a s, r.State a = some s → (Key r k).1.State a = some s) ∧
    (∀ p ∈ r.keyControls, p ∈ (Key r k).1.keyControls) ∧
    ((Key r k).1 = r ∨
      (mapGet r.keyControls k = none ∧
        (Key r k).1.keyControls = r.keyControls ++ [(k, r.heap.length)] ∧
        (Key r k).1.State r.heap.length = some StillDeactivatedState)) ∧
    (Key r k).1.mouseButtonControls = r.mouseButtonControls ∧
    (Key r k).1.keyComboControls = r.keyComboControls ∧
    (Key r k).1.userControls = r.userControls := by
  rw [Key_fst_eq]
  cases hm : mapGet r.keyControls k with
  | some a => simp
  | none =>
    rw [if_pos Option.isNone_none]
    refine ⟨?_, ?_, Or.inr ⟨rfl, mapSet_of_absent _ k _ hm, State_push_new _ _⟩, rfl, rfl, rfl⟩
    · intro a s hs; exact State_push_old _ _ _ _ hs
    · intro p hp
      show p ∈ mapSet r.keyControls k r.heap.length
      rw [mapSet_of_absent _ k _ hm]; simp [hp]

/-- What a call of `MouseButton` does to the package state. -/
theorem MouseButton_only_adds (r : Registry) (b : ebiten.MouseButton) :
    (∀ a s, r.State a = some s → (MouseButton r b).1.State a = some s) ∧
    (∀ p ∈ r.mouseButtonControls, p ∈ (MouseButton r b).1.mouseButtonControls) ∧
    ((MouseButton r b).1 = r ∨
      (mapGet r.mouseButtonControls b = none ∧
        (MouseButton r b).1.mouseButtonControls =
          r.mouseButtonControls ++ [(b, r.heap.length)] ∧
        (MouseButton r b).1.State r.heap.length = some StillDeactivatedState)) ∧
    (MouseButton r b).1.keyControls = r.keyControls ∧
    (MouseButton r b).1.keyComboControls = r.keyComboControls ∧
    (MouseButton r b).1.userControls = r.userControls := by
  rw [MouseButton_fst_eq]
  cases hm : mapGet r.mouseButtonControls b with
  | some a => simp
  | none =>
    rw [if_pos Option.isNone_none]
    refine ⟨?_, ?_, Or.inr ⟨rfl, mapSet_of_absent _ b _ hm, State_push_new _ _⟩, rfl, rfl, rfl⟩
    · intro a s hs; exact State_push_old _ _ _ _ hs
    · intro p hp
      show p ∈ mapSet r.mouseButtonControls b r.heap.length
      rw [mapSet_of_absent _ b _ hm]; simp [hp]

theorem KeyCombo_fst_eq (E : Backend) (r : Registry) (keys : List ebiten.Key) :
    (KeyCombo E r keys).1 =
      if (mapGet r.keyComboControls (makeKeyComboName E keys)).isNone then
        { r with
          heap := r.heap ++ [Object.combo { keys := keys, state := StillDeactivatedState }],
          keyComboControls :=
            mapSet r.keyComboControls (makeKeyComboName E keys) r.heap.length }
      else r := rfl

/-- What a call of `KeyCombo` does to the package state. -/
theorem KeyCombo_only_adds (E : Backend) (r : Registry) (keys : List ebiten.Key) :
    (∀ a s, r.State a = some s → (KeyCombo E r keys).1.State a = some s) ∧
    (∀ p ∈ r.keyComboControls, p ∈ (KeyCombo E r keys).1.keyComboControls) ∧
    ((KeyCombo E r keys).1 = r ∨
      (mapGet r.keyComboControls (makeKeyComboName E keys) = none ∧
        (KeyCombo E r keys).1.keyComboControls =
          r.keyComboControls ++ [(makeKeyComboName E keys, r.heap.length)] ∧
        (KeyCombo E r keys).1.State r.heap.length = some StillDeactivatedState)) ∧
    (KeyCombo E r keys).1.keyControls = r.keyControls ∧
    (KeyCombo E r keys).1.mouseButtonControls = r.mouseButtonControls ∧
    (KeyCombo E r keys).1.userControls = r.userControls := by
  rw [KeyCombo_fst_eq]
  cases hm : mapGet r.keyComboControls (makeKeyComboName E keys) with
  | some a => simp
  | none =>
    rw [if_pos Option.isNone_none]
    refine ⟨?_, ?_, Or.inr ⟨rfl, mapSet_of_absent _ _ _ hm, State_push_new _ _⟩, rfl, rfl, rfl⟩
    · intro a s hs; exact State_push_old _ _ _ _ hs
    · intro p hp
      show p ∈ mapSet r.keyComboControls (makeKeyComboName E keys) r.heap.length
      rw [mapSet_of_absent _ _ _ hm]; simp [hp]

/-- C19: a call of `Key`, `MouseButton` or `KeyCombo` keeps the state of every
control there is and every entry of its map; it either leaves the package state
as it is or, when the identity had no entry, adds one entry for it, pointing to
a new StillDeactivated control, at the end of its own map; the other three maps
are as before. A call of `Update` leaves the entries of all four maps as they
were. -/
theorem accessors_only_add (E : Backend) (r : Registry) (k : ebiten.Key)
    (b : ebiten.MouseButton) (keys : List ebiten.Key) (f : Frame) :
    ((∀ a s, r.State a = some s → (Key r k).1.State a = some s) ∧
      (∀ p ∈ r.keyControls, p ∈ (Key r k).1.keyControls) ∧
      ((Key r k).1 = r ∨
        (mapGet r.keyControls k = none ∧
          (Key r k).1.keyControls = r.keyControls ++ [(k, r.heap.length)] ∧
          (Key r k).1.State r.heap.length = some StillDeactivatedState)) ∧
      (Key r k).1.mouseButtonControls = r.mouseButtonControls ∧
      (Key r k).1.keyComboControls = r.keyComboControls ∧
      (Key r k).1.userControls = r.userControls) ∧
    ((∀ a s, r.State a = some s → (MouseButton r b).1.State a = some s) ∧
      (∀ p ∈ r.mouseButtonControls, p ∈ (MouseButton r b).1.mouseButtonControls) ∧
      ((MouseButton r b).1 = r ∨
        (mapGet r.mouseButtonControls b = none ∧
          (MouseButton r b).1.mouseButtonControls =
            r.mouseButtonControls ++ [(b, r.heap.length)] ∧
          (MouseButton r b).1.State r.heap.length = some StillDeactivatedState)) ∧
      (MouseButton r b).1.keyControls = r.keyControls ∧
      (MouseButton r b).1.keyComboControls = r.keyComboControls ∧
      (MouseButton r b).1.userControls = r.userControls) ∧
    ((∀ a s, r.State a = some s → (KeyCombo E r keys).1.State a = some s) ∧
      (∀ p ∈ r.keyComboControls, p ∈ (KeyCombo E r keys).1.keyComboControls) ∧
      ((KeyCombo E r keys).1 = r ∨
        (mapGet r.keyComboControls (makeKeyComboName E keys) = none ∧
          (KeyCombo E r keys).1.keyComboControls =
            r.keyComboControls ++ [(makeKeyComboName E keys, r.heap.length)] ∧
          (KeyCombo E r keys).1.State r.heap.length = some StillDeactivatedState)) ∧
      (KeyCombo E r keys).1.keyControls = r.keyControls ∧
      (KeyCombo E r keys).1.mouseButtonControls = r.mouseButtonControls ∧
      (KeyCombo E r keys).1.userControls = r.userControls) ∧
    ((Update f r).keyControls = r.keyControls ∧
      (Update f r).mouseButtonControls = r.mouseButtonControls ∧
      (Update f r).keyComboControls = r.keyComboControls ∧
      (Update f r).userControls = r.userControls) :=
  ⟨Key_only_adds r k, MouseButton_only_adds r b, KeyCombo_only_adds E r keys,
    Update_keyControls f r, Update_mouseButtonControls f r, Update_keyComboControls f r,
    Update_userControls f r⟩

/-- Instance of C19: after one frame with everything pressed key 1 of the sample
backend is JustActivated, and a call of `Key` for key 7, which has no entry,
leaves it so. -/
theorem accessors_only_add_witness :
    (Key (Update pressAll (init sampleBackend)) 7).1.State 1 = some JustActivatedState :=
  (accessors_only_add sampleBackend (Update pressAll (init sampleBackend)) 7 0 []
    pressAll).1.1 1 JustActivatedState (by decide)

/-! ## Only named states are ever held -/

/-- The value that the shared switch returns is the value of the case taken. -/
theorem transition_by_case (p : Bool) (s : State) :
    (firedCase p s = 1 → transition p s = JustActivatedState) ∧
    (firedCase p s = 2 → transition p s = StillActivatedState) ∧
    (firedCase p s = 3 → transition p s = JustDeactivatedState) ∧
    (firedCase p s = 4 → transition p s = StillDeactivatedState) ∧
    (firedCase p s = 0 → transition p s = s) ∧
    firedCase p s ≤ 4 := by
  unfold firedCase transition
  split_ifs <;> simp

/-- The fallback is reached exactly from a state that is not named. -/
theorem firedCase_eq_zero_iff (p : Bool) (s : State) : firedCase p s = 0 ↔ ¬ IsNamedState s := by
  constructor
  · intro h hn
    rcases hn with rfl | rfl | rfl | rfl <;> cases p <;> revert h <;> decide
  · intro hn
    unfold IsNamedState at hn
    simp only [not_or] at hn
    obtain ⟨h0, h1, h2, h3⟩ := hn
    unfold firedCase
    simp [h0, h1, h2, h3]

theorem Object.Named_Update (f : Frame) (r : Registry) (o : Object) (h : o.Named) :
    (o.Update f r).Named := by
  cases o with
  | key kc => exact transition_named _ _ h
  | combo kcc => exact transition_named _ _ h
  | mouse mbc => exact transition_named _ _ h
  | user uc => trivial

theorem AllNamed_updateAt (f : Frame) (r : Registry) (c : Control) (h : AllNamed r) :
    AllNamed (r.updateAt f c) := by
  unfold AllNamed
  intro a o ho
  by_cases hc : c = a
  · subst hc
    rw [updateAt_heap_self] at ho
    cases hx : r.heap[c]? with
    | none => rw [hx] at ho; simp at ho
    | some x =>
      rw [hx] at ho
      simp only [Option.map_some', Option.some.injEq] at ho
      rw [← ho]
      exact Object.Named_Update f r x (h c x hx)
  · rw [updateAt_heap_other f r c a hc] at ho
    exact h a o ho

theorem AllNamed_updateAll (f : Frame) (cs : List Control) (r : Registry) (h : AllNamed r) :
    AllNamed (updateAll f cs r) := by
  induction cs generalizing r with
  | nil => exact h
  | cons c cs ih => exact ih _ (AllNamed_updateAt f r c h)

theorem AllNamed_Update (f : Frame) (r : Registry) (h : AllNamed r) : AllNamed (Update f r) := by
  rw [Update_eq_updateAll]; exact AllNamed_updateAll f _ r h

theorem AllNamed_push (r s : Registry) (o : Object) (hs : s.heap = r.heap ++ [o])
    (ho : o.Named) (h : AllNamed r) : AllNamed s := by
  unfold AllNamed
  intro a x hx
  rw [hs] at hx
  by_cases hlt : a < r.heap.length
  · rw [List.getElem?_append_left hlt] at hx
    exact h a x hx
  · have hge : r.heap.length ≤ a := Nat.le_of_not_lt hlt
    rw [List.getElem?_append_right hge] at hx
    cases hd : a - r.heap.length with
    | zero =>
      rw [hd] at hx
      simp only [List.getElem?_cons_zero, Option.some.injEq] at hx
      rw [← hx]; exact ho
    | succ n => rw [hd] at hx; simp at hx

theorem AllNamed_heap_eq (r s : Registry) (hs : s.heap = r.heap) (h : AllNamed r) :
    AllNamed s := by
  unfold AllNamed
  intro a x hx
  rw [hs] at hx
  exact h a x hx

theorem named_StillDeactivated : IsNamedState StillDeactivatedState := Or.inl rfl

theorem AllNamed_initKey (r : Registry) (k : ebiten.Key) (h : AllNamed r) :
    AllNamed (initKey r k) :=
  AllNamed_push r _ _ rfl named_StillDeactivated h

theorem AllNamed_initMouseButton (r : Registry) (b : ebiten.MouseButton) (h : AllNamed r) :
    AllNamed (initMouseButton r b) :=
  AllNamed_push r _ _ rfl named_StillDeactivated h

theorem AllNamed_init (E : Backend) : AllNamed (init E) := by
  unfold init
  have h0 : AllNamed emptyRegistry := by
    unfold AllNamed
    intro a o ho
    simp [emptyRegistry] at ho
  have hk : ∀ (l : List ebiten.Key) (r : Registry), AllNamed r →
      AllNamed (l.foldl initKey r) := by
    intro l
    induction l with
    | nil => intro r h; exact h
    | cons k l ih => intro r h; exact ih _ (AllNamed_initKey r k h)
  have hb : ∀ (l : List ebiten.MouseButton) (r : Registry), AllNamed r →
      AllNamed (l.foldl initMouseButton r) := by
    intro l
    induction l with
    | nil => intro r h; exact h
    | cons k l ih => intro r h; exact ih _ (AllNamed_initMouseButton r k h)
  exact hb _ _ (hk _ _ h0)

theorem AllNamed_Op_run (E : Backend) (r : Registry) (op : Op) (h : AllNamed r) :
    AllNamed (op.run E r) := by
  cases op with
  | request q =>
    cases q with
    | key k =>
      show AllNamed (Key r k).1
      rw [Key_fst_eq]
      split
      · exact AllNamed_initKey r k h
      · exact h
    | mouseButton b =>
      show AllNamed (MouseButton r b).1
      rw [MouseButton_fst_eq]
      split
      · exact AllNamed_initMouseButton r b h
      · exact h
    | keyCombo ks =>
      show AllNamed (KeyCombo E r ks).1
      rw [KeyCombo_fst_eq]
      split
      · exact AllNamed_push r _ _ rfl named_StillDeactivated h
      · exact h
  | update f => exact AllNamed_Update f r h
  | newCustom uc => exact AllNamed_push r _ (Object.user uc) rfl trivial h
  | register c => exact AllNamed_heap_eq r _ rfl h
  | unregister c => exact AllNamed_heap_eq r _ rfl h

theorem AllNamed_runOps (E : Backend) (ops : List Op) : AllNamed (runOps E ops) := by
  unfold runOps
  have hgen : ∀ (l : List Op) (r : Registry), AllNamed r →
      AllNamed (l.foldl (fun s op => op.run E s) r) := by
    intro l
    induction l with
    | nil => intro r h; exact h
    | cons op l ih => intro r h; exact ih _ (AllNamed_Op_run E r op h)
  exact hgen ops _ (AllNamed_init E)

theorem entry_object_key (r : Registry) (hwf : r.WF) (p : ebiten.Key × Addr)
    (hp : p ∈ r.keyControls) : ∃ kc, r.heap[p.2]? = some (Object.key kc) :=
  mem_keyRefs_object r p.2 hwf (List.mem_map.mpr ⟨p, hp, rfl⟩)

theorem entry_object_mouse (r : Registry) (hwf : r.WF) (p : ebiten.MouseButton × Addr)
    (hp : p ∈ r.mouseButtonControls) : ∃ mbc, r.heap[p.2]? = some (Object.mouse mbc) := by
  have hok := hwf.2.2.1 p hp
  unfold mouseButtonEntryOk at hok
  cases ho : r.heap[p.2]? with
  | none => simp [ho] at hok
  | some o =>
    cases o with
    | mouse mbc => exact ⟨mbc, rfl⟩
    | _ => simp [ho] at hok

theorem entry_object_combo (r : Registry) (hwf : r.WF) (p : keyComboName × Addr)
    (hp : p ∈ r.keyComboControls) : ∃ kcc, r.heap[p.2]? = some (Object.combo kcc) := by
  have hok := hwf.2.2.2.1 p hp
  unfold keyComboEntryOk at hok
  cases ho : r.heap[p.2]? with
  | none => simp [ho] at hok
  | some o =>
    cases o with
    | combo kcc => exact ⟨kcc, rfl⟩
    | _ => simp [ho] at hok

/-- In a well-formed registry whose package-made objects hold named states every
entry of the three maps reports a named state, from which the switch takes one
of its four cases for either boolean. -/
theorem named_entries (r : Registry) (hwf : r.WF) (hn : AllNamed r) :
    (∀ p ∈ r.keyControls, ∃ s, r.State p.2 = some s ∧ IsNamedState s ∧
      ∀ b : Bool, firedCase b s ≠ 0) ∧
    (∀ p ∈ r.mouseButtonControls, ∃ s, r.State p.2 = some s ∧ IsNamedState s ∧
      ∀ b : Bool, firedCase b s ≠ 0) ∧
    (∀ p ∈ r.keyComboControls, ∃ s, r.State p.2 = some s ∧ IsNamedState s ∧
      ∀ b : Bool, firedCase b s ≠ 0) := by
  have hfire : ∀ s, IsNamedState s → ∀ b : Bool, firedCase b s ≠ 0 :=
    fun s hs b h0 => (firedCase_eq_zero_iff b s).mp h0 hs
  refine ⟨?_, ?_, ?_⟩
  · intro p hp
    obtain ⟨kc, ho⟩ := entry_object_key r hwf p hp
    have hnamed : IsNamedState kc.state := hn p.2 _ ho
    exact ⟨kc.state, by simp [Registry.State, ho, Object.State, keyControl.State], hnamed,
      hfire _ hnamed⟩
  · intro p hp
    obtain ⟨mbc, ho⟩ := entry_object_mouse r hwf p hp
    have hnamed : IsNamedState mbc.state := hn p.2 _ ho
    exact ⟨mbc.state, by simp [Registry.State, ho, Object.State, mouseButtonControl.State],
      hnamed, hfire _ hnamed⟩
  · intro p hp
    obtain ⟨kcc, ho⟩ := entry_object_combo r hwf p hp
    have hnamed : IsNamedState kcc.state := hn p.2 _ ho
    exact ⟨kcc.state, by simp [Registry.State, ho, Object.State, keyComboControl.State],
      hnamed, hfire _ hnamed⟩

/-- C15: in every package state reached from `init` by calls of `Key`,
`MouseButton`, `KeyCombo` and `Update` under any backend (and by registering or
unregistering controls as well), every entry of `keyControls`,
`mouseButtonControls` and `keyComboControls` reports one of the four named
states, so that in the next update the shared switch takes one of its four
cases, whatever the boolean, and does not go on to `return prevState`. -/
theorem reachable_states_named (E : Backend) (ops : List Op) :
    (∀ p ∈ (runOps E ops).keyControls, ∃ s, (runOps E ops).State p.2 = some s ∧
      IsNamedState s ∧ ∀ b : Bool, firedCase b s ≠ 0) ∧
    (∀ p ∈ (runOps E ops).mouseButtonControls, ∃ s, (runOps E ops).State p.2 = some s ∧
      IsNamedState s ∧ ∀ b : Bool, firedCase b s ≠ 0) ∧
    (∀ p ∈ (runOps E ops).keyComboControls, ∃ s, (runOps E ops).State p.2 = some s ∧
      IsNamedState s ∧ ∀ b : Bool, firedCase b s ≠ 0) :=
  named_entries (runOps E ops) (WF_runOps E ops) (AllNamed_runOps E ops)

/-- Instance of C15: after `init` of the sample backend, a request for the
combination of keys 1 and 0 and one frame with everything pressed, the entry of
that combination reports a named state. -/
theorem reachable_states_named_witness :
    ∃ s, (runOps sampleBackend
        [Op.request (Request.keyCombo [1, 0]), Op.update pressAll]).State 4 = some s ∧
      IsNamedState s ∧ ∀ b : Bool, firedCase b s ≠ 0 :=
  (reachable_states_named sampleBackend
    [Op.request (Request.keyCombo [1, 0]), Op.update pressAll]).2.2 ("B+A", 4) (by decide)

/-! ## Edges over a run of frames -/

theorem Updates_snoc (fs : List Frame) (f : Frame) (r : Registry) :
    Updates (fs ++ [f]) r = Update f (Updates fs r) := by
  simp [Updates, List.foldl_append]

theorem Tracks_named (ρ : Frame → Bool) (r : Registry) (a : Control) (ht : Tracks ρ r a)
    (s0 : State) (h0 : r.State a = some s0) (hn : IsNamedState s0) (fs : List Frame) :
    ∃ s, (Updates fs r).State a = some s ∧ IsNamedState s := by
  induction fs using List.reverseRecOn with
  | nil => exact ⟨s0, h0, hn⟩
  | append_singleton l f ih =>
    obtain ⟨s, hs, hstep⟩ := ht l f
    obtain ⟨s1, hs1, hn1⟩ := ih
    have : s1 = s := Option.some.inj (hs1.symm.trans hs)
    subst this
    exact ⟨_, hstep, transition_named _ _ hn1⟩

theorem Tracks_last (ρ : Frame → Bool) (r : Registry) (a : Control) (ht : Tracks ρ r a)
    (s0 : State) (h0 : r.State a = some s0) (hn : IsNamedState s0) (pre : List Frame)
    (f : Frame) :
    ∃ s, IsNamedState s ∧ (Updates pre r).State a = some s ∧
      (Updates (pre ++ [f]) r).State a = some (transition (ρ f) s) := by
  obtain ⟨s, hs, hstep⟩ := ht pre f
  obtain ⟨s1, hs1, hn1⟩ := Tracks_named ρ r a ht s0 h0 hn pre
  have : s1 = s := Option.some.inj (hs1.symm.trans hs)
  subst this
  exact ⟨s1, hn1, hs, hstep⟩

theorem transition_ne_JustActivated_of (p : Bool) :
    transition p JustActivatedState ≠ JustActivatedState ∧
    transition p JustDeactivatedState ≠ JustDeactivatedState := by
  cases p <;> decide

theorem transition_first (p : Bool) :
    (transition p StillDeactivatedState = JustActivatedState ↔ p = true) ∧
    transition p StillDeactivatedState ≠ JustDeactivatedState := by
  cases p <;> decide

theorem transition_twice_iff (p1 p2 : Bool) (s : State) (hs : IsNamedState s) :
    (transition p2 (transition p1 s) = JustActivatedState ↔ (p2 = true ∧ p1 = false)) ∧
    (transition p2 (transition p1 s) = JustDeactivatedState ↔ (p2 = false ∧ p1 = true)) := by
  rcases hs with rfl | rfl | rfl | rfl <;> cases p1 <;> cases p2 <;> decide

/-- A control that follows a reading and starts StillDeactivated detects the
edges of the reading. -/
theorem Tracks_edges (ρ : Frame → Bool) (r : Registry) (a : Control) (ht : Tracks ρ r a)
    (h0 : r.State a = some StillDeactivatedState) (fs : List Frame) :
    EdgeDetected ρ r a fs := by
  have hn0 := named_StillDeactivated
  intro i f hf
  have hlt : i < fs.length := (List.getElem?_eq_some_iff.mp hf).1
  have htake : fs.take (i + 1) = fs.take i ++ [f] := by
    rw [List.take_succ, hf]; rfl
  obtain ⟨s, hsn, hs, hstep⟩ := Tracks_last ρ r a ht _ h0 hn0 (fs.take i) f
  rw [← htake] at hstep
  have hact : (∃ t, (Updates (fs.take (i + 1)) r).State a = some t ∧ IsActiveState t) ↔
      ρ f = true := by
    rw [hstep]
    constructor
    · rintro ⟨t, h1, h2⟩
      rw [← Option.some.inj h1] at h2
      exact (transition_active_iff _ s hsn).mp h2
    · intro hp
      exact ⟨_, rfl, (transition_active_iff _ s hsn).mpr hp⟩
  have hnext : ∀ J : State, (∀ p, transition p J ≠ J) → i + 1 < fs.length →
      ¬ ((Updates (fs.take (i + 1)) r).State a = some J ∧
        (Updates (fs.take (i + 2)) r).State a = some J) := by
    intro J hJ hlt2
    rintro ⟨h1, h2⟩
    obtain ⟨g, hg⟩ : ∃ g, fs[i + 1]? = some g := ⟨fs[i + 1], List.getElem?_eq_getElem hlt2⟩
    have htake2 : fs.take (i + 2) = fs.take (i + 1) ++ [g] := by
      rw [List.take_succ, hg]; rfl
    obtain ⟨s2, hs2, hstep2⟩ := ht (fs.take (i + 1)) g
    rw [← htake2, h2] at hstep2
    rw [h1] at hs2
    have e1 : J = s2 := Option.some.inj hs2
    rw [← e1] at hstep2
    exact hJ (ρ g) (Option.some.inj hstep2).symm
  refine ⟨?_, ?_, hact,
    hnext JustActivatedState (fun p => (transition_ne_JustActivated_of p).1),
    hnext JustDeactivatedState (fun p => (transition_ne_JustActivated_of p).2)⟩
  · cases i with
    | zero =>
      have hs0 : s = StillDeactivatedState := by
        have : (Updates (fs.take 0) r).State a = some StillDeactivatedState := by
          simpa [Updates] using h0
        exact Option.some.inj (hs.symm.trans this)
      rw [hstep, hs0]
      constructor
      · intro h
        exact ⟨(transition_first (ρ f)).1.mp (Option.some.inj h), Or.inl rfl⟩
      · rintro ⟨hp, _⟩
        exact congrArg some ((transition_first (ρ f)).1.mpr hp)
    | succ j =>
      have hjlt : j < fs.length := by omega
      obtain ⟨g, hg⟩ : ∃ g, fs[j]? = some g := ⟨fs[j], List.getElem?_eq_getElem hjlt⟩
      have htakej : fs.take (j + 1) = fs.take j ++ [g] := by
        rw [List.take_succ, hg]; rfl
      obtain ⟨s1, hs1n, hs1, hstep1⟩ := Tracks_last ρ r a ht _ h0 hn0 (fs.take j) g
      rw [← htakej] at hstep1
      have es : s = transition (ρ g) s1 := Option.some.inj (hs.symm.trans hstep1)
      rw [hstep, es]
      constructor
      · intro h
        have h2 := (transition_twice_iff (ρ g) (ρ f) s1 hs1n).1.mp (Option.some.inj h)
        exact ⟨h2.1, Or.inr ⟨j, g, rfl, hg, h2.2⟩⟩
      · rintro ⟨hp, hor⟩
        rcases hor with h | ⟨j1, g1, hj, hg1, hpg⟩
        · omega
        · have hjj : j1 = j := by omega
          subst hjj
          have hgg : g1 = g := Option.some.inj (hg1.symm.trans hg)
          subst hgg
          exact congrArg some ((transition_twice_iff _ _ s1 hs1n).1.mpr ⟨hp, hpg⟩)
  · cases i with
    | zero =>
      have hs0 : s = StillDeactivatedState := by
        have : (Updates (fs.take 0) r).State a = some StillDeactivatedState := by
          simpa [Updates] using h0
        exact Option.some.inj (hs.symm.trans this)
      rw [hstep, hs0]
      constructor
      · intro h
        exact absurd (Option.some.inj h) (transition_first (ρ f)).2
      · rintro ⟨_, j, g, hj, _⟩
        omega
    | succ j =>
      have hjlt : j < fs.length := by omega
      obtain ⟨g, hg⟩ : ∃ g, fs[j]? = some g := ⟨fs[j], List.getElem?_eq_getElem hjlt⟩
      have htakej : fs.take (j + 1) = fs.take j ++ [g] := by
        rw [List.take_succ, hg]; rfl
      obtain ⟨s1, hs1n, hs1, hstep1⟩ := Tracks_last ρ r a ht _ h0 hn0 (fs.take j) g
      rw [← htakej] at hstep1
      have es : s = transition (ρ g) s1 := Option.some.inj (hs.symm.trans hstep1)
      rw [hstep, es]
      constructor
      · intro h
        have h2 := (transition_twice_iff (ρ g) (ρ f) s1 hs1n).2.mp (Option.some.inj h)
        exact ⟨h2.1, j, g, rfl, hg, h2.2⟩
      · rintro ⟨hp, j1, g1, hj, hg1, hpg⟩
        have hjj : j1 = j := by omega
        subst hjj
        have hgg : g1 = g := Option.some.inj (hg1.symm.trans hg)
        subst hgg
        exact congrArg some ((transition_twice_iff _ _ s1 hs1n).2.mpr ⟨hp, hpg⟩)

theorem WF_Updates (fs : List Frame) (r : Registry) (h : r.WF) : (Updates fs r).WF := by
  induction fs generalizing r with
  | nil => exact h
  | cons f fs ih => exact ih _ (WF_Update f r h)

theorem Updates_userRefs (fs : List Frame) (r : Registry) :
    (Updates fs r).userRefs = r.userRefs := by
  simp [Registry.userRefs, Updates_userControls]

/-- A registered key control that is not also held in `userControls` follows the
reading of its key. -/
theorem key_Tracks (r : Registry) (k : ebiten.Key) (a : Control) (hwf : r.WF)
    (hreg : mapGet r.keyControls k = some a) (hu : a ∉ r.userRefs) :
    Tracks (fun f => f.isKeyPressedFunc k) r a := by
  intro fs f
  have hwf1 := WF_Updates fs r hwf
  have hreg1 : mapGet (Updates fs r).keyControls k = some a := by
    rw [Updates_keyControls]; exact hreg
  have hu1 : a ∉ (Updates fs r).userRefs := by rw [Updates_userRefs]; exact hu
  obtain ⟨s, ho⟩ := WF_key_object _ k a hwf1 hreg1
  have hs := State_of_key_object _ a k s ho
  refine ⟨s, hs, ?_⟩
  rw [Updates_snoc]
  exact (key_frame f _ k a s hwf1 hreg1 hu1 hs).2.2.2

/-- A registered mouse button control that is not also held in `userControls`
follows the reading of its button. -/
theorem mouseButton_Tracks (r : Registry) (b : ebiten.MouseButton) (a : Control) (hwf : r.WF)
    (hreg : mapGet r.mouseButtonControls b = some a) (hu : a ∉ r.userRefs) :
    Tracks (fun f => f.isMouseButtonPressedFunc b) r a := by
  intro fs f
  have hwf1 := WF_Updates fs r hwf
  have hreg1 : mapGet (Updates fs r).mouseButtonControls b = some a := by
    rw [Updates_mouseButtonControls]; exact hreg
  have hu1 : a ∉ (Updates fs r).userRefs := by rw [Updates_userRefs]; exact hu
  obtain ⟨s, ho⟩ := WF_mouseButton_object _ b a hwf1 hreg1
  have hs := State_of_mouseButton_object _ a b s ho
  refine ⟨s, hs, ?_⟩
  rw [Updates_snoc]
  exact (mouseButton_frame f _ b a s hwf1 hreg1 hu1 hs).2.2.2

/-- C18, amended: for a registered key control, and a registered mouse button
control, that starts StillDeactivated and has not also been passed to
`RegisterCustomControl` (is not also held in `userControls`), and for every
run of frames, the state after frame i is JustActivated exactly when the
reading of frame i is pressed and i is 1 or the reading of frame i - 1 is
released, JustDeactivated exactly when i is above 1, the reading of frame i is
released and that of frame i - 1 is pressed, and active exactly when the
reading of frame i is pressed; no Just state is reported after two frames in a
row. -/
theorem edge_detection (r : Registry) (fs : List Frame) (hwf : r.WF) :
    (∀ (k : ebiten.Key) (a : Control), mapGet r.keyControls k = some a → a ∉ r.userRefs →
      r.State a = some StillDeactivatedState →
      EdgeDetected (fun f => f.isKeyPressedFunc k) r a fs) ∧
    (∀ (b : ebiten.MouseButton) (a : Control), mapGet r.mouseButtonControls b = some a →
      a ∉ r.userRefs → r.State a = some StillDeactivatedState →
      EdgeDetected (fun f => f.isMouseButtonPressedFunc b) r a fs) :=
  ⟨fun k a hreg hu hs => Tracks_edges _ r a (key_Tracks r k a hwf hreg hu) hs fs,
   fun b a hreg hu hs => Tracks_edges _ r a (mouseButton_Tracks r b a hwf hreg hu) hs fs⟩

/-- Instance of the amended C18: key 1 (address 1) and button 0 (address 3) after `init` of the
sample backend, over the run pressed, pressed, released. -/
theorem edge_detection_witness :
    EdgeDetected (fun f => f.isKeyPressedFunc 1) (init sampleBackend) 1
      [pressAll, pressAll, pressNone] ∧
    EdgeDetected (fun f => f.isMouseButtonPressedFunc 0) (init sampleBackend) 3
      [pressAll, pressAll, pressNone] :=
  ⟨(edge_detection (init sampleBackend) [pressAll, pressAll, pressNone] (by decide)).1 1 1
      (by decide) (by decide) (by decide),
   (edge_detection (init sampleBackend) [pressAll, pressAll, pressNone] (by decide)).2 0 3
      (by decide) (by decide) (by decide)⟩

/-! ## Registering and unregistering a caller-supplied control -/

theorem AgreeOff_keyControlAt (a : Control) (r s : Registry) (h : AgreeOff a r s)
    (k : ebiten.Key) : s.keyControlAt k = r.keyControlAt k := by
  obtain ⟨hk, _, _, _, hheap, ⟨u1, hu1⟩, ⟨u2, hu2⟩⟩ := h
  unfold Registry.keyControlAt
  rw [hk]
  cases hm : mapGet r.keyControls k with
  | none => rfl
  | some x =>
    by_cases hx : x = a
    · subst hx
      simp only [hu1, hu2]
    · simp only [hheap x hx]

theorem AgreeOff_updateAt_other (f : Frame) (a c : Control) (r s : Registry)
    (h : AgreeOff a r s) (hc : c ≠ a) : AgreeOff a (r.updateAt f c) (s.updateAt f c) := by
  have hkc := AgreeOff_keyControlAt a r s h
  obtain ⟨hk, hm, hcm, hu, hheap, ⟨u1, hu1⟩, ⟨u2, hu2⟩⟩ := h
  refine ⟨?_, ?_, ?_, ?_, ?_, ⟨u1, ?_⟩, ⟨u2, ?_⟩⟩
  · rw [updateAt_keyControls, updateAt_keyControls, hk]
  · rw [updateAt_mouseButtonControls, updateAt_mouseButtonControls, hm]
  · rw [updateAt_keyComboControls, updateAt_keyComboControls, hcm]
  · rw [updateAt_userControls, updateAt_userControls, hu]
  · intro b hb
    by_cases hcb : c = b
    · subst hcb
      rw [updateAt_heap_self, updateAt_heap_self, hheap c hb]
      cases r.heap[c]? with
      | none => rfl
      | some o =>
        simp only [Option.map_some']
        rw [Object.Update_congr f s r o hkc]
    · rw [updateAt_heap_other f s c b hcb, updateAt_heap_other f r c b hcb, hheap b hb]
  · rw [updateAt_heap_other f r c a hc]; exact hu1
  · rw [updateAt_heap_other f s c a hc]; exact hu2

theorem AgreeOff_updateAt_self (f : Frame) (a : Control) (r s : Registry)
    (h : AgreeOff a r s) : AgreeOff a (r.updateAt f a) s := by
  obtain ⟨hk, hm, hcm, hu, hheap, ⟨u1, hu1⟩, hs⟩ := h
  refine ⟨?_, ?_, ?_, ?_, ?_, ⟨u1.Update, ?_⟩, hs⟩
  · rw [updateAt_keyControls, hk]
  · rw [updateAt_mouseButtonControls, hm]
  · rw [updateAt_keyComboControls, hcm]
  · rw [updateAt_userControls, hu]
  · intro b hb
    rw [updateAt_heap_other f r a b (Ne.symm hb)]
    exact hheap b hb
  · rw [updateAt_heap_self, hu1]; rfl

/-- A run of calls and the same run without the calls on `a` keep two package
states in agreement off `a`. -/
theorem AgreeOff_updateAll (f : Frame) (a : Control) (l : List Control) (r s : Registry)
    (h : AgreeOff a r s) :
    AgreeOff a (updateAll f l r) (updateAll f (l.filter (fun c => decide (c ≠ a))) s) := by
  induction l generalizing r s with
  | nil => exact h
  | cons c l ih =>
    by_cases hc : c = a
    · subst hc
      simp only [List.filter_cons, ne_eq, not_true_eq_false, decide_False, Bool.false_eq_true,
        if_false, updateAll_cons]
      exact ih _ _ (AgreeOff_updateAt_self f c r s h)
    · simp only [List.filter_cons, ne_eq, hc, not_false_eq_true, decide_True, if_true,
        updateAll_cons]
      exact ih _ _ (AgreeOff_updateAt_other f a c r s h hc)

theorem filter_ne_of_not_mem (l : List Control) (a : Control) (h : a ∉ l) :
    l.filter (fun c => decide (c ≠ a)) = l := by
  apply List.filter_eq_self.mpr
  intro c hc
  simp only [ne_eq, decide_eq_true_eq]
  intro hca
  exact h (hca ▸ hc)

theorem mapDelete_snd (m : List (Control × Control)) (a : Control)
    (heq : ∀ p ∈ m, p.1 = p.2) :
    (mapDelete m a).map Prod.snd = (m.map Prod.snd).filter (fun c => decide (c ≠ a)) := by
  induction m with
  | nil => rfl
  | cons q m ih =>
    obtain ⟨k1, v1⟩ := q
    have hkv : k1 = v1 := heq (k1, v1) (by simp)
    subst hkv
    have ih1 := ih (fun p hp => heq p (by simp [hp]))
    by_cases h1 : k1 = a
    · simp [mapDelete, h1, ih1]
    · simp [mapDelete, h1, ih1]

/-- A caller-supplied control object is not an entry of the package-made maps. -/
theorem user_not_builtin (r : Registry) (hwf : r.WF) (a : Control) (u : customControl)
    (ho : r.heap[a]? = some (Object.user u)) : a ∉ r.builtinRefs := by
  intro hmem
  unfold Registry.builtinRefs at hmem
  simp only [List.mem_append] at hmem
  rcases hmem with (hk | hm) | hc
  · obtain ⟨p, hp, rfl⟩ := List.mem_map.mp hk
    obtain ⟨kc, hkc⟩ := entry_object_key r hwf p hp
    rw [ho] at hkc; simp at hkc
  · obtain ⟨p, hp, rfl⟩ := List.mem_map.mp hm
    obtain ⟨kc, hkc⟩ := entry_object_mouse r hwf p hp
    rw [ho] at hkc; simp at hkc
  · obtain ⟨p, hp, rfl⟩ := List.mem_map.mp hc
    obtain ⟨kc, hkc⟩ := entry_object_combo r hwf p hp
    rw [ho] at hkc; simp at hkc

theorem AgreeOff_Update (f : Frame) (a : Control) (r s : Registry) (hwf : r.WF)
    (h : AgreeOff a r s) : AgreeOff a (Update f r) (Update f s) := by
  obtain ⟨u1, hu1⟩ := h.2.2.2.2.2.1
  have hnb := user_not_builtin r hwf a u1 hu1
  have hlist : s.builtinRefs ++ s.userRefs =
      (r.builtinRefs ++ r.userRefs).filter (fun c => decide (c ≠ a)) := by
    rw [List.filter_append, filter_ne_of_not_mem _ a hnb]
    unfold Registry.builtinRefs Registry.keyRefs Registry.mouseButtonRefs
      Registry.keyComboRefs Registry.userRefs
    rw [h.1, h.2.1, h.2.2.1, h.2.2.2.1, mapDelete_snd _ a hwf.2.2.2.2.2]
  rw [Update_eq_updateAll, Update_eq_updateAll, hlist]
  exact AgreeOff_updateAll f a _ r s h

theorem AgreeOff_Updates (fs : List Frame) (a : Control) (r s : Registry) (hwf : r.WF)
    (h : AgreeOff a r s) : AgreeOff a (Updates fs r) (Updates fs s) := by
  induction fs generalizing r s with
  | nil => exact h
  | cons f fs ih => exact ih _ _ (WF_Update f r hwf) (AgreeOff_Update f a r s hwf h)

theorem user_kind_updateAt (f : Frame) (r : Registry) (c a : Control)
    (h : ∃ u, r.heap[a]? = some (Object.user u)) :
    ∃ u, (r.updateAt f c).heap[a]? = some (Object.user u) := by
  obtain ⟨u, hu⟩ := h
  by_cases hc : c = a
  · subst hc
    exact ⟨u.Update, by rw [updateAt_heap_self, hu]; rfl⟩
  · exact ⟨u, by rw [updateAt_heap_other f r c a hc]; exact hu⟩

theorem user_kind_Updates (fs : List Frame) (r : Registry) (a : Control)
    (h : ∃ u, r.heap[a]? = some (Object.user u)) :
    ∃ u, (Updates fs r).heap[a]? = some (Object.user u) := by
  induction fs generalizing r with
  | nil => exact h
  | cons f fs ih =>
    apply ih
    show ∃ u, (Update f r).heap[a]? = some (Object.user u)
    rw [Update_eq_updateAll]
    generalize r.builtinRefs ++ r.userRefs = l
    induction l generalizing r with
    | nil => exact h
    | cons c l ihl => exact ihl _ (user_kind_updateAt f r c a h)

theorem not_registered_frozen (gs : List Frame) (r : Registry) (a : Control)
    (h : a ∉ r.builtinRefs ++ r.userRefs) : (Updates gs r).heap[a]? = r.heap[a]? := by
  induction gs generalizing r with
  | nil => rfl
  | cons g gs ih =>
    have hstep : (Update g r).heap[a]? = r.heap[a]? := by
      rw [Update_eq_updateAll]; exact updateAll_heap_other g _ r a h
    have hlist : (Update g r).builtinRefs ++ (Update g r).userRefs =
        r.builtinRefs ++ r.userRefs := by
      simp [Registry.builtinRefs, Registry.keyRefs, Registry.mouseButtonRefs,
        Registry.keyComboRefs, Registry.userRefs, Update_keyControls,
        Update_mouseButtonControls, Update_keyComboControls, Update_userControls]
    have := ih (Update g r) (by rw [hlist]; exact h)
    exact this.trans hstep

/-- C13: a caller-supplied control `a` is registered; after any number of frames
one more call of `Update` makes one call of its `Update` method. When the
returned closure is then called, no later call of `Update` touches the control:
its object, and so its `State()`, stays as it was at that moment, while every
other object is after the later frames what it would be had the closure not
been called. -/
theorem custom_control_lifecycle (r : Registry) (a : Control) (uc : customControl)
    (fs gs : List Frame) (f : Frame) (hwf : r.WF)
    (ho : r.heap[a]? = some (Object.user uc)) :
    (∃ u, (Updates fs (RegisterCustomControl r a).1).heap[a]? = some (Object.user u) ∧
      (Update f (Updates fs (RegisterCustomControl r a).1)).heap[a]? =
        some (Object.user u.Update)) ∧
    (Updates gs ((RegisterCustomControl r a).2
        (Updates fs (RegisterCustomControl r a).1))).heap[a]? =
      (Updates fs (RegisterCustomControl r a).1).heap[a]? ∧
    (Updates gs ((RegisterCustomControl r a).2
        (Updates fs (RegisterCustomControl r a).1))).State a =
      (Updates fs (RegisterCustomControl r a).1).State a ∧
    (∀ b : Control, b ≠ a →
      (Updates gs ((RegisterCustomControl r a).2
          (Updates fs (RegisterCustomControl r a).1))).heap[b]? =
        (Updates gs (Updates fs (RegisterCustomControl r a).1)).heap[b]?) := by
  have hwf1 : (RegisterCustomControl r a).1.WF := WF_RegisterCustomControl r a hwf
  have hwfs := WF_Updates fs _ hwf1
  have hkind : ∃ u, (Updates fs (RegisterCustomControl r a).1).heap[a]? =
      some (Object.user u) := user_kind_Updates fs _ a ⟨uc, ho⟩
  obtain ⟨u, hu⟩ := hkind
  have hnb := user_not_builtin _ hwfs a u hu
  have hfrozen : (Updates gs ((RegisterCustomControl r a).2
      (Updates fs (RegisterCustomControl r a).1))).heap[a]? =
      (Updates fs (RegisterCustomControl r a).1).heap[a]? := by
    have hnot : a ∉ ((RegisterCustomControl r a).2
        (Updates fs (RegisterCustomControl r a).1)).builtinRefs ++
        ((RegisterCustomControl r a).2 (Updates fs (RegisterCustomControl r a).1)).userRefs := by
      intro hmem
      rcases List.mem_append.mp hmem with h | h
      · exact hnb h
      · obtain ⟨p, hp, hpa⟩ := List.mem_map.mp h
        have hp1 := (mem_mapDelete _ a p).mp hp
        have heq := hwfs.2.2.2.2.2 p hp1.1
        exact hp1.2 (heq.trans hpa)
    exact not_registered_frozen gs _ a hnot
  refine ⟨⟨u, hu, ?_⟩, hfrozen, ?_, ?_⟩
  · have hmem : a ∈ (Updates fs (RegisterCustomControl r a).1).userRefs := by
      rw [Updates_userRefs]
      have hget : mapGet (mapSet r.userControls a a) a = some a := mapGet_mapSet_self _ a a
      exact List.mem_map.mpr ⟨(a, a), mapGet_mem _ _ _ hget, rfl⟩
    obtain ⟨l1, l2, _, h⟩ := updateAll_once_mid f (Updates fs (RegisterCustomControl r a).1)
      (Updates fs (RegisterCustomControl r a).1).builtinRefs
      (Updates fs (RegisterCustomControl r a).1).userRefs [] a _ hnb hwfs.2.2.2.2.1 hmem
      (by simp) hu
    rw [Update_eq_updateAll]
    simp only [List.append_nil] at h
    rw [h]
    rfl
  · simp only [Registry.State, hfrozen]
  · intro b hb
    have hagree : AgreeOff a (Updates fs (RegisterCustomControl r a).1)
        ((RegisterCustomControl r a).2 (Updates fs (RegisterCustomControl r a).1)) :=
      ⟨rfl, rfl, rfl, rfl, fun _ _ => rfl, ⟨u, hu⟩, ⟨u, hu⟩⟩
    exact (AgreeOff_Updates gs a _ _ hwfs hagree).2.2.2.2.1 b hb

/-- Instance of C13: after `init` of the sample backend a caller makes the sample
control, which lands at address 4, and registers it; it is updated by two
frames and then unregistered. -/
theorem custom_control_lifecycle_witness :
    (∃ u, (Updates [pressAll, pressAll] (RegisterCustomControl
          (newCustomControl (init sampleBackend) sampleCustom).1 4).1).heap[4]? =
        some (Object.user u) ∧
      (Update pressAll (Updates [pressAll, pressAll] (RegisterCustomControl
          (newCustomControl (init sampleBackend) sampleCustom).1 4).1)).heap[4]? =
        some (Object.user u.Update)) ∧
    (Updates [pressNone] ((RegisterCustomControl
        (newCustomControl (init sampleBackend) sampleCustom).1 4).2
        (Updates [pressAll, pressAll] (RegisterCustomControl
          (newCustomControl (init sampleBackend) sampleCustom).1 4).1))).heap[4]? =
      (Updates [pressAll, pressAll] (RegisterCustomControl
        (newCustomControl (init sampleBackend) sampleCustom).1 4).1).heap[4]? ∧
    (Updates [pressNone] ((RegisterCustomControl
        (newCustomControl (init sampleBackend) sampleCustom).1 4).2
        (Updates [pressAll, pressAll] (RegisterCustomControl
          (newCustomControl (init sampleBackend) sampleCustom).1 4).1))).State 4 =
      (Updates [pressAll, pressAll] (RegisterCustomControl
        (newCustomControl (init sampleBackend) sampleCustom).1 4).1).State 4 ∧
    (∀ b : Control, b ≠ 4 →
      (Updates [pressNone] ((RegisterCustomControl
          (newCustomControl (init sampleBackend) sampleCustom).1 4).2
          (Updates [pressAll, pressAll] (RegisterCustomControl
            (newCustomControl (init sampleBackend) sampleCustom).1 4).1))).heap[b]? =
        (Updates [pressNone] (Updates [pressAll, pressAll] (RegisterCustomControl
          (newCustomControl (init sampleBackend) sampleCustom).1 4).1)).heap[b]?) :=
  custom_control_lifecycle (newCustomControl (init sampleBackend) sampleCustom).1 4 sampleCustom
    [pressAll, pressAll] [pressNone] pressAll (by decide) rfl

/-! ## Combinations are stored under the name of their keys -/

theorem comboKeysAt_updateAt (f : Frame) (r : Registry) (c a : Control) :
    (r.updateAt f c).comboKeysAt a = r.comboKeysAt a := by
  unfold Registry.comboKeysAt
  by_cases hc : c = a
  · subst hc
    rw [updateAt_heap_self]
    cases h : r.heap[c]? with
    | none => rfl
    | some o => cases o <;> rfl
  · rw [updateAt_heap_other f r c a hc]

theorem comboKeysAt_push (r s : Registry) (o : Object) (a : Control) (ks : List ebiten.Key)
    (hs : s.heap = r.heap ++ [o]) (h : r.comboKeysAt a = some ks) :
    s.comboKeysAt a = some ks := by
  unfold Registry.comboKeysAt at h ⊢
  cases ho : r.heap[a]? with
  | none => simp [ho] at h
  | some x =>
    rw [hs, heap_push_old r.heap o x a ho]
    rw [ho] at h
    exact h

theorem NameOk_push (E : Backend) (r s : Registry) (o : Object)
    (hs : s.heap = r.heap ++ [o]) (hc : s.keyComboControls = r.keyComboControls)
    (h : NameOk E r) : NameOk E s := by
  intro p hp
  rw [hc] at hp
  obtain ⟨ks, h1, h2⟩ := h p hp
  exact ⟨ks, comboKeysAt_push r s o p.2 ks hs h1, h2⟩

theorem NameOk_same (E : Backend) (r s : Registry) (hs : s.heap = r.heap)
    (hc : s.keyComboControls = r.keyComboControls) (h : NameOk E r) : NameOk E s := by
  intro p hp
  rw [hc] at hp
  obtain ⟨ks, h1, h2⟩ := h p hp
  refine ⟨ks, ?_, h2⟩
  unfold Registry.comboKeysAt at h1 ⊢
  rw [hs]; exact h1

theorem NameOk_updateAt (E : Backend) (f : Frame) (r : Registry) (c : Control)
    (h : NameOk E r) : NameOk E (r.updateAt f c) := by
  intro p hp
  rw [updateAt_keyComboControls] at hp
  obtain ⟨ks, h1, h2⟩ := h p hp
  exact ⟨ks, by rw [comboKeysAt_updateAt]; exact h1, h2⟩

theorem NameOk_updateAll (E : Backend) (f : Frame) (cs : List Control) (r : Registry)
    (h : NameOk E r) : NameOk E (updateAll f cs r) := by
  induction cs generalizing r with
  | nil => exact h
  | cons c cs ih => exact ih _ (NameOk_updateAt E f r c h)

theorem NameOk_Update (E : Backend) (f : Frame) (r : Registry) (h : NameOk E r) :
    NameOk E (Update f r) := by
  rw [Update_eq_updateAll]; exact NameOk_updateAll E f _ r h

theorem NameOk_KeyCombo (E : Backend) (r : Registry) (keys : List ebiten.Key)
    (h : NameOk E r) : NameOk E (KeyCombo E r keys).1 := by
  rw [KeyCombo_fst_eq]
  split
  · intro p hp
    rcases mem_mapSet _ _ _ _ hp with hp | hp
    · obtain ⟨ks, h1, h2⟩ := h p hp
      exact ⟨ks, comboKeysAt_push r _ _ p.2 ks rfl h1, h2⟩
    · subst hp
      exact ⟨keys, by simp [Registry.comboKeysAt], rfl⟩
  · exact h

theorem foldl_initKey_keyComboControls (l : List ebiten.Key) (r : Registry) :
    (l.foldl initKey r).keyComboControls = r.keyComboControls := by
  induction l generalizing r with
  | nil => rfl
  | cons k l ih => rw [List.foldl_cons, ih]; rfl

theorem foldl_initMouseButton_keyComboControls (l : List ebiten.MouseButton) (r : Registry) :
    (l.foldl initMouseButton r).keyComboControls = r.keyComboControls := by
  induction l generalizing r with
  | nil => rfl
  | cons k l ih => rw [List.foldl_cons, ih]; rfl

theorem init_keyComboControls (E : Backend) : (init E).keyComboControls = [] := by
  unfold init
  simp only [foldl_initMouseButton_keyComboControls, foldl_initKey_keyComboControls]
  rfl

theorem NameOk_init (E : Backend) : NameOk E (init E) := by
  intro p hp
  rw [init_keyComboControls] at hp
  simp at hp

theorem NameOk_Op_run (E : Backend) (r : Registry) (op : Op) (h : NameOk E r) :
    NameOk E (op.run E r) := by
  cases op with
  | request q =>
    cases q with
    | key k =>
      show NameOk E (Key r k).1
      rw [Key_fst_eq]
      split
      · exact NameOk_push E r _ _ rfl rfl h
      · exact h
    | mouseButton b =>
      show NameOk E (MouseButton r b).1
      rw [MouseButton_fst_eq]
      split
      · exact NameOk_push E r _ _ rfl rfl h
      · exact h
    | keyCombo ks => exact NameOk_KeyCombo E r ks h
  | update f => exact NameOk_Update E f r h
  | newCustom uc => exact NameOk_push E r _ (Object.user uc) rfl rfl h
  | register c => exact NameOk_same E r _ rfl rfl h
  | unregister c => exact NameOk_same E r _ rfl rfl h

/-- In every package state reached from `init` each combination is stored under
the name of its own key sequence. -/
theorem NameOk_runOps (E : Backend) (ops : List Op) : NameOk E (runOps E ops) := by
  unfold runOps
  have hgen : ∀ (l : List Op) (r : Registry), NameOk E r →
      NameOk E (l.foldl (fun s op => op.run E s) r) := by
    intro l
    induction l with
    | nil => intro r h; exact h
    | cons op l ih => intro r h; exact ih _ (NameOk_Op_run E r op h)
  exact hgen ops _ (NameOk_init E)

/-- What a request that finds its control tells about the map. -/
theorem mapGet_of_requested (E : Backend) (r : Registry) (keys : List ebiten.Key) (c : Control)
    (hreq : KeyCombo E r keys = (r, some c)) :
    mapGet r.keyComboControls (makeKeyComboName E keys) = some c := by
  have h2 : (KeyCombo E r keys).2 =
      mapGet (KeyCombo E r keys).1.keyComboControls (makeKeyComboName E keys) := rfl
  rw [hreq] at h2
  exact h2.symm

/-- In a reached package state where no other key sequence shares the name, the
control that `KeyCombo` returns for a key sequence stores that sequence, in a
named state. -/
theorem requested_combo_object (E : Backend) (ops : List Op) (keys : List ebiten.Key)
    (c : Control) (hreq : KeyCombo E (runOps E ops) keys = (runOps E ops, some c))
    (hcol : NoCollision E (runOps E ops) keys) :
    ∃ s, (runOps E ops).heap[c]? = some (Object.combo { keys := keys, state := s }) ∧
      IsNamedState s := by
  have hget := mapGet_of_requested E _ keys c hreq
  have hmem := mapGet_mem _ _ _ hget
  obtain ⟨ks, h1, h2⟩ := NameOk_runOps E ops _ hmem
  have hks : ks = keys := hcol _ hmem ks h1 h2
  rw [hks] at h1
  unfold Registry.comboKeysAt at h1
  simp only at h1
  cases ho : (runOps E ops).heap[c]? with
  | none => simp [ho] at h1
  | some o =>
    cases o with
    | combo kcc =>
      obtain ⟨kk, st⟩ := kcc
      simp only [ho, Option.some.injEq] at h1
      have hn : IsNamedState st := AllNamed_runOps E ops c _ ho
      exact ⟨st, by rw [← h1], hn⟩
    | _ => simp [ho] at h1

/-- In a reached package state a key with an entry has a control in a named
state. -/
theorem entry_key_named (E : Backend) (ops : List Op) (k : ebiten.Key)
    (h : (mapGet (runOps E ops).keyControls k).isSome = true) :
    ∃ a s, mapGet (runOps E ops).keyControls k = some a ∧ (runOps E ops).State a = some s ∧
      IsNamedState s := by
  cases hm : mapGet (runOps E ops).keyControls k with
  | none => rw [hm] at h; simp at h
  | some a =>
    obtain ⟨s, ho⟩ := WF_key_object _ k a (WF_runOps E ops) hm
    have hn : IsNamedState s := AllNamed_runOps E ops a _ ho
    exact ⟨a, s, rfl, State_of_key_object _ a k s ho, hn⟩

/-! ## Combinations as `KeyCombo` returns them -/

/-- C4, amended: in a package state reached from `init`, let `KeyCombo(A, B)`
return the control `c` that it already holds, where A and B both have an entry
in `keyControls`, `c` has not also been passed to `RegisterCustomControl`, and
no combination of another key sequence with the same name is registered. Then
every call of `Update`, after any number of earlier calls, leaves `c` in the
state that the switch gives for (A and B both reported pressed this frame,
state of `c` before the call); `c` is active after the call exactly when both
keys are pressed, and an active `c` is JustDeactivated after the call as soon
as one key is released. -/
theorem keyCombo_requested_pair (E : Backend) (ops : List Op) (A B : ebiten.Key) (c : Control)
    (fs : List Frame) (f : Frame)
    (hreq : KeyCombo E (runOps E ops) [A, B] = (runOps E ops, some c))
    (hA : (mapGet (runOps E ops).keyControls A).isSome = true)
    (hB : (mapGet (runOps E ops).keyControls B).isSome = true)
    (hu : c ∉ (runOps E ops).userRefs)
    (hcol : NoCollision E (runOps E ops) [A, B]) :
    ∃ s, (Updates fs (runOps E ops)).State c = some s ∧
      (Update f (Updates fs (runOps E ops))).State c =
        some (transition (f.isKeyPressedFunc A && f.isKeyPressedFunc B) s) ∧
      ((∃ t, (Update f (Updates fs (runOps E ops))).State c = some t ∧ IsActiveState t) ↔
        (f.isKeyPressedFunc A = true ∧ f.isKeyPressedFunc B = true)) ∧
      (IsActiveState s → (f.isKeyPressedFunc A = false ∨ f.isKeyPressedFunc B = false) →
        (Update f (Updates fs (runOps E ops))).State c = some JustDeactivatedState) :=
  keyCombo_pair (runOps E ops) A B c fs f
    ⟨WF_runOps E ops, entry_key_named E ops A hA, entry_key_named E ops B hB,
      ⟨_, mapGet_of_requested E _ [A, B] c hreq⟩, hu,
      requested_combo_object E ops [A, B] c hreq hcol⟩

/-- After `init` of the sample backend and a request for the combination of keys 1
and 0, no other key sequence is registered under that name. -/
theorem sample_pair_noCollision :
    NoCollision sampleBackend
      (runOps sampleBackend [Op.request (Request.keyCombo [1, 0])]) [1, 0] := by
  intro p hp ks h1 _
  have hlist : (runOps sampleBackend [Op.request (Request.keyCombo [1, 0])]).keyComboControls =
      [("B+A", 4)] := by decide
  rw [hlist] at hp
  simp only [List.mem_singleton] at hp
  subst hp
  have hk : (runOps sampleBackend [Op.request (Request.keyCombo [1, 0])]).comboKeysAt 4 =
      some [1, 0] := by decide
  rw [hk] at h1
  exact (Option.some.inj h1).symm

/-- Instance of the amended C4: after `init` of the sample backend the
combination of keys 1 and 0 is requested (it is stored at address 4), one frame
has both keys pressed and the next has none. -/
theorem keyCombo_requested_pair_witness :
    ∃ s, (Updates [pressAll]
        (runOps sampleBackend [Op.request (Request.keyCombo [1, 0])])).State 4 = some s ∧
      (Update pressNone (Updates [pressAll]
        (runOps sampleBackend [Op.request (Request.keyCombo [1, 0])]))).State 4 =
        some (transition (pressNone.isKeyPressedFunc 1 && pressNone.isKeyPressedFunc 0) s) ∧
      ((∃ t, (Update pressNone (Updates [pressAll]
          (runOps sampleBackend [Op.request (Request.keyCombo [1, 0])]))).State 4 = some t ∧
          IsActiveState t) ↔
        (pressNone.isKeyPressedFunc 1 = true ∧ pressNone.isKeyPressedFunc 0 = true)) ∧
      (IsActiveState s →
        (pressNone.isKeyPressedFunc 1 = false ∨ pressNone.isKeyPressedFunc 0 = false) →
        (Update pressNone (Updates [pressAll]
          (runOps sampleBackend [Op.request (Request.keyCombo [1, 0])]))).State 4 =
            some JustDeactivatedState) :=
  keyCombo_requested_pair sampleBackend [Op.request (Request.keyCombo [1, 0])] 1 0 4
    [pressAll] pressNone
    (KeyCombo_of_present sampleBackend _ [1, 0] 4 (by decide)) (by decide) (by decide)
    (by decide) sample_pair_noCollision

/-- C4 as stated fails in three ways, shown after `init` of the backend whose key
codes 0, 1, 2 are named and registered and whose other codes have the empty
string form. First, the combination of the key codes -1 and 0, of which -1 has
no entry in `keyControls`, is stored at address 4 and stays StillDeactivated in
a frame that reports every key pressed, where the switch on (true,
StillDeactivated) gives JustActivated. Second, the combination of keys 1 and 0
is also passed to `RegisterCustomControl`; one frame with both keys pressed
leaves it StillActivated, not JustActivated. Third, keys -1 and -2 get entries
through `Key`, the combination of -1 and -1 is requested, and `KeyCombo(-1, -2)`
then returns that same control because both sequences have the same name; in a
frame where only key -1 is pressed it becomes JustActivated although key -2 is
not pressed. -/
theorem keyCombo_pair_counterexample :
    ((KeyCombo plainBackend (init plainBackend) [-1, 0]).2 = some 4 ∧
      mapGet (init plainBackend).keyControls (-1) = none ∧
      pressAll.isKeyPressedFunc (-1) = true ∧ pressAll.isKeyPressedFunc 0 = true ∧
      (Update pressAll (KeyCombo plainBackend (init plainBackend) [-1, 0]).1).State 4 =
        some StillDeactivatedState ∧
      transition (pressAll.isKeyPressedFunc (-1) && pressAll.isKeyPressedFunc 0)
        StillDeactivatedState = JustActivatedState) ∧
    ((KeyCombo plainBackend (init plainBackend) [1, 0]).2 = some 4 ∧
      (RegisterCustomControl (KeyCombo plainBackend (init plainBackend) [1, 0]).1 4).1.State 4 =
        some StillDeactivatedState ∧
      (Update pressAll (RegisterCustomControl
        (KeyCombo plainBackend (init plainBackend) [1, 0]).1 4).1).State 4 =
        some StillActivatedState ∧
      transition (pressAll.isKeyPressedFunc 1 && pressAll.isKeyPressedFunc 0)
        StillDeactivatedState = JustActivatedState) ∧
    ((KeyCombo plainBackend (Key (Key (init plainBackend) (-1)).1 (-2)).1 [-1, -1]).2 = some 6 ∧
      (KeyCombo plainBackend
        (KeyCombo plainBackend (Key (Key (init plainBackend) (-1)).1 (-2)).1 [-1, -1]).1
        [-1, -2]).2 = some 6 ∧
      (pressKey (-1)).isKeyPressedFunc (-2) = false ∧
      (Update (pressKey (-1)) (KeyCombo plainBackend
        (KeyCombo plainBackend (Key (Key (init plainBackend) (-1)).1 (-2)).1 [-1, -1]).1
        [-1, -2]).1).State 6 = some JustActivatedState ∧
      IsActiveState JustActivatedState) := by
  decide

/-- C5, amended: in a package state reached from `init`, let `KeyCombo()` with no
keys return the control `c` that it already holds, where `c` has not also been
passed to `RegisterCustomControl` and no combination of a non-empty key
sequence with the same (empty) name is registered. Then `c` is active after
every call of `Update` whatever the backend reports, because the loop of
`updateKeyComboState` leaves its flag true on the empty key list: the first call
from StillDeactivated leaves it JustActivated and every call that follows
another call leaves it StillActivated. -/
theorem empty_keyCombo_requested (E : Backend) (ops : List Op) (c : Control)
    (fs : List Frame) (f : Frame)
    (hreq : KeyCombo E (runOps E ops) [] = (runOps E ops, some c))
    (hu : c ∉ (runOps E ops).userRefs)
    (hcol : NoCollision E (runOps E ops) []) :
    (∃ t, (Update f (Updates fs (runOps E ops))).State c = some t ∧ IsActiveState t) ∧
    ((runOps E ops).State c = some StillDeactivatedState →
      (Update f (runOps E ops)).State c = some JustActivatedState) ∧
    (∀ g : Frame,
      (Update g (Update f (Updates fs (runOps E ops)))).State c = some StillActivatedState) := by
  obtain ⟨s, ho, hn⟩ := requested_combo_object E ops [] c hreq hcol
  have hready : ComboReady (runOps E ops) c [] s :=
    ⟨WF_runOps E ops, ⟨_, mapGet_of_requested E _ [] c hreq⟩, hu, ho⟩
  obtain ⟨h1, h2, h3⟩ := empty_keyCombo_active (runOps E ops) c s fs f hready hn
  refine ⟨h1, ?_, h3⟩
  intro hs
  have hst := State_of_combo_object _ c _ ho
  simp only at hst
  exact h2 (Option.some.inj (hst.symm.trans hs))

/-- After `init` of the sample backend and a request for the combination of no
keys, no other key sequence is registered under the empty name. -/
theorem sample_empty_noCollision :
    NoCollision sampleBackend
      (runOps sampleBackend [Op.request (Request.keyCombo [])]) [] := by
  intro p hp ks h1 _
  have hlist : (runOps sampleBackend [Op.request (Request.keyCombo [])]).keyComboControls =
      [("", 4)] := by decide
  rw [hlist] at hp
  simp only [List.mem_singleton] at hp
  subst hp
  have hk : (runOps sampleBackend [Op.request (Request.keyCombo [])]).comboKeysAt 4 =
      some [] := by decide
  rw [hk] at h1
  exact (Option.some.inj h1).symm

/-- Instance of the amended C5: the combination of no keys requested after `init`
of the sample backend (stored at address 4), with frames that report nothing
pressed. -/
theorem empty_keyCombo_requested_witness :
    (∃ t, (Update pressNone (Updates [pressNone]
        (runOps sampleBackend [Op.request (Request.keyCombo [])]))).State 4 = some t ∧
      IsActiveState t) ∧
    ((runOps sampleBackend [Op.request (Request.keyCombo [])]).State 4 =
        some StillDeactivatedState →
      (Update pressNone (runOps sampleBackend [Op.request (Request.keyCombo [])])).State 4 =
        some JustActivatedState) ∧
    (∀ g : Frame, (Update g (Update pressNone (Updates [pressNone]
        (runOps sampleBackend [Op.request (Request.keyCombo [])])))).State 4 =
      some StillActivatedState) :=
  empty_keyCombo_requested sampleBackend [Op.request (Request.keyCombo [])] 4 [pressNone]
    pressNone (KeyCombo_of_present sampleBackend _ [] 4 (by decide)) (by decide)
    sample_empty_noCollision

/-- Why the amended C5 has its two provisos, on the backend whose codes other
than 0, 1, 2 have the empty string form: an empty combination that is also
passed to `RegisterCustomControl` is StillActivated, not JustActivated, after
the first call of `Update`; and after a request for the combination of the one
key code -1, whose name is empty as well, `KeyCombo()` returns that control,
which stays StillDeactivated in a frame that reports every key pressed because
key -1 has no entry. -/
theorem empty_keyCombo_provisos :
    ((KeyCombo plainBackend (init plainBackend) []).2 = some 4 ∧
      (Update pressAll (RegisterCustomControl
        (KeyCombo plainBackend (init plainBackend) []).1 4).1).State 4 =
        some StillActivatedState) ∧
    ((KeyCombo plainBackend (init plainBackend) [-1]).2 = some 4 ∧
      (KeyCombo plainBackend (KeyCombo plainBackend (init plainBackend) [-1]).1 []).2 =
        some 4 ∧
      (Update pressAll (KeyCombo plainBackend
        (KeyCombo plainBackend (init plainBackend) [-1]).1 []).1).State 4 =
        some StillDeactivatedState) := by
  decide

/-! ## A package-made control that is also registered by the caller -/

/-- C2 as stated fails for a control that was also passed to
`RegisterCustomControl`: after `init` of the sample backend the control of key 1
(address 1) and the control of button 0 (address 3) are registered that way and
are StillDeactivated; the frames pressed, pressed, released, released leave
each of them StillActivated, StillActivated, StillDeactivated,
StillDeactivated, because the loop over `userControls` updates them a second
time in every call. -/
theorem press_press_release_release_counterexample :
    ((Key (init sampleBackend) 1).2 = some 1 ∧
      (RegisterCustomControl (Key (init sampleBackend) 1).1 1).1.WF ∧
      (RegisterCustomControl (Key (init sampleBackend) 1).1 1).1.State 1 =
        some StillDeactivatedState ∧
      (Update pressAll (RegisterCustomControl (Key (init sampleBackend) 1).1 1).1).State 1 =
        some StillActivatedState ∧
      (Update pressAll (Update pressAll
        (RegisterCustomControl (Key (init sampleBackend) 1).1 1).1)).State 1 =
        some StillActivatedState ∧
      (Update pressNone (Update pressAll (Update pressAll
        (RegisterCustomControl (Key (init sampleBackend) 1).1 1).1))).State 1 =
        some StillDeactivatedState ∧
      (Update pressNone (Update pressNone (Update pressAll (Update pressAll
        (RegisterCustomControl (Key (init sampleBackend) 1).1 1).1)))).State 1 =
        some StillDeactivatedState) ∧
    ((MouseButton (init sampleBackend) 0).2 = some 3 ∧
      (RegisterCustomControl (MouseButton (init sampleBackend) 0).1 3).1.State 3 =
        some StillDeactivatedState ∧
      (Update pressAll
        (RegisterCustomControl (MouseButton (init sampleBackend) 0).1 3).1).State 3 =
        some StillActivatedState ∧
      (Update pressNone (Update pressAll (Update pressAll
        (RegisterCustomControl (MouseButton (init sampleBackend) 0).1 3).1))).State 3 =
        some StillDeactivatedState) ∧
    StillActivatedState ≠ JustActivatedState ∧
    StillDeactivatedState ≠ JustDeactivatedState := by
  decide

/-- C3 as stated fails for a control that was also passed to
`RegisterCustomControl`: for the control of key 1 of the sample backend
(address 1), registered that way and StillDeactivated, the readings pressed
then released end in StillDeactivated, not JustDeactivated, and the readings
released then pressed end in StillActivated, not JustActivated. -/
theorem two_frames_forget_start_counterexample :
    (Key (init sampleBackend) 1).2 = some 1 ∧
    (RegisterCustomControl (Key (init sampleBackend) 1).1 1).1.WF ∧
    (RegisterCustomControl (Key (init sampleBackend) 1).1 1).1.State 1 =
      some StillDeactivatedState ∧
    (Update pressNone (Update pressAll
      (RegisterCustomControl (Key (init sampleBackend) 1).1 1).1)).State 1 =
      some StillDeactivatedState ∧
    (Update pressAll (Update pressNone
      (RegisterCustomControl (Key (init sampleBackend) 1).1 1).1)).State 1 =
      some StillActivatedState ∧
    StillDeactivatedState ≠ JustDeactivatedState ∧
    StillActivatedState ≠ JustActivatedState := by
  decide

/-- C9 as stated fails for a combination that was also passed to
`RegisterCustomControl`: after `init` of the sample backend the combination of
keys 1 and 0 (address 4) is registered that way; in a frame with both keys
pressed both keys are active in the registry as the key loop left it, the
combination was StillDeactivated before the call, and it is StillActivated
after the call, where the switch on (true, StillDeactivated) gives
JustActivated. -/
theorem keyCombo_reads_updated_keys_counterexample :
    (KeyCombo sampleBackend (init sampleBackend) [1, 0]).2 = some 4 ∧
    (RegisterCustomControl (KeyCombo sampleBackend (init sampleBackend) [1, 0]).1 4).1.WF ∧
    (RegisterCustomControl (KeyCombo sampleBackend (init sampleBackend) [1, 0]).1 4).1.State 4 =
      some StillDeactivatedState ∧
    allPressedLoop (updateKeys pressAll (RegisterCustomControl
      (KeyCombo sampleBackend (init sampleBackend) [1, 0]).1 4).1) [1, 0] = true ∧
    (Update pressAll (RegisterCustomControl
      (KeyCombo sampleBackend (init sampleBackend) [1, 0]).1 4).1).State 4 =
      some StillActivatedState ∧
    transition true StillDeactivatedState = JustActivatedState ∧
    StillActivatedState ≠ JustActivatedState := by
  decide

/-- C18 as stated fails for a control that was also passed to
`RegisterCustomControl`: the control of key 1 of the sample backend
(address 1), registered that way, starts StillDeactivated, and after the first
frame of a run, whose reading is pressed, it is StillActivated and not
JustActivated; so edge detection does not hold for this run. -/
theorem edge_detection_counterexample :
    (Key (init sampleBackend) 1).2 = some 1 ∧
    (RegisterCustomControl (Key (init sampleBackend) 1).1 1).1.WF ∧
    mapGet (RegisterCustomControl (Key (init sampleBackend) 1).1 1).1.keyControls 1 = some 1 ∧
    (RegisterCustomControl (Key (init sampleBackend) 1).1 1).1.State 1 =
      some StillDeactivatedState ∧
    pressAll.isKeyPressedFunc 1 = true ∧
    (Updates ([pressAll].take 1)
      (RegisterCustomControl (Key (init sampleBackend) 1).1 1).1).State 1 =
      some StillActivatedState ∧
    ¬ EdgeDetected (fun f => f.isKeyPressedFunc 1)
      (RegisterCustomControl (Key (init sampleBackend) 1).1 1).1 1 [pressAll] := by
  refine ⟨by decide, by decide, by decide, by decide, rfl, by decide, ?_⟩
  intro h
  have h1 := (h 0 pressAll rfl).1.mpr ⟨rfl, Or.inl rfl⟩
  have h2 : (Updates ([pressAll].take (0 + 1))
      (RegisterCustomControl (Key (init sampleBackend) 1).1 1).1).State 1 =
      some StillActivatedState := by decide
  rw [h2] at h1
  exact absurd h1 (by decide)

/-- C9, amended: in one call of `Update` every registered combination that has
not also been passed to `RegisterCustomControl` (is not also held in
`userControls`) ends in the state that the switch gives for (every key of the
combination has a control that is JustActivated or StillActivated in the
registry as the key loop of this call left it, state of the combination before
the call); and a registered key in a named state is active in that registry
exactly when the backend reports it pressed in this frame, whatever its state
of the frame before. -/
theorem keyCombo_sees_updated_keys (f : Frame) (r : Registry) (n : keyComboName) (c : Control)
    (hwf : r.WF) (hreg : mapGet r.keyComboControls n = some c) (hu : c ∉ r.userRefs) :
    (∃ kcc, r.heap[c]? = some (Object.combo kcc) ∧ r.State c = some kcc.state ∧
      ∃ p : Bool,
        (p = true ↔ ∀ k ∈ kcc.keys, ∃ kc, (updateKeys f r).keyControlAt k = some kc ∧
          IsActiveState kc.state) ∧
        (Update f r).State c = some (transition p kcc.state)) ∧
    (∀ (k : ebiten.Key) (a : Control) (sk : State),
      mapGet r.keyControls k = some a → r.State a = some sk → IsNamedState sk →
      ((∃ kc, (updateKeys f r).keyControlAt k = some kc ∧ IsActiveState kc.state) ↔
        f.isKeyPressedFunc k = true)) := by
  obtain ⟨kcc, ho⟩ := entry_object_combo r hwf (n, c) (mapGet_mem _ _ _ hreg)
  have hready : ComboReady r c kcc.keys kcc.state := ⟨hwf, ⟨n, hreg⟩, hu, ho⟩
  obtain ⟨h1, h2⟩ := keyCombo_reads_updated_keys f r c kcc.keys kcc.state hready
  exact ⟨⟨kcc, ho, State_of_combo_object r c kcc ho, h1⟩, h2⟩

/-- Instance of the amended C9: the combination of keys 1 and 0 requested after
`init` of the sample backend and stored at address 4, in a frame with
everything pressed. -/
theorem keyCombo_sees_updated_keys_witness :
    (∃ kcc, (KeyCombo sampleBackend (init sampleBackend) [1, 0]).1.heap[4]? =
        some (Object.combo kcc) ∧
      (KeyCombo sampleBackend (init sampleBackend) [1, 0]).1.State 4 = some kcc.state ∧
      ∃ p : Bool,
        (p = true ↔ ∀ k ∈ kcc.keys, ∃ kc,
          (updateKeys pressAll
            (KeyCombo sampleBackend (init sampleBackend) [1, 0]).1).keyControlAt k = some kc ∧
          IsActiveState kc.state) ∧
        (Update pressAll (KeyCombo sampleBackend (init sampleBackend) [1, 0]).1).State 4 =
          some (transition p kcc.state)) ∧
    (∀ (k : ebiten.Key) (a : Control) (sk : State),
      mapGet (KeyCombo sampleBackend (init sampleBackend) [1, 0]).1.keyControls k = some a →
      (KeyCombo sampleBackend (init sampleBackend) [1, 0]).1.State a = some sk →
      IsNamedState sk →
      ((∃ kc, (updateKeys pressAll
          (KeyCombo sampleBackend (init sampleBackend) [1, 0]).1).keyControlAt k = some kc ∧
        IsActiveState kc.state) ↔
        pressAll.isKeyPressedFunc k = true)) :=
  keyCombo_sees_updated_keys pressAll (KeyCombo sampleBackend (init sampleBackend) [1, 0]).1
    "B+A" 4 (by decide) (by decide) (by decide)

end clavier
